import Mathlib

/-!
# serialping: the configuration parser and the line driver set-up

A shallow embedding of `src/serialping.c`.  The program is one `main`
function; the embedding follows its text from top to bottom: option
processing (`optionCase`, `processOptions`), the raw terminal settings
(`rawSettings`), the parser of the config string (`parseConfig`) and the
device calls with the transmit loop (`main`, `pingLoop`).

* C strings are lists of characters read up to the first NUL (`strlen`,
  `strchr`, `strtol`, `strncpy`);
* a pointer into a string is the suffix of the string that starts there;
* `uint32_t` and `tcflag_t` values are natural numbers, with the 32-bit
  complement written out where the source uses `~`;
* the constants of `<termios.h>` and the width of `long` come from the host
  platform and are collected in the structure `Host`;
* a `double` is an exact fraction, an infinity or a NaN (`Double`), and its
  operations round to the nearest binary64 value (`roundDouble`, `atof`).
-/

namespace Serialping

/-! ## C strings -/

/-- The terminating character of a C string. -/
def NUL : Char := Char.ofNat 0

/-- `strlen`: the number of characters before the first NUL.  The end of the
list counts as a NUL. -/
def strlen : List Char → Nat
  | [] => 0
  | c :: cs => if c = NUL then 0 else strlen cs + 1

/-- `strchr`: the suffix that starts at the first occurrence of `c`, searched
up to and including the terminating NUL; `none` is the NULL pointer. -/
def strchr : List Char → Char → Option (List Char)
  | [], c => if c = NUL then some [] else none
  | x :: xs, c =>
    if x = c then some (x :: xs)
    else if x = NUL then none
    else strchr xs c

/-- Reading `*p`: the first character at the pointer, the NUL at the end. -/
def deref (p : List Char) : Char := p.headD NUL

/-- `isspace` in the C locale: space, `\t`, `\n`, `\v`, `\f`, `\r`. -/
def isspace (c : Char) : Bool :=
  c.toNat = 32 || (9 ≤ c.toNat && c.toNat ≤ 13)

/-- `isdigit`: the characters `0` to `9`. -/
def isdigit (c : Char) : Bool := 48 ≤ c.toNat && c.toNat ≤ 57

/-- The digit loop of `strtol` in base 10: consumes decimal digits from the
front and accumulates their value; stops at the first other character. -/
def readDigits : List Char → Nat → Nat
  | [], acc => acc
  | c :: cs, acc => if isdigit c then readDigits cs (acc * 10 + (c.toNat - 48)) else acc

/-- `LONG_MAX` for a `long` of the given width. -/
def LONG_MAX (longBits : Nat) : Int := 2 ^ (longBits - 1) - 1

/-- `LONG_MIN` for a `long` of the given width. -/
def LONG_MIN (longBits : Nat) : Int := -(2 ^ (longBits - 1))

/-- The number `strtol(s, NULL, 10)` reads before any clamping: white space
is skipped, an optional sign is read, then the decimal digits; 0 when there
is no digit. -/
def strtolValue (s : List Char) : Int :=
  match s.dropWhile isspace with
  | [] => 0
  | c :: cs =>
    if c = '-' then -(readDigits cs 0 : Int)
    else if c = '+' then (readDigits cs 0 : Int)
    else (readDigits (c :: cs) 0 : Int)

/-- `strtol(s, NULL, 10)`: the number read, clamped to the range of `long`
on overflow. -/
def strtol (longBits : Nat) (s : List Char) : Int :=
  max (LONG_MIN longBits) (min (LONG_MAX longBits) (strtolValue s))

/-- `strncpy(dest, src, n)`: the first `n` characters of the string `src`,
padded with NULs up to `n`; the rest of `dest` is left as it was. -/
def strncpy (dest src : List Char) (n : Nat) : List Char :=
  let body := (src.takeWhile (fun c => c != NUL)).take n
  body ++ List.replicate (n - body.length) NUL ++ dest.drop n

/-! ## Machine words -/

/-- The largest `uint32_t`. -/
def UINT32_MAX : Nat := 4294967295

/-- Conversion of a `long` to `uint32_t`: reduction modulo `2^32`. -/
def toUInt32 (v : Int) : Nat := (v % 4294967296).toNat

/-- The statement `x &= ~m` on a 32-bit word. -/
def clearBits (x m : Nat) : Nat := x &&& (UINT32_MAX ^^^ m)

/-- The statement `x |= m` on a 32-bit word. -/
def setBits (x m : Nat) : Nat := x ||| m

/-! ## The host platform -/

/-- What the host's headers define: the width of `long` (at least 32 bits
in every C implementation) and the constants of `<termios.h>`.  `B128000`, `B256000` and `CBAUD` are tested with `#ifdef` in
the source, so they are optional. -/
structure Host where
  longBits : Nat
  long_ge : 32 ≤ longBits
  B0 : Nat
  B50 : Nat
  B75 : Nat
  B110 : Nat
  B134 : Nat
  B150 : Nat
  B200 : Nat
  B300 : Nat
  B600 : Nat
  B1200 : Nat
  B2400 : Nat
  B4800 : Nat
  B9600 : Nat
  B19200 : Nat
  B38400 : Nat
  B57600 : Nat
  B115200 : Nat
  B128000 : Option Nat
  B230400 : Nat
  B256000 : Option Nat
  CBAUD : Option Nat
  CSIZE : Nat
  CS5 : Nat
  CS6 : Nat
  CS7 : Nat
  CS8 : Nat
  CSTOPB : Nat
  CREAD : Nat
  PARENB : Nat
  PARODD : Nat
  CLOCAL : Nat
  IGNBRK : Nat
  BRKINT : Nat
  PARMRK : Nat
  ISTRIP : Nat
  INLCR : Nat
  IGNCR : Nat
  ICRNL : Nat
  IXON : Nat
  OPOST : Nat
  ECHO : Nat
  ECHONL : Nat
  ICANON : Nat
  ISIG : Nat
  IEXTEN : Nat

/-- Linux with glibc on a 64-bit machine: `long` has 64 bits, the termios
constants are those of `bits/termios.h`; `B128000` and `B256000` do not
exist there. -/
def linux : Host where
  longBits := 64
  long_ge := by decide
  B0 := 0o0
  B50 := 0o1
  B75 := 0o2
  B110 := 0o3
  B134 := 0o4
  B150 := 0o5
  B200 := 0o6
  B300 := 0o7
  B600 := 0o10
  B1200 := 0o11
  B2400 := 0o13
  B4800 := 0o14
  B9600 := 0o15
  B19200 := 0o16
  B38400 := 0o17
  B57600 := 0o10001
  B115200 := 0o10002
  B128000 := none
  B230400 := 0o10003
  B256000 := none
  CBAUD := some 0o10017
  CSIZE := 0o60
  CS5 := 0o0
  CS6 := 0o20
  CS7 := 0o40
  CS8 := 0o60
  CSTOPB := 0o100
  CREAD := 0o200
  PARENB := 0o400
  PARODD := 0o1000
  CLOCAL := 0o4000
  IGNBRK := 0o1
  BRKINT := 0o2
  PARMRK := 0o10
  ISTRIP := 0o40
  INLCR := 0o100
  IGNCR := 0o200
  ICRNL := 0o400
  IXON := 0o2000
  OPOST := 0o1
  ECHO := 0o10
  ECHONL := 0o100
  ICANON := 0o2
  ISIG := 0o1
  IEXTEN := 0o100000

/-! ## Terminal attributes -/

/-- The fields of `struct termios` the program writes.  The control
characters `c_cc` and the line discipline are cleared by the `memset` and
never written afterwards. -/
structure Termios where
  c_iflag : Nat
  c_oflag : Nat
  c_cflag : Nat
  c_lflag : Nat
  c_ispeed : Nat
  c_ospeed : Nat
  deriving DecidableEq, Repr

/-- The structure after `memset(&ts, 0, sizeof(ts))`. -/
def Termios.zero : Termios :=
  { c_iflag := 0, c_oflag := 0, c_cflag := 0, c_lflag := 0, c_ispeed := 0, c_ospeed := 0 }

/-- Lines 202 to 210: the raw terminal settings, built from the cleared
structure. -/
def rawSettings (K : Host) : Termios :=
  let ts := Termios.zero
  let iMask := K.IGNBRK ||| K.BRKINT ||| K.PARMRK ||| K.ISTRIP ||| K.INLCR ||| K.IGNCR |||
    K.ICRNL ||| K.IXON
  let ts := { ts with c_iflag := clearBits ts.c_iflag iMask }
  let ts := { ts with c_oflag := clearBits ts.c_oflag K.OPOST }
  let ts := { ts with c_cflag := clearBits ts.c_cflag K.PARENB }
  let ts := { ts with c_cflag := setBits ts.c_cflag K.CLOCAL }
  let ts := { ts with c_cflag := clearBits ts.c_cflag K.CREAD }
  let lMask := K.ECHO ||| K.ECHONL ||| K.ICANON ||| K.ISIG ||| K.IEXTEN
  { ts with c_lflag := clearBits ts.c_lflag lMask }

/-! ## The configuration parser (lines 212 to 365) -/

/-- The parity of the spec's `LineConfiguration`. -/
inductive ParityMode where
  | None
  | Even
  | Odd
  deriving DecidableEq, Repr

/-- The spec's `LineConfiguration`: the case labels the four switches of the
parser took (the source keeps only their encoding in `c_cflag`). -/
structure LineConfiguration where
  baudRate : Nat
  characterSize : Nat
  parityMode : ParityMode
  stopBits : Nat
  deriving DecidableEq, Repr

/-- The six ways the parser ends with `return -1`, one per message. -/
inductive ConfigError where
  /-- Message "Character Size, Parity, and Stop Bit length not specified." -/
  | notSpecified
  /-- Message "Character Size, Parity, and Stop Bit length improperly specified." -/
  | improperlySpecified
  /-- Message "Invalid Baud Rate specified." -/
  | InvalidBaudRate
  /-- Message "Invalid Character Size specified." -/
  | InvalidCharacterSize
  /-- Message "Invalid Parity specified." -/
  | InvalidParity
  /-- Message "Invalid number of Stop Bits specified." -/
  | InvalidStopBits
  deriving DecidableEq, Repr

/-- The `switch(baudRate)` of lines 228 to 297: the `B` constant of the case
taken, `none` for the `default` case.  The cases for 128000 and 256000 exist
only where the host defines their constants. -/
def baudSwitch (K : Host) (baudRate : Nat) : Option Nat :=
  if baudRate = 50 then some K.B50
  else if baudRate = 75 then some K.B75
  else if baudRate = 110 then some K.B110
  else if baudRate = 134 then some K.B134
  else if baudRate = 150 then some K.B150
  else if baudRate = 200 then some K.B200
  else if baudRate = 300 then some K.B300
  else if baudRate = 600 then some K.B600
  else if baudRate = 1200 then some K.B1200
  else if baudRate = 2400 then some K.B2400
  else if baudRate = 4800 then some K.B4800
  else if baudRate = 9600 then some K.B9600
  else if baudRate = 19200 then some K.B19200
  else if baudRate = 38400 then some K.B38400
  else if baudRate = 57600 then some K.B57600
  else if baudRate = 115200 then some K.B115200
  else if baudRate = 128000 then K.B128000
  else if baudRate = 230400 then some K.B230400
  else if baudRate = 256000 then K.B256000
  else none

/-- Lines 298 to 304: the speed goes into `c_cflag` under the `CBAUD` mask
where the host has one, and through `cfsetispeed` and `cfsetospeed`
otherwise. -/
def setSpeed (K : Host) (ts : Termios) (baudRate : Nat) : Termios :=
  match K.CBAUD with
  | some cbaud =>
    let ts := { ts with c_cflag := clearBits ts.c_cflag cbaud }
    { ts with c_cflag := setBits ts.c_cflag baudRate }
  | none => { ts with c_ispeed := baudRate, c_ospeed := baudRate }

/-- The `switch` of lines 310 to 328: the number of bits and the `CS`
constant of the case taken, `none` for the `default` case. -/
def charSizeSwitch (K : Host) (c : Char) : Option (Nat × Nat) :=
  if c = '5' then some (5, K.CS5)
  else if c = '6' then some (6, K.CS6)
  else if c = '7' then some (7, K.CS7)
  else if c = '8' then some (8, K.CS8)
  else none

/-- The `switch` of lines 333 to 350: the parity and the new `c_cflag`,
`none` for the `default` case. -/
def paritySwitch (K : Host) (c : Char) (cflag : Nat) : Option (ParityMode × Nat) :=
  if c = 'N' then some (ParityMode.None, clearBits cflag K.PARENB)
  else if c = 'E' then some (ParityMode.Even, clearBits (setBits cflag K.PARENB) K.PARODD)
  else if c = 'O' then some (ParityMode.Odd, setBits (setBits cflag K.PARENB) K.PARODD)
  else none

/-- The `switch` of lines 353 to 365: the stop bit count and the new
`c_cflag`, `none` for the `default` case. -/
def stopBitsSwitch (K : Host) (c : Char) (cflag : Nat) : Option (Nat × Nat) :=
  if c = '1' then some (1, clearBits cflag K.CSTOPB)
  else if c = '2' then some (2, setBits cflag K.CSTOPB)
  else none

deriving instance DecidableEq for Except

/-- Lines 212 to 365 of `main`: parses `configStr` and writes the framing
into `ts`.  An error is the `return -1` after the message of that name. -/
def parseConfig (K : Host) (ts : Termios) (configStr : List Char) :
    Except ConfigError (LineConfiguration × Termios) :=
  match strchr configStr '_' with
  | none => .error .notSpecified
  | some underscorePtr =>
    if strlen underscorePtr ≠ 4 then .error .improperlySpecified
    else
      let baudRate := toUInt32 (strtol K.longBits configStr)
      match baudSwitch K baudRate with
      | none => .error .InvalidBaudRate
      | some speed =>
        let ts := setSpeed K ts speed
        let ts := { ts with c_cflag := clearBits ts.c_cflag K.CSIZE }
        let ts := { ts with c_cflag := setBits ts.c_cflag K.CS8 }
        let ts := { ts with c_cflag := clearBits ts.c_cflag K.CSTOPB }
        let underscorePtr := underscorePtr.tail
        match charSizeSwitch K (deref underscorePtr) with
        | none => .error .InvalidCharacterSize
        | some (bits, charSize) =>
          let ts := { ts with c_cflag := clearBits ts.c_cflag K.CSIZE }
          let ts := { ts with c_cflag := setBits ts.c_cflag charSize }
          let underscorePtr := underscorePtr.tail
          match paritySwitch K (deref underscorePtr) ts.c_cflag with
          | none => .error .InvalidParity
          | some (parity, cflag) =>
            let ts := { ts with c_cflag := cflag }
            let underscorePtr := underscorePtr.tail
            match stopBitsSwitch K (deref underscorePtr) ts.c_cflag with
            | none => .error .InvalidStopBits
            | some (stop, cflag) =>
              let ts := { ts with c_cflag := cflag }
              .ok ({ baudRate := baudRate, characterSize := bits,
                     parityMode := parity, stopBits := stop }, ts)

/-! ## `main`: option processing (lines 96 to 199) -/

/-- `ARG_D` of `ARG_CONSTANTS`. -/
def ARG_D : Nat := 0x001
/-- `ARG_C` of `ARG_CONSTANTS`. -/
def ARG_C : Nat := 0x002
/-- `ARG_I` of `ARG_CONSTANTS`. -/
def ARG_I : Nat := 0x004
/-- `ARG_P` of `ARG_CONSTANTS`. -/
def ARG_P : Nat := 0x008
/-- `ARG_HELP` of `ARG_CONSTANTS`. -/
def ARG_HELP : Nat := 0x010
/-- `ARG_AUTO_PARAMTEST` of `ARG_CONSTANTS`. -/
def ARG_AUTO_PARAMTEST : Nat := 0x100
/-- `ARG_AUTO_BAUDTEST` of `ARG_CONSTANTS`. -/
def ARG_AUTO_BAUDTEST : Nat := 0x200

/-- `CONST_DEVNAMESTR` of `STRVAR_CONSTANTS`. -/
def CONST_DEVNAMESTR : Nat := 30
/-- `CONST_CONFIGSTR` of `STRVAR_CONSTANTS`. -/
def CONST_CONFIGSTR : Nat := 11
/-- `CONST_PATTERNSTR` of `STRVAR_CONSTANTS`. -/
def CONST_PATTERNSTR : Nat := 81

/-- One round of `getopt_long` that did not return -1: the value returned
and `optarg` (`none` is NULL).  The round also carries the two
floating-point results of the interval case, `atof(optarg) > maxInterval`
and `(uint32_t) (atof(optarg) * 1000000.0)`; `intervalOption` computes them
from `optarg`. -/
structure GetoptRound where
  getoptRet : Nat
  optarg : Option (List Char)
  intervalTooLarge : Bool
  intervalMicros : Nat
  deriving DecidableEq, Repr

/-- The variables of `main` that option processing writes, and the global
`requiredArgs`. -/
structure Options where
  devNameStr : List Char
  configStr : List Char
  pingInterval : Nat
  patternStr : List Char
  patternLength : Nat
  requiredArgs : Nat
  deriving DecidableEq, Repr

/-- The initialiser of `patternStr`. -/
def defaultPattern : List Char := "The quick brown fox jumped over the lazy dog.".toList

/-- Lines 94 and 115 to 124: the buffers cleared by `memset`, the default
interval, the default pattern in its 81-byte array, both required options
still missing. -/
def Options.initial : Options :=
  let patternStr := defaultPattern ++ List.replicate (CONST_PATTERNSTR - defaultPattern.length) NUL
  { devNameStr := List.replicate CONST_DEVNAMESTR NUL
    configStr := List.replicate CONST_CONFIGSTR NUL
    pingInterval := 100000
    patternStr := patternStr
    patternLength := strlen patternStr
    requiredArgs := ARG_D ||| ARG_C }

/-- What the program prints before it returns from set-up: the usage text
or one of the `ERROR:` lines. -/
inductive Message where
  /-- The text of `Usage`. -/
  | usage
  /-- Message "Device name is too long." -/
  | deviceNameTooLong
  /-- Message "Config string is too long." -/
  | configTooLong
  /-- Message "Cannot have an interval that large. Why would you want to?" -/
  | intervalTooLarge
  /-- Message "Pattern string is too long." -/
  | patternTooLong
  /-- One of the six messages of the configuration parser. -/
  | config (e : ConfigError)
  /-- Message "User does not have permission to read, write, or execute commands on" -/
  | noPermission
  /-- Message "open() call failed." -/
  | openFailed
  /-- Message "goto cleanup_open." -/
  | tcsetattrFailed
  deriving DecidableEq, Repr

/-- The calls `main` makes on the device, in order, with their arguments;
`perror` is the warning after a failed `write`. -/
inductive DevOp where
  | access (path : List Char)
  | open (path : List Char)
  | tcsetattr (fd : Int) (ts : Termios)
  | write (fd : Int) (buf : List Char) (count : Nat)
  | perror
  | usleep (usec : Nat)
  | close (fd : Int)
  deriving DecidableEq, Repr

/-- How a run of `main` ends: the value returned (`none` when the run reads
a NULL `optarg` and has no defined result), the message printed on the way
out, and every device call made. -/
structure Run where
  retVal : Option Int
  message : Option Message
  trace : List DevOp
  deriving DecidableEq, Repr

/-- The body of the `switch(getoptRet)` of lines 130 to 191 for one round:
the updated variables when the case ends in `break`, the finished run when
it returns. -/
def optionCase (o : Options) (g : GetoptRound) : Except Run Options :=
  if g.getoptRet = 104 ∨ g.getoptRet = ARG_HELP then
    .error { retVal := some 0, message := some .usage, trace := [] }
  else if g.getoptRet = 100 ∨ g.getoptRet = ARG_D then
    match g.optarg with
    | none => .error { retVal := none, message := none, trace := [] }
    | some optarg =>
      if strlen optarg ≥ CONST_DEVNAMESTR then
        .error { retVal := some (-1), message := some .deviceNameTooLong, trace := [] }
      else
        .ok { o with devNameStr := strncpy o.devNameStr optarg (CONST_DEVNAMESTR - 1)
                     requiredArgs := clearBits o.requiredArgs ARG_D }
  else if g.getoptRet = 99 ∨ g.getoptRet = ARG_C then
    match g.optarg with
    | none => .error { retVal := none, message := none, trace := [] }
    | some optarg =>
      if strlen optarg ≥ CONST_CONFIGSTR then
        .error { retVal := some (-1), message := some .configTooLong, trace := [] }
      else
        .ok { o with configStr := strncpy o.configStr optarg (CONST_CONFIGSTR - 1)
                     requiredArgs := clearBits o.requiredArgs ARG_C }
  else if g.getoptRet = 105 ∨ g.getoptRet = ARG_I then
    match g.optarg with
    | none => .error { retVal := none, message := none, trace := [] }
    | some _ =>
      if g.intervalTooLarge then
        .error { retVal := some (-1), message := some .intervalTooLarge, trace := [] }
      else
        .ok { o with pingInterval := g.intervalMicros }
  else if g.getoptRet = 112 ∨ g.getoptRet = ARG_P then
    match g.optarg with
    | none => .error { retVal := none, message := none, trace := [] }
    | some optarg =>
      if strlen optarg ≥ CONST_PATTERNSTR then
        .error { retVal := some (-1), message := some .patternTooLong, trace := [] }
      else
        let patternStr := strncpy o.patternStr optarg (CONST_PATTERNSTR - 1)
        .ok { o with patternStr := patternStr, patternLength := strlen patternStr }
  else if g.getoptRet = ARG_AUTO_PARAMTEST then .ok o
  else if g.getoptRet = ARG_AUTO_BAUDTEST then .ok o
  else .error { retVal := some (-1), message := some .usage, trace := [] }

/-- The `while` loop of lines 127 to 192 over the rounds of `getopt_long`, in
command-line order. -/
def processOptions (o : Options) : List GetoptRound → Except Run Options
  | [] => .ok o
  | g :: gs =>
    match optionCase o g with
    | .error r => .error r
    | .ok o1 => processOptions o1 gs

/-! ## `main`: the device (lines 368 to 415) -/

/-- What the operating system answers: the results of `access`, `open` and
`tcsetattr`, the result of the write of each tick, and the number of ticks
the loop runs before it reads `keepRunning` as false.  A run that is never
interrupted does not return and has no `Run`. -/
structure Env where
  accessRet : Int
  openRet : Int
  tcsetattrRet : Int
  writeRet : Nat → Int
  ticks : Nat

/-- The loop of lines 397 to 406: `n` more ticks, the next one being tick
number `i`.  Each tick writes the pattern, warns when the write failed and
sleeps. -/
def pingLoop (env : Env) (spFd : Int) (o : Options) : Nat → Nat → List DevOp
  | 0, _ => []
  | n + 1, i =>
    [DevOp.write spFd o.patternStr o.patternLength]
      ++ (if env.writeRet i < 0 then [DevOp.perror] else [])
      ++ [DevOp.usleep o.pingInterval]
      ++ pingLoop env spFd o n (i + 1)

/-- The function `main`: `argv` is given by the rounds of `getopt_long` it
produces. -/
def main (K : Host) (argv : List GetoptRound) (env : Env) : Run :=
  match processOptions Options.initial argv with
  | .error r => r
  | .ok o =>
    if o.requiredArgs ≠ 0 then
      { retVal := some (-1), message := some .usage, trace := [] }
    else
      match parseConfig K (rawSettings K) o.configStr with
      | .error e => { retVal := some (-1), message := some (.config e), trace := [] }
      | .ok (_, ts) =>
        if env.accessRet ≠ 0 then
          { retVal := some (-1), message := some .noPermission,
            trace := [DevOp.access o.devNameStr] }
        else
          let spFd := env.openRet
          if spFd = -1 then
            { retVal := some (-1), message := some .openFailed,
              trace := [DevOp.access o.devNameStr, DevOp.open o.devNameStr] }
          else if env.tcsetattrRet ≠ 0 then
            { retVal := some (-1), message := some .tcsetattrFailed,
              trace := [DevOp.access o.devNameStr, DevOp.open o.devNameStr,
                        DevOp.tcsetattr spFd ts, DevOp.close spFd] }
          else
            { retVal := some 0, message := none,
              trace := [DevOp.access o.devNameStr, DevOp.open o.devNameStr,
                        DevOp.tcsetattr spFd ts]
                ++ pingLoop env spFd o env.ticks 0 ++ [DevOp.close spFd] }

/-! ## The vocabulary of the specification -/

/-- The supported baud rates of the specification: the seventeen rates every
host has, and 128000 and 256000 where the host defines their constants. -/
def supportedBauds (K : Host) : List Nat :=
  [50, 75, 110, 134, 150, 200, 300, 600, 1200, 2400, 4800, 9600, 19200, 38400, 57600,
    115200, 230400]
    ++ (if K.B128000.isSome then [128000] else [])
    ++ (if K.B256000.isSome then [256000] else [])

/-- The letter of a parity in a descriptor: `N`, `E` or `O`. -/
def ParityMode.letter : ParityMode → Char
  | .None => 'N'
  | .Even => 'E'
  | .Odd => 'O'

/-- The descriptor of a configuration: the decimal digits of the rate, the
separator, the size digit, the parity letter and the stop digit. -/
def descriptor (b s : Nat) (p : ParityMode) (t : Nat) : List Char :=
  Nat.toDigits 10 b ++ '_' :: (Nat.toDigits 10 s ++ p.letter :: Nat.toDigits 10 t)

/-- The part of a descriptor before its first underscore. -/
def beforeSeparator (s : List Char) : List Char := s.takeWhile (fun c => c != '_')

/-- The part of a descriptor from its first underscore on, the underscore
included. -/
def fromSeparator (s : List Char) : List Char := s.dropWhile (fun c => c != '_')

/-- The six checks of the specification on a descriptor, in the order the
specification fixes, each with the error it reports when it fails: the
underscore is present; the part from the underscore on has 4 characters; the
rate the parser reads (`strtol` stored in a `uint32_t`) is a supported one;
the three characters after the underscore are a size, a parity and a stop
count. -/
def validationOrder (K : Host) (s : List Char) : List (Bool × ConfigError) :=
  [ (decide ('_' ∈ s), ConfigError.notSpecified),
    (decide ((fromSeparator s).length = 4), ConfigError.improperlySpecified),
    (decide (toUInt32 (strtol K.longBits s) ∈ supportedBauds K), ConfigError.InvalidBaudRate),
    (decide ((fromSeparator s).getD 1 NUL ∈ ['5', '6', '7', '8']),
      ConfigError.InvalidCharacterSize),
    (decide ((fromSeparator s).getD 2 NUL ∈ ['N', 'E', 'O']), ConfigError.InvalidParity),
    (decide ((fromSeparator s).getD 3 NUL ∈ ['1', '2']), ConfigError.InvalidStopBits) ]

/-- The error of the first check that fails, `none` when every check
passes. -/
def firstFailure : List (Bool × ConfigError) → Option ConfigError
  | [] => none
  | (passed, e) :: rest => if passed then firstFailure rest else some e

/-- The error a parse ended with, `none` for an accepted descriptor. -/
def errorOf {α : Type} : Except ConfigError α → Option ConfigError
  | .error e => some e
  | .ok _ => none

/-- The baud candidate of a descriptor: the number written before the
separator, read the way `strtol` reads it, with no limit on its size. -/
def baudCandidate (s : List Char) : Int := strtolValue (beforeSeparator s)

/-- The number a run of decimal digits denotes. -/
def decimalValue (ds : List Char) : Nat := ds.foldl (fun n c => 10 * n + (c.toNat - 48)) 0

/-- The `CS` constant of a character size. -/
def sizeConstant (K : Host) (characterSize : Nat) : Nat :=
  if characterSize = 5 then K.CS5
  else if characterSize = 6 then K.CS6
  else if characterSize = 7 then K.CS7
  else K.CS8

/-- The parity bits of a parity: none for `N`, `PARENB` for `E`, `PARENB` and
`PARODD` for `O`. -/
def parityBits (K : Host) : ParityMode → Nat
  | .None => 0
  | .Even => K.PARENB
  | .Odd => K.PARENB ||| K.PARODD

/-- The stop bit of a stop count: clear for 1, `CSTOPB` for 2. -/
def stopBit (K : Host) (stopBits : Nat) : Nat :=
  if stopBits = 2 then K.CSTOPB else 0

/-- The word `c_cflag` carries exactly the framing of `cfg` at the speed
constant `speed`: each field under its mask holds its constant, and the
whole word is `CLOCAL` with the four fields and nothing else. -/
def CarriesFraming (K : Host) (cbaud speed : Nat) (cfg : LineConfiguration) (cflag : Nat) :
    Prop :=
  cflag &&& cbaud = speed ∧
  cflag &&& K.CSIZE = sizeConstant K cfg.characterSize ∧
  cflag &&& (K.PARENB ||| K.PARODD) = parityBits K cfg.parityMode ∧
  cflag &&& K.CSTOPB = stopBit K cfg.stopBits ∧
  cflag = K.CLOCAL ||| speed ||| sizeConstant K cfg.characterSize
    ||| parityBits K cfg.parityMode ||| stopBit K cfg.stopBits

instance (K : Host) (cbaud speed : Nat) (cfg : LineConfiguration) (cflag : Nat) :
    Decidable (CarriesFraming K cbaud speed cfg cflag) := by
  unfold CarriesFraming; infer_instance

/-- An environment in which every call succeeds on descriptor 3 and the
interrupt arrives after two ticks. -/
def quietEnv : Env :=
  { accessRet := 0, openRet := 3, tcsetattrRet := 0, writeRet := fun _ => 0, ticks := 2 }

/-- The round of `getopt_long` for a short option with its argument, written
in ASCII: one character for each byte of the argument. -/
def shortOption (c : Char) (optarg : String) : GetoptRound :=
  { getoptRet := c.toNat, optarg := some optarg.toList, intervalTooLarge := false,
    intervalMicros := 0 }

/-- The string a buffer holds: its characters before the first NUL. -/
def cstring (buf : List Char) : List Char := buf.takeWhile (fun c => c != NUL)

/-- The round is the pattern option: `getopt_long` returned `p` or
`ARG_P`. -/
def GetoptRound.isPattern (g : GetoptRound) : Prop := g.getoptRet = 112 ∨ g.getoptRet = ARG_P

/-- The round is the help option: `getopt_long` returned `h` or
`ARG_HELP`. -/
def GetoptRound.isHelp (g : GetoptRound) : Prop := g.getoptRet = 104 ∨ g.getoptRet = ARG_HELP

/-- The round is one of the four options whose case reads `optarg`: device,
config, interval or pattern. -/
def GetoptRound.takesArgument (g : GetoptRound) : Prop :=
  g.getoptRet ∈ [100, ARG_D, 99, ARG_C, 105, ARG_I, 112, ARG_P]

/-- The round comes with its argument where its case reads one, and is not
the help option. -/
def GetoptRound.plain (g : GetoptRound) : Prop :=
  ¬ g.isHelp ∧ (g.takesArgument → g.optarg ≠ none)

instance (g : GetoptRound) : Decidable g.isPattern := by
  unfold GetoptRound.isPattern; infer_instance

instance (g : GetoptRound) : Decidable g.isHelp := by
  unfold GetoptRound.isHelp; infer_instance

instance (g : GetoptRound) : Decidable g.takesArgument := by
  unfold GetoptRound.takesArgument; infer_instance

instance (g : GetoptRound) : Decidable g.plain := by
  unfold GetoptRound.plain; infer_instance

/-! ## The vocabulary of the claims on `main` -/

/-- The round is the device option: `getopt_long` returned `d` or
`ARG_D`. -/
def GetoptRound.isDevice (g : GetoptRound) : Prop := g.getoptRet = 100 ∨ g.getoptRet = ARG_D

/-- The round is the config option: `getopt_long` returned `c` or
`ARG_C`. -/
def GetoptRound.isConfig (g : GetoptRound) : Prop := g.getoptRet = 99 ∨ g.getoptRet = ARG_C

/-- The round is the interval option: `getopt_long` returned `i` or
`ARG_I`. -/
def GetoptRound.isInterval (g : GetoptRound) : Prop := g.getoptRet = 105 ∨ g.getoptRet = ARG_I

instance (g : GetoptRound) : Decidable g.isDevice := by
  unfold GetoptRound.isDevice; infer_instance

instance (g : GetoptRound) : Decidable g.isConfig := by
  unfold GetoptRound.isConfig; infer_instance

instance (g : GetoptRound) : Decidable g.isInterval := by
  unfold GetoptRound.isInterval; infer_instance

/-- The messages of the specification's ArgumentError: the usage text for a
missing required option or an unknown one, and the four messages for an
oversized device, config or pattern string and for an interval out of
range. -/
def Message.isArgumentError : Message → Prop
  | .usage => True
  | .deviceNameTooLong => True
  | .configTooLong => True
  | .intervalTooLarge => True
  | .patternTooLong => True
  | _ => False

instance (m : Message) : Decidable m.isArgumentError := by
  cases m <;> unfold Message.isArgumentError <;> infer_instance

/-- The device call is a `close`. -/
def DevOp.isClose : DevOp → Bool
  | .close _ => true
  | _ => false

/-- The device call is a `write`. -/
def DevOp.isWrite : DevOp → Bool
  | .write _ _ _ => true
  | _ => false

/-- The device call is the `perror` warning. -/
def DevOp.isPerror : DevOp → Bool
  | .perror => true
  | _ => false

/-- Option processing reaches a help option: the rounds before one are
processed and its case, which prints the usage text and returns 0, runs. -/
def helpReached (argv : List GetoptRound) : Prop :=
  ∃ pre g post o, argv = pre ++ g :: post ∧ processOptions Options.initial pre = .ok o ∧
    g.isHelp

/-- The run reached the transmit loop and left it when the running flag was
cleared: the three set-up calls succeeded, the loop ran its ticks, and the
handle was closed. -/
def loopLeft (K : Host) (argv : List GetoptRound) (env : Env) : Prop :=
  ∃ o cfg ts, processOptions Options.initial argv = .ok o ∧ o.requiredArgs = 0 ∧
    parseConfig K (rawSettings K) o.configStr = .ok (cfg, ts) ∧
    env.accessRet = 0 ∧ env.openRet ≠ -1 ∧ env.tcsetattrRet = 0 ∧
    (main K argv env).trace =
      [DevOp.access o.devNameStr, DevOp.open o.devNameStr, DevOp.tcsetattr env.openRet ts]
        ++ pingLoop env env.openRet o env.ticks 0 ++ [DevOp.close env.openRet]

/-- The three buffers end in a NUL at their last byte: byte 29 of the device
name, byte 10 of the config string and byte 80 of the pattern. -/
def Options.terminated (o : Options) : Prop :=
  o.devNameStr.drop 29 = [NUL] ∧ o.configStr.drop 10 = [NUL] ∧ o.patternStr.drop 80 = [NUL]

/-- A buffer of `size` bytes that holds the string `s` and nothing else: the
characters of `s` followed by NULs up to the size. -/
def bufferOf (size : Nat) (s : List Char) : List Char :=
  cstring s ++ List.replicate (size - strlen s) NUL

/-- The mask of required options: the bit `ARG_D` while no device option was
seen, the bit `ARG_C` while no config option was seen. -/
def requiredMask (deviceSeen configSeen : Bool) : Nat :=
  (if deviceSeen then 0 else ARG_D) ||| (if configSeen then 0 else ARG_C)

/-- An environment whose device is not writable: `access` fails. -/
def deniedEnv : Env :=
  { accessRet := -1, openRet := 3, tcsetattrRet := 0, writeRet := fun _ => 0, ticks := 2 }

/-- An environment whose `tcsetattr` fails on the opened descriptor 3. -/
def rejectingEnv : Env :=
  { accessRet := 0, openRet := 3, tcsetattrRet := -1, writeRet := fun _ => 0, ticks := 2 }

/-- An environment whose `open` fails. -/
def closedEnv : Env :=
  { accessRet := 0, openRet := -1, tcsetattrRet := 0, writeRet := fun _ => 0, ticks := 2 }

/-- An environment in which the write of the second tick fails and the
interrupt arrives after three ticks. -/
def lossyEnv : Env :=
  { accessRet := 0, openRet := 3, tcsetattrRet := 0,
    writeRet := fun i => if i = 1 then -1 else 45, ticks := 3 }

/-- The variables after the options `-p "a longer first pattern" -p ab`. -/
def optionsAfterPatterns : Options :=
  { Options.initial with patternStr := bufferOf 81 "ab".toList, patternLength := 2 }

/-- The variables after the options `-d /dev/ttyS0 -d ""`. -/
def optionsAfterDevices : Options :=
  { Options.initial with devNameStr := List.replicate 30 NUL, requiredArgs := 2 }

/-- The variables after the options `-c 50_5N1 -c 115200_8N1`. -/
def optionsAfterConfigs : Options :=
  { Options.initial with configStr := "115200_8N1".toList ++ [NUL], requiredArgs := 1 }

/-! ## The table of baud rates and the framing of an attribute set -/

/-- The table of the specification: every rate it names, with the constant
`<termios.h>` gives that rate (`B50` for 50, and so on); 128000 and 256000
have a constant only where the host defines one. -/
def baudTable (K : Host) : List (Nat × Option Nat) :=
  [(50, some K.B50), (75, some K.B75), (110, some K.B110), (134, some K.B134),
   (150, some K.B150), (200, some K.B200), (300, some K.B300), (600, some K.B600),
   (1200, some K.B1200), (2400, some K.B2400), (4800, some K.B4800), (9600, some K.B9600),
   (19200, some K.B19200), (38400, some K.B38400), (57600, some K.B57600),
   (115200, some K.B115200), (128000, K.B128000), (230400, some K.B230400),
   (256000, K.B256000)]

/-- The `B` constant of a rate, read from the table; `none` for a rate the
table does not name or the host has no constant for. -/
def baudConstant (K : Host) (rate : Nat) : Option Nat :=
  ((baudTable K).lookup rate).join

/-- The rate a speed field stands for: the rate of the table whose constant
the field holds. -/
def rateOfConstant (K : Host) (speed : Nat) : Option Nat :=
  ((baudTable K).find? (fun e => decide (e.2 = some speed))).map Prod.fst

/-- The character size a `CSIZE` field stands for. -/
def sizeOfConstant (K : Host) (field : Nat) : Option Nat :=
  if field = K.CS5 then some 5
  else if field = K.CS6 then some 6
  else if field = K.CS7 then some 7
  else if field = K.CS8 then some 8
  else none

/-- The speed an attribute set carries: the field under `CBAUD` in `c_cflag`
where the host has the mask, the output speed otherwise. -/
def speedField (K : Host) (ts : Termios) : Nat :=
  match K.CBAUD with
  | some cbaud => ts.c_cflag &&& cbaud
  | none => ts.c_ospeed

/-- The framing a terminal driver reads off an attribute set: the rate from
the speed field, the size from the `CSIZE` field, no parity when `PARENB` is
clear and otherwise odd or even parity after `PARODD`, two stop bits when
`CSTOPB` is set and one otherwise. -/
def decodeFraming (K : Host) (ts : Termios) : Option LineConfiguration :=
  match rateOfConstant K (speedField K ts), sizeOfConstant K (ts.c_cflag &&& K.CSIZE) with
  | some rate, some size =>
    some { baudRate := rate, characterSize := size,
           parityMode :=
             if ts.c_cflag &&& K.PARENB = 0 then ParityMode.None
             else if ts.c_cflag &&& K.PARODD = 0 then ParityMode.Even
             else ParityMode.Odd,
           stopBits := if ts.c_cflag &&& K.CSTOPB = 0 then 1 else 2 }
  | _, _ => none

/-- The attribute set with the framing written into cleared raw settings:
every word zero except `c_cflag`, which is `CLOCAL` with the speed constant,
the size constant, the parity bits and the stop bit. -/
def framedSettings (K : Host) (speed : Nat) (cfg : LineConfiguration) : Termios :=
  { Termios.zero with
    c_cflag := K.CLOCAL ||| speed ||| sizeConstant K cfg.characterSize
      ||| parityBits K cfg.parityMode ||| stopBit K cfg.stopBits }

/-- The variables after the options `-d dev -c cfg` for a device name of at
most 29 and a config string of at most 10 characters, both written in
ASCII. -/
def optionsWith (dev cfg : String) : Options :=
  { Options.initial with
    devNameStr := bufferOf 30 dev.toList, configStr := bufferOf 11 cfg.toList,
    requiredArgs := 0 }

/-- The round of `getopt_long` for a long option with an optional argument
that is written without `=value`: the value of the option table is returned
and `optarg` is NULL. -/
def bareLongOption (val : Nat) : GetoptRound :=
  { getoptRet := val, optarg := none, intervalTooLarge := false, intervalMicros := 0 }

/-! ## The interval option: `double` arithmetic (lines 157 to 172) -/

/-- A value of the type `double`, the binary64 format of IEEE 754: a finite
value `num / den` with its sign, an infinity or a NaN.  The operations below
give every finite value in lowest terms, zero as `0 / 1`. -/
inductive Double where
  | finite (negative : Bool) (num den : Nat)
  | infinity (negative : Bool)
  | nan
  deriving DecidableEq, Repr

/-- The number of binary digits of `n` added to `count`, in at most `fuel`
steps; `n` steps are enough for `n`. -/
def bitLength : Nat → Nat → Nat → Nat
  | 0, _, count => count
  | fuel + 1, n, count => if n = 0 then count else bitLength fuel (n / 2) (count + 1)

/-- The exponent of the highest power of two that is at most `n / d`, for
positive `n` and `d`. -/
def floorLog2 (n d : Nat) : Int :=
  let e : Int := (bitLength n n 0 : Int) - (bitLength d d 0 : Int)
  if 0 ≤ e then
    if d * 2 ^ e.toNat ≤ n then e else e - 1
  else
    if d ≤ n * 2 ^ (-e).toNat then e else e - 1

/-- The integer nearest to `n / d`, the even one of two that are equally
near. -/
def roundHalfEven (n d : Nat) : Nat :=
  let q := n / d
  let r := n % d
  if 2 * r < d then q
  else if d < 2 * r then q + 1
  else if q % 2 = 0 then q
  else q + 1

/-- The `double` nearest to `n / d` with the given sign, for `d` positive:
rounding to nearest, ties to even, with 53 significant bits, exponents from
-1022 to 1023, subnormal numbers below and an infinity above. -/
def roundDouble (negative : Bool) (n d : Nat) : Double :=
  if n = 0 then .finite negative 0 1
  else
    let e := floorLog2 n d
    let shift : Int := if e < -1022 then -1074 else e - 52
    if 0 ≤ shift then
      let q := roundHalfEven n (d * 2 ^ shift.toNat)
      if 1023 < e ∨ (e = 1023 ∧ q = 2 ^ 53) then .infinity negative
      else .finite negative (q * 2 ^ shift.toNat) 1
    else
      let q := roundHalfEven (n * 2 ^ (-shift).toNat) d
      let g := Nat.gcd q (2 ^ (-shift).toNat)
      .finite negative (q / g) (2 ^ (-shift).toNat / g)

/-- The conversion of an unsigned integer to `double`. -/
def Double.ofNat (n : Nat) : Double := roundDouble false n 1

/-- The product of two `double` values. -/
def Double.mul : Double → Double → Double
  | .nan, _ => .nan
  | _, .nan => .nan
  | .infinity s, .infinity t => .infinity (s != t)
  | .infinity s, .finite t n _ => if n = 0 then .nan else .infinity (s != t)
  | .finite s n _, .infinity t => if n = 0 then .nan else .infinity (s != t)
  | .finite s n d, .finite t m e => roundDouble (s != t) (n * m) (d * e)

/-- The quotient of two `double` values. -/
def Double.div : Double → Double → Double
  | .nan, _ => .nan
  | _, .nan => .nan
  | .infinity _, .infinity _ => .nan
  | .infinity s, .finite t _ _ => .infinity (s != t)
  | .finite s _ _, .infinity t => .finite (s != t) 0 1
  | .finite s n d, .finite t m e =>
    if m = 0 then (if n = 0 then .nan else .infinity (s != t))
    else roundDouble (s != t) (n * e) (d * m)

/-- A finite value as a fraction of integers: the numerator with the sign,
over the denominator. -/
def signedNum (negative : Bool) (num : Nat) : Int := if negative then -(num : Int) else num

/-- The comparison `a > b` of two `double` values; false when one of them is
a NaN. -/
def Double.gt : Double → Double → Bool
  | .nan, _ => false
  | _, .nan => false
  | .infinity s, .infinity t => !s && t
  | .infinity s, .finite _ _ _ => !s
  | .finite _ _ _, .infinity t => t
  | .finite s n d, .finite t m e => decide (signedNum t m * d < signedNum s n * e)

/-- The conversion `(uint32_t) x` as C defines it: the value with its
fraction discarded when that is a `uint32_t`, and no defined result (`none`)
otherwise. -/
def Double.toUInt32 : Double → Option Nat
  | .finite s n d =>
    if n / d = 0 then some 0
    else if s then none
    else if n / d ≤ UINT32_MAX then some (n / d)
    else none
  | _ => none

/-- The instruction `cvttsd2si` with a 64-bit destination, which x86-64
compilers emit for the conversion of a `double` to `uint32_t`: the value
with its fraction discarded when that is an `int64_t`, and the number -2^63
otherwise. -/
def cvttsd2si : Double → Int
  | .finite s n d =>
    if n / d < 9223372036854775808 ∨ (s = true ∧ n / d = 9223372036854775808) then
      signedNum s (n / d)
    else -9223372036854775808
  | _ => -9223372036854775808

/-- The function `isxdigit` of `<ctype.h>`. -/
def isxdigit (c : Char) : Bool :=
  isdigit c || (97 ≤ c.toNat && c.toNat ≤ 102) || (65 ≤ c.toNat && c.toNat ≤ 70)

/-- The function `tolower` of `<ctype.h>` on the letters of ASCII. -/
def tolower (c : Char) : Char :=
  if 65 ≤ c.toNat ∧ c.toNat ≤ 90 then Char.ofNat (c.toNat + 32) else c

/-- The number a run of hexadecimal digits denotes. -/
def hexValue (ds : List Char) : Nat :=
  ds.foldl (fun n c =>
    16 * n + (if isdigit c then c.toNat - 48 else (tolower c).toNat - 87)) 0

/-- Whether `s` starts with the lower-case `word`, the case of the letters
of `s` ignored. -/
def startsWith (word s : List Char) : Bool := (s.take word.length).map tolower == word

/-- The digits before the point, the digits after it, and what follows, of
a number made of digits accepted by `digit` with at most one point. -/
def mantissa (digit : Char → Bool) (s : List Char) : List Char × List Char × List Char :=
  match s.dropWhile digit with
  | '.' :: r => (s.takeWhile digit, r.takeWhile digit, r.dropWhile digit)
  | r => (s.takeWhile digit, [], r)

/-- The exponent part at the head of `s`: the marker (`e` or `p`, in either
case), an optional sign and decimal digits; 0 when there is no marker or no
digit follows it. -/
def exponentPart (marker : Char) (s : List Char) : Int :=
  match s with
  | [] => 0
  | c :: r =>
    if tolower c = marker then
      match r with
      | '-' :: ds => -(readDigits ds 0 : Int)
      | '+' :: ds => (readDigits ds 0 : Int)
      | ds => (readDigits ds 0 : Int)
    else 0

/-- The `double` nearest to `m * base ^ k` with the given sign. -/
def scaled (negative : Bool) (m base : Nat) (k : Int) : Double :=
  if 0 ≤ k then roundDouble negative (m * base ^ k.toNat) 1
  else roundDouble negative m (base ^ (-k).toNat)

/-- The function `atof`, which is `strtod` without end pointer, in the C
locale, correctly rounded as glibc does: white space, an optional sign, and
then `inf` or `infinity`, `nan`, a hexadecimal number after `0x`, or a
decimal number with an optional point and an optional exponent; the longest
such start of the string is converted, and the result is zero when there is
none. -/
def atof (nptr : List Char) : Double :=
  let s := nptr.dropWhile isspace
  let negative := decide (s.head? = some '-')
  let s :=
    match s with
    | '-' :: r => r
    | '+' :: r => r
    | _ => s
  if startsWith "inf".toList s then .infinity negative
  else if startsWith "nan".toList s then .nan
  else
    let hex :=
      match s with
      | '0' :: x :: r =>
        if tolower x = 'x' then
          match mantissa isxdigit r with
          | ([], [], _) => none
          | (ip, fp, rest) =>
            some (scaled negative (hexValue (ip ++ fp)) 2
              (exponentPart 'p' rest - 4 * (fp.length : Int)))
        else none
      | _ => none
    match hex with
    | some x => x
    | none =>
      match mantissa isdigit s with
      | ([], [], _) => .finite false 0 1
      | (ip, fp, rest) =>
        scaled negative (decimalValue (ip ++ fp)) 10 (exponentPart 'e' rest - (fp.length : Int))

/-- Line 161: `maxInterval` is `(double) UINT32_MAX / 1000000.0`. -/
def maxInterval : Double := Double.div (Double.ofNat UINT32_MAX) (Double.ofNat 1000000)

/-- The round of `getopt_long` for `-i optarg` with the two floating-point
results of lines 160 to 169 as x86-64 computes them: the round is too large
when `atof(optarg) > maxInterval`, and the interval stored otherwise is the
low 32 bits of what `cvttsd2si` makes of `atof(optarg) * 1000000.0`. -/
def intervalOption (optarg : List Char) : GetoptRound :=
  let pingInterval_d64 := atof optarg
  { getoptRet := 105, optarg := some optarg,
    intervalTooLarge := Double.gt pingInterval_d64 maxInterval,
    intervalMicros :=
      toUInt32 (cvttsd2si (Double.mul pingInterval_d64 (Double.ofNat 1000000))) }

/-! ## Lemmas on C strings -/

theorem strlen_eq_length {s : List Char} (h : NUL ∉ s) : strlen s = s.length := by
  induction s with
  | nil => rfl
  | cons c cs ih =>
    have hc : c ≠ NUL := fun e => h (by simp [e])
    have hcs : NUL ∉ cs := fun e => h (by simp [e])
    simp [strlen, hc, ih hcs]

theorem strchr_append {c : Char} {pre : List Char} (rest : List Char)
    (h1 : c ∉ pre) (h2 : NUL ∉ pre) : strchr (pre ++ c :: rest) c = some (c :: rest) := by
  induction pre with
  | nil => simp [strchr]
  | cons x xs ih =>
    have hx : x ≠ c := fun e => h1 (by simp [e])
    have hx0 : x ≠ NUL := fun e => h2 (by simp [e])
    have h1x : c ∉ xs := fun e => h1 (by simp [e])
    have h2x : NUL ∉ xs := fun e => h2 (by simp [e])
    simp [strchr, hx, hx0, ih h1x h2x]

theorem strchr_none {c : Char} {s : List Char} (h : c ∉ s) (hc : c ≠ NUL) :
    strchr s c = none := by
  induction s with
  | nil => simp [strchr, hc]
  | cons x xs ih =>
    have hx : x ≠ c := fun e => h (by simp [e])
    have hxs : c ∉ xs := fun e => h (by simp [e])
    simp only [strchr, hx, if_false]
    split
    · rfl
    · exact ih hxs

theorem strchr_some {c : Char} {s q : List Char} (h : strchr s c = some q) (hc : c ≠ NUL) :
    ∃ pre rest, s = pre ++ c :: rest ∧ q = c :: rest ∧ c ∉ pre ∧ NUL ∉ pre := by
  induction s with
  | nil => simp [strchr, hc] at h
  | cons x xs ih =>
    simp only [strchr] at h
    split at h
    · next hx =>
      refine ⟨[], xs, ?_, ?_, by simp, by simp⟩
      · simp [hx]
      · simp at h; rw [← h, hx]
    · next hx =>
      split at h
      · exact absurd h (by simp)
      · next hx0 =>
        obtain ⟨pre, rest, e1, e2, e3, e4⟩ := ih h
        refine ⟨x :: pre, rest, by simp [e1], e2, ?_, ?_⟩
        · simp only [List.mem_cons, not_or]; exact ⟨fun e => hx e.symm, e3⟩
        · simp only [List.mem_cons, not_or]; exact ⟨fun e => hx0 e.symm, e4⟩

theorem underscore_ne_NUL : '_' ≠ NUL := by decide

theorem strchr_fromSeparator {s : List Char} (h0 : NUL ∉ s) (h : '_' ∈ s) :
    strchr s '_' = some (fromSeparator s) := by
  induction s with
  | nil => simp at h
  | cons x xs ih =>
    have hx0 : x ≠ NUL := fun e => h0 (by simp [e])
    have h0x : NUL ∉ xs := fun e => h0 (by simp [e])
    by_cases hx : x = '_'
    · simp [strchr, fromSeparator, hx]
    · have hxs : '_' ∈ xs := by
        rcases List.mem_cons.1 h with e | e
        · exact absurd e.symm hx
        · exact e
      simp only [strchr, hx, hx0, if_false, ih h0x hxs]
      simp [fromSeparator, List.dropWhile_cons, hx]

theorem before_append_from (s : List Char) : beforeSeparator s ++ fromSeparator s = s := by
  simp [beforeSeparator, fromSeparator, List.takeWhile_append_dropWhile]

set_option maxHeartbeats 400000 in
theorem mem_supportedBauds (K : Host) (n : Nat) :
    n ∈ supportedBauds K ↔
      (n = 50 ∨ n = 75 ∨ n = 110 ∨ n = 134 ∨ n = 150 ∨ n = 200 ∨ n = 300 ∨ n = 600 ∨ n = 1200 ∨
       n = 2400 ∨ n = 4800 ∨ n = 9600 ∨ n = 19200 ∨ n = 38400 ∨ n = 57600 ∨ n = 115200 ∨
       n = 230400) ∨ (n = 128000 ∧ K.B128000.isSome = true) ∨
      (n = 256000 ∧ K.B256000.isSome = true) := by
  unfold supportedBauds
  rw [List.mem_append, List.mem_append]
  have e1 : n ∈ (if K.B128000.isSome = true then [128000] else []) ↔
      (n = 128000 ∧ K.B128000.isSome = true) := by
    split_ifs with h <;> simp [h]
  have e2 : n ∈ (if K.B256000.isSome = true then [256000] else []) ↔
      (n = 256000 ∧ K.B256000.isSome = true) := by
    split_ifs with h <;> simp [h]
  rw [e1, e2]
  simp only [List.mem_cons, List.mem_nil_iff, or_false, or_assoc]

theorem baudSwitch_isSome_of_mem (K : Host) (n : Nat) (h : n ∈ supportedBauds K) :
    (baudSwitch K n).isSome = true := by
  rw [mem_supportedBauds] at h
  rcases h with (h | h | h | h | h | h | h | h | h | h | h | h | h | h | h | h | h) | ⟨h, hs⟩ |
    ⟨h, hs⟩ <;> subst h <;> first | (simp [baudSwitch]; done) | (simp [baudSwitch]; exact hs)

theorem baudSwitch_eq_none_of_not_mem (K : Host) (n : Nat) (h : n ∉ supportedBauds K) :
    baudSwitch K n = none := by
  rw [mem_supportedBauds] at h
  simp only [not_or] at h
  obtain ⟨⟨h1, h2, h3, h4, h5, h6, h7, h8, h9, h10, h11, h12, h13, h14, h15, h16, h17⟩,
    h18, h19⟩ := h
  unfold baudSwitch
  rw [if_neg h1, if_neg h2, if_neg h3, if_neg h4, if_neg h5, if_neg h6, if_neg h7, if_neg h8,
    if_neg h9, if_neg h10, if_neg h11, if_neg h12, if_neg h13, if_neg h14, if_neg h15,
    if_neg h16]
  by_cases e1 : n = 128000
  · rw [if_pos e1]
    cases hb : K.B128000 with
    | none => rfl
    | some v => exact absurd ⟨e1, by simp [hb]⟩ h18
  · rw [if_neg e1, if_neg h17]
    by_cases e2 : n = 256000
    · rw [if_pos e2]
      cases hb : K.B256000 with
      | none => rfl
      | some v => exact absurd ⟨e2, by simp [hb]⟩ h19
    · rw [if_neg e2]

theorem baudSwitch_eq_none_iff (K : Host) (n : Nat) :
    baudSwitch K n = none ↔ n ∉ supportedBauds K := by
  constructor
  · intro h hm
    have := baudSwitch_isSome_of_mem K n hm
    simp [h] at this
  · exact baudSwitch_eq_none_of_not_mem K n

/-! ## Lemmas on `strtol` and the conversion to `uint32_t` -/

theorem two_pow_31_le (K : Host) : (2147483648 : Int) ≤ 2 ^ (K.longBits - 1) := by
  have h : 31 ≤ K.longBits - 1 := by have := K.long_ge; omega
  have h2 : (2 : Nat) ^ 31 ≤ 2 ^ (K.longBits - 1) := Nat.pow_le_pow_right (by norm_num) h
  have h3 : ((2 ^ 31 : Nat) : Int) ≤ ((2 ^ (K.longBits - 1) : Nat) : Int) := by exact_mod_cast h2
  simpa using h3

theorem strtol_eq_value (K : Host) (s : List Char) (h1 : -2147483648 ≤ strtolValue s)
    (h2 : strtolValue s ≤ 2147483647) : strtol K.longBits s = strtolValue s := by
  have h := two_pow_31_le K
  unfold strtol LONG_MIN LONG_MAX
  rw [min_eq_right (by omega), max_eq_right (by omega)]

theorem toUInt32_natCast (n : Nat) (h : n < 4294967296) : toUInt32 (n : Int) = n := by
  unfold toUInt32
  omega

theorem digits_of_supported (b : Nat) (rest : List Char)
    (h : (b = 50 ∨ b = 75 ∨ b = 110 ∨ b = 134 ∨ b = 150 ∨ b = 200 ∨ b = 300 ∨ b = 600 ∨
      b = 1200 ∨ b = 2400 ∨ b = 4800 ∨ b = 9600 ∨ b = 19200 ∨ b = 38400 ∨ b = 57600 ∨
      b = 115200 ∨ b = 230400) ∨ b = 128000 ∨ b = 256000) :
    strchr (Nat.toDigits 10 b ++ '_' :: rest) '_' = some ('_' :: rest) ∧
    strtolValue (Nat.toDigits 10 b ++ '_' :: rest) = (b : Int) ∧ b < 4294967296 := by
  rcases h with (h | h | h | h | h | h | h | h | h | h | h | h | h | h | h | h | h) | h | h <;>
    subst h <;> exact ⟨rfl, rfl, by decide⟩

/-! ## Lemmas on the framing switches -/

theorem charSizeSwitch_eq_none_iff (K : Host) (c : Char) :
    charSizeSwitch K c = none ↔ c ∉ ['5', '6', '7', '8'] := by
  unfold charSizeSwitch
  split_ifs with h1 h2 h3 h4 <;> simp [*]

theorem paritySwitch_eq_none_iff (K : Host) (c : Char) (cflag : Nat) :
    paritySwitch K c cflag = none ↔ c ∉ ['N', 'E', 'O'] := by
  unfold paritySwitch
  split_ifs with h1 h2 h3 <;> simp [*]

theorem stopBitsSwitch_eq_none_iff (K : Host) (c : Char) (cflag : Nat) :
    stopBitsSwitch K c cflag = none ↔ c ∉ ['1', '2'] := by
  unfold stopBitsSwitch
  split_ifs with h1 h2 <;> simp [*]

theorem not_mem_fromSeparator {s : List Char} {c : Char} (h : c ∉ s) : c ∉ fromSeparator s :=
  fun hc => h ((List.dropWhile_sublist _).subset hc)

theorem length_eq_four {l : List Char} (h : l.length = 4) :
    ∃ u a b c, l = [u, a, b, c] := by
  match l, h with
  | [u, a, b, c], _ => exact ⟨u, a, b, c, rfl⟩

/-- The result of the parser on a string without NUL whose part from the
first underscore on is `[u, a, b, c]`. -/
theorem errorOf_parseConfig_four (K : Host) (ts : Termios) (s : List Char) (u a b c : Char)
    (h0 : NUL ∉ s) (hu : '_' ∈ s) (hq : fromSeparator s = [u, a, b, c]) :
    errorOf (parseConfig K ts s) =
      if toUInt32 (strtol K.longBits s) ∉ supportedBauds K then some .InvalidBaudRate
      else if a ∉ ['5', '6', '7', '8'] then some .InvalidCharacterSize
      else if b ∉ ['N', 'E', 'O'] then some .InvalidParity
      else if c ∉ ['1', '2'] then some .InvalidStopBits
      else none := by
  have hstr := strchr_fromSeparator h0 hu
  have hlen : strlen (fromSeparator s) = 4 := by
    rw [strlen_eq_length (not_mem_fromSeparator h0), hq]; rfl
  rw [hq] at hstr hlen
  simp only [parseConfig, hstr, hlen, ne_eq, not_true_eq_false, if_false]
  cases hb : baudSwitch K (toUInt32 (strtol K.longBits s)) with
  | none => simp [errorOf, (baudSwitch_eq_none_iff K _).1 hb]
  | some speed =>
    have hb1 : toUInt32 (strtol K.longBits s) ∈ supportedBauds K := by
      by_contra hn
      rw [(baudSwitch_eq_none_iff K _).2 hn] at hb
      cases hb
    rw [if_neg (not_not.2 hb1)]
    simp only [List.tail_cons, deref, List.headD_cons]
    cases hc : charSizeSwitch K a with
    | none => simp [errorOf, (charSizeSwitch_eq_none_iff K _).1 hc]
    | some r =>
      have hc1 : ¬ a ∉ ['5', '6', '7', '8'] := fun hn => by
        rw [(charSizeSwitch_eq_none_iff K _).2 hn] at hc; cases hc
      rw [if_neg hc1]
      obtain ⟨bits, charSize⟩ := r
      simp only []
      cases hp : paritySwitch K b _ with
      | none => simp [errorOf, (paritySwitch_eq_none_iff K _ _).1 hp]
      | some r2 =>
        have hp1 : ¬ b ∉ ['N', 'E', 'O'] := fun hn => by
          rw [(paritySwitch_eq_none_iff K _ _).2 hn] at hp; cases hp
        rw [if_neg hp1]
        obtain ⟨parity, cflag⟩ := r2
        simp only []
        cases hst : stopBitsSwitch K c _ with
        | none => simp [errorOf, (stopBitsSwitch_eq_none_iff K _ _).1 hst]
        | some r3 =>
          have hst1 : ¬ c ∉ ['1', '2'] := fun hn => by
            rw [(stopBitsSwitch_eq_none_iff K _ _).2 hn] at hst; cases hst
          rw [if_neg hst1]
          rfl

theorem errorOf_eq_some {α : Type} {x : Except ConfigError α} {e : ConfigError}
    (h : errorOf x = some e) : x = .error e := by
  cases x with
  | error e1 => simp [errorOf] at h; rw [h]
  | ok v => simp [errorOf] at h

theorem parseConfig_no_underscore (K : Host) (ts : Termios) (s : List Char) (h : '_' ∉ s) :
    parseConfig K ts s = .error .notSpecified := by
  simp only [parseConfig, strchr_none h underscore_ne_NUL]

theorem parseConfig_bad_length (K : Host) (ts : Termios) (s : List Char) (h0 : NUL ∉ s)
    (hu : '_' ∈ s) (hlen : (fromSeparator s).length ≠ 4) :
    parseConfig K ts s = .error .improperlySpecified := by
  have hl : strlen (fromSeparator s) ≠ 4 := by
    rw [strlen_eq_length (not_mem_fromSeparator h0)]; exact hlen
  simp only [parseConfig, strchr_fromSeparator h0 hu, hl, ne_eq, not_false_eq_true, if_true]

theorem errorOf_parseConfig (K : Host) (ts : Termios) (s : List Char) (h0 : NUL ∉ s) :
    errorOf (parseConfig K ts s) = firstFailure (validationOrder K s) := by
  by_cases hu : '_' ∈ s
  · by_cases hlen : (fromSeparator s).length = 4
    · obtain ⟨u, a, b, c, hq⟩ := length_eq_four hlen
      rw [errorOf_parseConfig_four K ts s u a b c h0 hu hq]
      simp only [validationOrder, firstFailure, hq, hu, List.getD_cons_succ, List.getD_cons_zero,
        List.length_cons, List.length_nil, decide_True, if_true]
      by_cases h1 : toUInt32 (strtol K.longBits s) ∈ supportedBauds K <;>
        by_cases h2 : a ∈ ['5', '6', '7', '8'] <;>
        by_cases h3 : b ∈ ['N', 'E', 'O'] <;>
        by_cases h4 : c ∈ ['1', '2'] <;> simp [h1, h2, h3, h4]
    · rw [parseConfig_bad_length K ts s h0 hu hlen]
      simp [validationOrder, firstFailure, hu, hlen, errorOf]
  · rw [parseConfig_no_underscore K ts s hu]
    simp [validationOrder, firstFailure, hu, errorOf]

/-- C2: on every descriptor the parser reports the error of the first check
that fails, in the order underscore, length, baud rate, character size,
parity, stop bits, and accepts when none fails; so an unsupported rate is
reported before an invalid size, an invalid size before an invalid parity,
and an invalid parity before an invalid stop count. -/
theorem parseConfig_first_failure (K : Host) (ts : Termios) (s : List Char) (h0 : NUL ∉ s) :
    errorOf (parseConfig K ts s) = firstFailure (validationOrder K s) ∧
    ('_' ∈ s → (fromSeparator s).length = 4 →
      toUInt32 (strtol K.longBits s) ∉ supportedBauds K →
      (fromSeparator s).getD 1 NUL ∉ ['5', '6', '7', '8'] →
      parseConfig K ts s = .error .InvalidBaudRate) ∧
    ('_' ∈ s → (fromSeparator s).length = 4 →
      toUInt32 (strtol K.longBits s) ∈ supportedBauds K →
      (fromSeparator s).getD 1 NUL ∉ ['5', '6', '7', '8'] →
      (fromSeparator s).getD 2 NUL ∉ ['N', 'E', 'O'] →
      parseConfig K ts s = .error .InvalidCharacterSize) ∧
    ('_' ∈ s → (fromSeparator s).length = 4 →
      toUInt32 (strtol K.longBits s) ∈ supportedBauds K →
      (fromSeparator s).getD 1 NUL ∈ ['5', '6', '7', '8'] →
      (fromSeparator s).getD 2 NUL ∉ ['N', 'E', 'O'] →
      (fromSeparator s).getD 3 NUL ∉ ['1', '2'] →
      parseConfig K ts s = .error .InvalidParity) := by
  have key := errorOf_parseConfig K ts s h0
  refine ⟨key, ?_, ?_, ?_⟩
  · intro hu hlen hb _
    apply errorOf_eq_some
    rw [key]
    simp [validationOrder, firstFailure, hu, hlen, hb]
  · intro hu hlen hb hc _
    apply errorOf_eq_some
    rw [key]
    simp only [validationOrder, firstFailure, hu, hlen, hb, hc, decide_True, decide_False,
      if_true, if_false, Bool.false_eq_true]
  · intro hu hlen hb hc hp _
    apply errorOf_eq_some
    rw [key]
    simp only [validationOrder, firstFailure, hu, hlen, hb, hc, hp, decide_True, decide_False,
      if_true, if_false, Bool.false_eq_true]

/-- What an accepted parse went through: the pointer found, the case each
switch took, and the attribute set written. -/
theorem parseConfig_ok (K : Host) (ts : Termios) (s : List Char) (cfg : LineConfiguration)
    (ts1 : Termios) (h : parseConfig K ts s = .ok (cfg, ts1)) :
    ∃ q speed bits charSize parity cflag1 stop cflag2,
      strchr s '_' = some q ∧ strlen q = 4 ∧
      baudSwitch K (toUInt32 (strtol K.longBits s)) = some speed ∧
      charSizeSwitch K (deref q.tail) = some (bits, charSize) ∧
      paritySwitch K (deref q.tail.tail)
        (setBits (clearBits (clearBits (setBits (clearBits (setSpeed K ts speed).c_cflag K.CSIZE)
          K.CS8) K.CSTOPB) K.CSIZE) charSize) = some (parity, cflag1) ∧
      stopBitsSwitch K (deref q.tail.tail.tail) cflag1 = some (stop, cflag2) ∧
      cfg = { baudRate := toUInt32 (strtol K.longBits s), characterSize := bits,
              parityMode := parity, stopBits := stop } ∧
      ts1 = { setSpeed K ts speed with c_cflag := cflag2 } := by
  unfold parseConfig at h
  split at h
  · cases h
  · next q hq =>
    split at h
    · cases h
    · next hlen =>
      simp only [] at h
      split at h
      · cases h
      · next speed hspeed =>
        split at h
        · cases h
        · next bits charSize hcs =>
          split at h
          · cases h
          · next parity cflag1 hpar =>
            split at h
            · cases h
            · next stop cflag2 hstop =>
              simp only [Except.ok.injEq, Prod.mk.injEq] at h
              exact ⟨q, speed, bits, charSize, parity, cflag1, stop, cflag2, hq,
                not_not.1 hlen, hspeed, hcs, hpar, hstop, h.1.symm, h.2.symm⟩

theorem charSizeSwitch_some {K : Host} {c : Char} {r : Nat × Nat}
    (h : charSizeSwitch K c = some r) : c ∈ ['5', '6', '7', '8'] := by
  by_contra hn
  rw [(charSizeSwitch_eq_none_iff K c).2 hn] at h
  cases h

theorem paritySwitch_some {K : Host} {c : Char} {cflag : Nat} {r : ParityMode × Nat}
    (h : paritySwitch K c cflag = some r) : c ∈ ['N', 'E', 'O'] := by
  by_contra hn
  rw [(paritySwitch_eq_none_iff K c cflag).2 hn] at h
  cases h

theorem stopBitsSwitch_some {K : Host} {c : Char} {cflag : Nat} {r : Nat × Nat}
    (h : stopBitsSwitch K c cflag = some r) : c ∈ ['1', '2'] := by
  by_contra hn
  rw [(stopBitsSwitch_eq_none_iff K c cflag).2 hn] at h
  cases h

/-- The shape of an accepted string without NUL: a part without underscore,
the underscore, a size digit, a parity letter and a stop digit. -/
theorem parseConfig_ok_shape (K : Host) (ts : Termios) (s : List Char)
    (cfg : LineConfiguration) (ts1 : Termios) (h0 : NUL ∉ s)
    (h : parseConfig K ts s = .ok (cfg, ts1)) :
    ∃ pre a b c, s = pre ++ ['_', a, b, c] ∧ '_' ∉ pre ∧
      a ∈ ['5', '6', '7', '8'] ∧ b ∈ ['N', 'E', 'O'] ∧ c ∈ ['1', '2'] ∧
      cfg.baudRate = toUInt32 (strtol K.longBits s) ∧
      cfg.baudRate ∈ supportedBauds K := by
  obtain ⟨q, speed, bits, charSize, parity, cflag1, stop, cflag2, hq, hlen, hspeed, hcs, hpar,
    hstop, hcfg, -⟩ := parseConfig_ok K ts s cfg ts1 h
  obtain ⟨pre, rest, hs, hq2, hpre, -⟩ := strchr_some hq underscore_ne_NUL
  have hq0 : NUL ∉ q := by
    intro hm
    apply h0
    rw [hs, ← hq2]
    exact List.mem_append_right _ hm
  rw [strlen_eq_length hq0] at hlen
  obtain ⟨u, a, b, c, hq4⟩ := length_eq_four hlen
  rw [hq4] at hq2 hcs hpar hstop
  simp only [List.cons.injEq] at hq2
  obtain ⟨hu, hrest⟩ := hq2
  simp only [List.tail_cons, deref, List.headD_cons] at hcs hpar hstop
  refine ⟨pre, a, b, c, ?_, hpre, charSizeSwitch_some hcs, paritySwitch_some hpar,
    stopBitsSwitch_some hstop, ?_, ?_⟩
  · rw [hs, ← hrest]
  · rw [hcfg]
  · rw [hcfg]
    by_contra hn
    rw [(baudSwitch_eq_none_iff K _).2 hn] at hspeed
    cases hspeed

/-- C5: every descriptor without an underscore is rejected with the message
that the framing fields are not specified, whatever else it contains. -/
theorem parseConfig_missing_separator (K : Host) (ts : Termios) (s : List Char)
    (h : '_' ∉ s) : parseConfig K ts s = .error .notSpecified :=
  parseConfig_no_underscore K ts s h

/-- C6: every descriptor with an underscore whose part from the first
underscore on, the underscore included, does not have exactly 4 characters
is rejected with the message that the framing fields are improperly
specified, whatever stands before the underscore. -/
theorem parseConfig_segment_length (K : Host) (ts : Termios) (s : List Char) (h0 : NUL ∉ s)
    (hu : '_' ∈ s) (hlen : (fromSeparator s).length ≠ 4) :
    parseConfig K ts s = .error .improperlySpecified :=
  parseConfig_bad_length K ts s h0 hu hlen

/-- C7: every accepted descriptor contains exactly one underscore. -/
theorem parseConfig_one_underscore (K : Host) (ts : Termios) (s : List Char)
    (cfg : LineConfiguration) (ts1 : Termios) (h0 : NUL ∉ s)
    (h : parseConfig K ts s = .ok (cfg, ts1)) : s.count '_' = 1 := by
  obtain ⟨pre, a, b, c, hs, hpre, ha, hb, hc, -, -⟩ := parseConfig_ok_shape K ts s cfg ts1 h0 h
  have ha1 : a ≠ '_' := by rintro rfl; revert ha; decide
  have hb1 : b ≠ '_' := by rintro rfl; revert hb; decide
  have hc1 : c ≠ '_' := by rintro rfl; revert hc; decide
  rw [hs, List.count_append, List.count_eq_zero_of_not_mem hpre]
  simp [List.count_cons, ha1, hb1, hc1]

/-! ## Lemmas on the number `strtol` reads -/

theorem strtolValue_cons_space (x : Char) (l : List Char) (h : isspace x = true) :
    strtolValue (x :: l) = strtolValue l := by
  simp [strtolValue, List.dropWhile_cons, h]

theorem strtolValue_cons_nonspace (x : Char) (l : List Char) (h : isspace x = false) :
    strtolValue (x :: l) =
      if x = '-' then -(readDigits l 0 : Int)
      else if x = '+' then (readDigits l 0 : Int)
      else (readDigits (x :: l) 0 : Int) := by
  simp [strtolValue, List.dropWhile_cons, h]

theorem readDigits_beforeSeparator (l : List Char) (acc : Nat) :
    readDigits (beforeSeparator l) acc = readDigits l acc := by
  induction l generalizing acc with
  | nil => rfl
  | cons x xs ih =>
    by_cases hx : x = '_'
    · subst hx
      simp [beforeSeparator, readDigits, isdigit]
    · have e : beforeSeparator (x :: xs) = x :: beforeSeparator xs := by
        simp [beforeSeparator, List.takeWhile_cons, hx]
      rw [e]
      simp only [readDigits, ih]

theorem strtolValue_beforeSeparator (s : List Char) :
    strtolValue (beforeSeparator s) = strtolValue s := by
  induction s with
  | nil => rfl
  | cons x xs ih =>
    by_cases hx : x = '_'
    · subst hx
      simp [beforeSeparator, strtolValue, readDigits, isdigit, isspace]
    · have e : beforeSeparator (x :: xs) = x :: beforeSeparator xs := by
        simp [beforeSeparator, List.takeWhile_cons, hx]
      rw [e]
      cases hsp : isspace x with
      | true => rw [strtolValue_cons_space _ _ hsp, strtolValue_cons_space _ _ hsp, ih]
      | false =>
        rw [strtolValue_cons_nonspace _ _ hsp, strtolValue_cons_nonspace _ _ hsp,
          readDigits_beforeSeparator, ← e, readDigits_beforeSeparator]

theorem readDigits_lt (l : List Char) (acc : Nat) :
    readDigits l acc < (acc + 1) * 10 ^ l.length := by
  induction l generalizing acc with
  | nil => simp [readDigits]
  | cons x xs ih =>
    simp only [readDigits]
    split
    · next hd =>
      have hx : x.toNat - 48 ≤ 9 := by
        simp only [isdigit, Bool.and_eq_true, decide_eq_true_eq] at hd
        omega
      calc readDigits xs (acc * 10 + (x.toNat - 48))
          < (acc * 10 + (x.toNat - 48) + 1) * 10 ^ xs.length := ih _
        _ ≤ ((acc + 1) * 10) * 10 ^ xs.length := Nat.mul_le_mul_right _ (by omega)
        _ = (acc + 1) * 10 ^ (x :: xs).length := by
          rw [List.length_cons, pow_succ]; ring
    · have : 0 < 10 ^ (x :: xs).length := Nat.pow_pos (by norm_num)
      nlinarith

theorem strtolValue_bounds (s : List Char) :
    -(10 ^ s.length : Int) < strtolValue s ∧ strtolValue s < (10 ^ s.length : Int) := by
  induction s with
  | nil => simp [strtolValue]
  | cons x xs ih =>
    have hpow : (10 : Int) ^ xs.length ≤ 10 ^ (x :: xs).length := by
      rw [List.length_cons, pow_succ]
      have : (0 : Int) < 10 ^ xs.length := by positivity
      omega
    cases hsp : isspace x with
    | true =>
      rw [strtolValue_cons_space _ _ hsp]
      omega
    | false =>
      rw [strtolValue_cons_nonspace _ _ hsp]
      have h1 : ((readDigits xs 0 : Nat) : Int) < 10 ^ xs.length := by
        have := readDigits_lt xs 0
        simp only [Nat.zero_add, Nat.one_mul] at this
        exact_mod_cast this
      have h2 : ((readDigits (x :: xs) 0 : Nat) : Int) < 10 ^ (x :: xs).length := by
        have := readDigits_lt (x :: xs) 0
        simp only [Nat.zero_add, Nat.one_mul] at this
        exact_mod_cast this
      have hpos : (0 : Int) < 10 ^ (x :: xs).length := by positivity
      split_ifs <;> omega

theorem supportedBauds_range (K : Host) (n : Nat) (h : n ∈ supportedBauds K) :
    50 ≤ n ∧ n ≤ 256000 := by
  rw [mem_supportedBauds] at h
  omega

theorem length_before_add_from (s : List Char) :
    (beforeSeparator s).length + (fromSeparator s).length = s.length := by
  rw [← List.length_append, before_append_from]

/-- For a descriptor of at most 10 characters with a 4-character part from
the underscore on, the rate the parser checks is the baud candidate itself
when that is not negative, and a number above every supported rate
otherwise. -/
theorem toUInt32_strtol_short (K : Host) (s : List Char) (h10 : s.length ≤ 10)
    (hlen : (fromSeparator s).length = 4) :
    -1000000 < baudCandidate s ∧ baudCandidate s < 1000000 ∧
    (0 ≤ baudCandidate s → (toUInt32 (strtol K.longBits s) : Int) = baudCandidate s) ∧
    (baudCandidate s < 0 → 256000 < toUInt32 (strtol K.longBits s)) := by
  have hl := length_before_add_from s
  have hb : (beforeSeparator s).length ≤ 6 := by omega
  have hv := strtolValue_bounds (beforeSeparator s)
  have hp : (10 : Int) ^ (beforeSeparator s).length ≤ 10 ^ 6 :=
    pow_le_pow_right₀ (by norm_num) hb
  have hv1 : -1000000 < baudCandidate s := by unfold baudCandidate; omega
  have hv2 : baudCandidate s < 1000000 := by unfold baudCandidate; omega
  have hs : strtol K.longBits s = baudCandidate s := by
    unfold baudCandidate at hv1 hv2 ⊢
    rw [strtolValue_beforeSeparator] at hv1 hv2 ⊢
    exact strtol_eq_value K s (by omega) (by omega)
  refine ⟨hv1, hv2, ?_, ?_⟩
  · intro h
    rw [hs]
    unfold toUInt32
    omega
  · intro h
    rw [hs]
    unfold toUInt32
    omega

theorem readDigits_eq_foldl (l : List Char) (acc : Nat) :
    readDigits l acc =
      (l.takeWhile isdigit).foldl (fun n c => 10 * n + (c.toNat - 48)) acc := by
  induction l generalizing acc with
  | nil => rfl
  | cons x xs ih =>
    cases hd : isdigit x with
    | true => simp [readDigits, List.takeWhile_cons, hd, ih, Nat.mul_comm]
    | false => simp [readDigits, List.takeWhile_cons, hd]

theorem readDigits_zero_eq (l : List Char) :
    readDigits l 0 = decimalValue (l.takeWhile isdigit) := by
  rw [readDigits_eq_foldl]; rfl

theorem head_dropWhile_isdigit (l : List Char) (x : Char)
    (h : (l.dropWhile isdigit).head? = some x) : isdigit x = false := by
  induction l with
  | nil => simp at h
  | cons y ys ih =>
    cases hd : isdigit y with
    | true =>
      rw [List.dropWhile_cons, hd] at h
      exact ih h
    | false =>
      rw [List.dropWhile_cons, hd] at h
      simp at h
      rw [← h]; exact hd

/-- A digit run that starts the list `l` and carries a positive value. -/
theorem digit_run (l : List Char) (h : 0 < readDigits l 0) :
    l = l.takeWhile isdigit ++ l.dropWhile isdigit ∧ l.takeWhile isdigit ≠ [] ∧
    (∀ x ∈ l.takeWhile isdigit, isdigit x = true) ∧
    (∀ x, (l.dropWhile isdigit).head? = some x → isdigit x = false) ∧
    readDigits l 0 = decimalValue (l.takeWhile isdigit) := by
  refine ⟨(List.takeWhile_append_dropWhile _ _).symm, ?_, ?_, head_dropWhile_isdigit l,
    readDigits_zero_eq l⟩
  · intro he
    rw [readDigits_zero_eq, he] at h
    simp [decimalValue] at h
  · intro x hx
    exact List.mem_takeWhile_imp hx

/-- A string from which `strtol` reads a positive number is made of white
space, an optional plus sign, a non-empty run of digits that denotes the
number, and a rest that does not start with a digit. -/
theorem strtolValue_pos (l : List Char) (h : 0 < strtolValue l) :
    ∃ ws sign digits tail, l = ws ++ sign ++ digits ++ tail ∧
      (∀ x ∈ ws, isspace x = true) ∧ (sign = [] ∨ sign = ['+']) ∧ digits ≠ [] ∧
      (∀ x ∈ digits, isdigit x = true) ∧
      (∀ x, tail.head? = some x → isdigit x = false) ∧
      strtolValue l = (decimalValue digits : Int) := by
  induction l with
  | nil => simp [strtolValue] at h
  | cons x xs ih =>
    cases hsp : isspace x with
    | true =>
      rw [strtolValue_cons_space _ _ hsp] at h ⊢
      obtain ⟨ws, sign, digits, tail, e, hws, hsign, hne, hd, ht, hv⟩ := ih h
      refine ⟨x :: ws, sign, digits, tail, by rw [e]; simp, ?_, hsign, hne, hd, ht, hv⟩
      intro y hy
      rcases List.mem_cons.1 hy with rfl | hy
      · exact hsp
      · exact hws y hy
    | false =>
      rw [strtolValue_cons_nonspace _ _ hsp] at h ⊢
      by_cases hm : x = '-'
      · rw [if_pos hm] at h
        omega
      · rw [if_neg hm] at h ⊢
        by_cases hpl : x = '+'
        · rw [if_pos hpl] at h ⊢
          obtain ⟨e, hne, hd, ht, hv⟩ := digit_run xs (by exact_mod_cast h)
          refine ⟨[], ['+'], _, _, ?_, by simp, Or.inr rfl, hne, hd, ht, by rw [hv]⟩
          rw [hpl]; simp
        · rw [if_neg hpl] at h ⊢
          obtain ⟨e, hne, hd, ht, hv⟩ := digit_run (x :: xs) (by exact_mod_cast h)
          refine ⟨[], [], _, _, ?_, by simp, Or.inl rfl, hne, hd, ht, by rw [hv]⟩
          simp

theorem beforeSeparator_append (pre rest : List Char) (h : '_' ∉ pre) :
    beforeSeparator (pre ++ '_' :: rest) = pre ∧
    fromSeparator (pre ++ '_' :: rest) = '_' :: rest := by
  induction pre with
  | nil => simp [beforeSeparator, fromSeparator]
  | cons x xs ih =>
    have hx : x ≠ '_' := fun e => h (by simp [e])
    have hxs : '_' ∉ xs := fun e => h (by simp [e])
    obtain ⟨i1, i2⟩ := ih hxs
    constructor
    · simp only [beforeSeparator] at i1 ⊢
      simp [List.takeWhile_cons, hx, i1]
    · simp only [fromSeparator] at i2 ⊢
      simp [List.dropWhile_cons, hx, i2]

/-- C4, amended: in every accepted descriptor of at most 10 characters the
part before the separator is white space, an optional plus sign, a
non-empty run of decimal digits and a rest without underscore that does not
start with a digit; the accepted baud rate is the number the digit run
denotes, and the descriptor ends with the separator, a size digit, a parity
letter and a stop digit. -/
theorem parseConfig_accepted_digits (K : Host) (ts : Termios) (s : List Char)
    (cfg : LineConfiguration) (ts1 : Termios) (h0 : NUL ∉ s) (h10 : s.length ≤ 10)
    (h : parseConfig K ts s = .ok (cfg, ts1)) :
    ∃ ws sign digits tail a b c,
      s = ws ++ sign ++ digits ++ tail ++ ['_', a, b, c] ∧
      (∀ x ∈ ws, isspace x = true) ∧ (sign = [] ∨ sign = ['+']) ∧ digits ≠ [] ∧
      (∀ x ∈ digits, isdigit x = true) ∧
      (∀ x, tail.head? = some x → isdigit x = false) ∧ '_' ∉ tail ∧
      cfg.baudRate = decimalValue digits ∧
      a ∈ ['5', '6', '7', '8'] ∧ b ∈ ['N', 'E', 'O'] ∧ c ∈ ['1', '2'] := by
  obtain ⟨pre, a, b, c, hs, hpre, ha, hb, hc, hbaud, hsup⟩ :=
    parseConfig_ok_shape K ts s cfg ts1 h0 h
  obtain ⟨hbef, hfrom⟩ := beforeSeparator_append pre [a, b, c] hpre
  rw [← hs] at hbef hfrom
  obtain ⟨-, -, h1, h2⟩ := toUInt32_strtol_short K s h10 (by rw [hfrom]; rfl)
  have hr := supportedBauds_range K _ hsup
  rw [hbaud] at hr
  have hnn : 0 ≤ baudCandidate s := by
    by_contra hneg
    have := h2 (by omega)
    omega
  have hval := h1 hnn
  have hpos : 0 < strtolValue pre := by
    have : baudCandidate s = strtolValue pre := by unfold baudCandidate; rw [hbef]
    omega
  obtain ⟨ws, sign, digits, tail, e, hws, hsign, hne, hd, ht, hv⟩ := strtolValue_pos pre hpos
  refine ⟨ws, sign, digits, tail, a, b, c, by rw [hs, e], hws, hsign, hne, hd, ht, ?_, ?_,
    ha, hb, hc⟩
  · intro hm
    apply hpre
    rw [e]
    exact List.mem_append_right _ hm
  · have e2 : baudCandidate s = strtolValue pre := by unfold baudCandidate; rw [hbef]
    rw [hbaud]
    have : (toUInt32 (strtol K.longBits s) : Int) = (decimalValue digits : Int) := by
      rw [hval, e2, hv]
    exact_mod_cast this

/-! ## The attribute set on Linux -/

/-- The speed constants the baud switch can give on Linux. -/
theorem baudSwitch_linux {n speed : Nat} (h : baudSwitch linux n = some speed) :
    speed ∈ [1, 2, 3, 4, 5, 6, 7, 8, 9, 11, 12, 13, 14, 15, 4097, 4098, 4099] := by
  have hm : n ∈ supportedBauds linux := by
    by_contra hn
    rw [(baudSwitch_eq_none_iff linux n).2 hn] at h
    cases h
  rw [mem_supportedBauds] at hm
  rcases hm with (hm | hm | hm | hm | hm | hm | hm | hm | hm | hm | hm | hm | hm | hm | hm | hm |
    hm) | ⟨hm, hs⟩ | ⟨hm, hs⟩
  all_goals first
    | (subst hm; simp only [baudSwitch, linux] at h; simp at h; subst h; decide)
    | (exact absurd hs (by decide))

theorem charSizeSwitch_cases {K : Host} {c : Char} {bits charSize : Nat}
    (h : charSizeSwitch K c = some (bits, charSize)) :
    (bits = 5 ∧ charSize = K.CS5) ∨ (bits = 6 ∧ charSize = K.CS6) ∨
    (bits = 7 ∧ charSize = K.CS7) ∨ (bits = 8 ∧ charSize = K.CS8) := by
  unfold charSizeSwitch at h
  split_ifs at h <;> simp only [Option.some.injEq, Prod.mk.injEq] at h <;> simp [h]

theorem paritySwitch_cases {K : Host} {c : Char} {cflag cflag1 : Nat} {parity : ParityMode}
    (h : paritySwitch K c cflag = some (parity, cflag1)) :
    (parity = .None ∧ cflag1 = clearBits cflag K.PARENB) ∨
    (parity = .Even ∧ cflag1 = clearBits (setBits cflag K.PARENB) K.PARODD) ∨
    (parity = .Odd ∧ cflag1 = setBits (setBits cflag K.PARENB) K.PARODD) := by
  unfold paritySwitch at h
  split_ifs at h <;> simp only [Option.some.injEq, Prod.mk.injEq] at h <;> simp [h]

theorem stopBitsSwitch_cases {K : Host} {c : Char} {cflag cflag2 stop : Nat}
    (h : stopBitsSwitch K c cflag = some (stop, cflag2)) :
    (stop = 1 ∧ cflag2 = clearBits cflag K.CSTOPB) ∨
    (stop = 2 ∧ cflag2 = setBits cflag K.CSTOPB) := by
  unfold stopBitsSwitch at h
  split_ifs at h <;> simp only [Option.some.injEq, Prod.mk.injEq] at h <;> simp [h]

set_option maxRecDepth 4096 in
/-- The attribute set of an accepted parse on Linux, started from the raw
settings: the flag words other than `c_cflag` are zero, `CLOCAL` is set and
`CREAD` is clear, and `c_cflag` carries the framing. -/
theorem parseConfig_linux_word (s : List Char) (cfg : LineConfiguration) (ts1 : Termios)
    (h : parseConfig linux (rawSettings linux) s = .ok (cfg, ts1)) :
    ts1.c_iflag = 0 ∧ ts1.c_oflag = 0 ∧ ts1.c_lflag = 0 ∧
    ts1.c_cflag &&& linux.CLOCAL = linux.CLOCAL ∧ ts1.c_cflag &&& linux.CREAD = 0 ∧
    (∃ speed, baudSwitch linux cfg.baudRate = some speed ∧
      CarriesFraming linux 0o10017 speed cfg ts1.c_cflag) ∧
    cfg.characterSize ∈ [5, 6, 7, 8] ∧ cfg.stopBits ∈ [1, 2] ∧
    (cfg.parityMode = .None → ts1.c_cflag &&& linux.PARENB = 0) ∧
    (cfg.parityMode = .Even →
      ts1.c_cflag &&& linux.PARENB = linux.PARENB ∧ ts1.c_cflag &&& linux.PARODD = 0) ∧
    (cfg.parityMode = .Odd →
      ts1.c_cflag &&& linux.PARENB = linux.PARENB ∧
      ts1.c_cflag &&& linux.PARODD = linux.PARODD) ∧
    (cfg.stopBits = 1 → ts1.c_cflag &&& linux.CSTOPB = 0) ∧
    (cfg.stopBits = 2 → ts1.c_cflag &&& linux.CSTOPB = linux.CSTOPB) := by
  obtain ⟨q, speed, bits, charSize, parity, cflag1, stop, cflag2, -, -, hspeed, hcs, hpar,
    hstop, hcfg, hts⟩ := parseConfig_ok linux (rawSettings linux) s cfg ts1 h
  have hsp := baudSwitch_linux hspeed
  subst hcfg hts
  refine ⟨rfl, rfl, rfl, ?_⟩
  suffices hh : cflag2 &&& linux.CLOCAL = linux.CLOCAL ∧ cflag2 &&& linux.CREAD = 0 ∧
      CarriesFraming linux 0o10017 speed
        { baudRate := 0, characterSize := bits,
          parityMode := parity, stopBits := stop } cflag2 ∧
      bits ∈ [5, 6, 7, 8] ∧ stop ∈ [1, 2] ∧
      (parity = .None → cflag2 &&& linux.PARENB = 0) ∧
      (parity = .Even →
        cflag2 &&& linux.PARENB = linux.PARENB ∧ cflag2 &&& linux.PARODD = 0) ∧
      (parity = .Odd →
        cflag2 &&& linux.PARENB = linux.PARENB ∧ cflag2 &&& linux.PARODD = linux.PARODD) ∧
      (stop = 1 → cflag2 &&& linux.CSTOPB = 0) ∧
      (stop = 2 → cflag2 &&& linux.CSTOPB = linux.CSTOPB) from
    ⟨hh.1, hh.2.1, ⟨speed, hspeed, hh.2.2.1⟩, hh.2.2.2⟩
  simp only [List.mem_cons, List.mem_nil_iff, or_false] at hsp
  rcases charSizeSwitch_cases hcs with ⟨rfl, rfl⟩ | ⟨rfl, rfl⟩ | ⟨rfl, rfl⟩ | ⟨rfl, rfl⟩ <;>
  rcases paritySwitch_cases hpar with ⟨rfl, rfl⟩ | ⟨rfl, rfl⟩ | ⟨rfl, rfl⟩ <;>
  rcases stopBitsSwitch_cases hstop with ⟨rfl, rfl⟩ | ⟨rfl, rfl⟩ <;>
  rcases hsp with rfl | rfl | rfl | rfl | rfl | rfl | rfl | rfl | rfl | rfl | rfl | rfl | rfl |
    rfl | rfl | rfl | rfl <;>
  decide

/-- The flag words other than `c_cflag` of an accepted parse started from
the raw settings are zero on every host. -/
theorem parseConfig_raw_flags (K : Host) (s : List Char) (cfg : LineConfiguration)
    (ts1 : Termios) (h : parseConfig K (rawSettings K) s = .ok (cfg, ts1)) :
    ts1.c_iflag = 0 ∧ ts1.c_oflag = 0 ∧ ts1.c_lflag = 0 := by
  obtain ⟨q, speed, bits, charSize, parity, cflag1, stop, cflag2, -, -, -, -, -, -, -, hts⟩ :=
    parseConfig_ok K (rawSettings K) s cfg ts1 h
  subst hts
  unfold setSpeed
  cases K.CBAUD <;> simp [rawSettings, Termios.zero, clearBits]

theorem tcsetattr_not_mem_pingLoop (env : Env) (spFd : Int) (o : Options) (n i : Nat)
    (fd : Int) (ts : Termios) : DevOp.tcsetattr fd ts ∉ pingLoop env spFd o n i := by
  induction n generalizing i with
  | zero => simp [pingLoop]
  | succ n ih =>
    simp only [pingLoop, List.mem_append, not_or]
    refine ⟨⟨⟨by simp, ?_⟩, by simp⟩, ih (i + 1)⟩
    split <;> simp

theorem optionCase_error_trace (o : Options) (g : GetoptRound) (r : Run)
    (h : optionCase o g = .error r) : r.trace = [] := by
  unfold optionCase at h
  repeat' split at h
  all_goals first
    | (cases h; rfl)
    | (cases h)

theorem processOptions_error_trace (o : Options) (argv : List GetoptRound) (r : Run)
    (h : processOptions o argv = .error r) : r.trace = [] := by
  induction argv generalizing o with
  | nil => cases h
  | cons g gs ih =>
    simp only [processOptions] at h
    split at h
    · next r1 hr =>
      cases h
      exact optionCase_error_trace o g _ hr
    · next o1 _ => exact ih o1 h

/-- The attribute set `main` hands to `tcsetattr` is the one the parser
wrote, starting from the raw settings, for the config string of the command
line. -/
theorem main_tcsetattr (K : Host) (argv : List GetoptRound) (env : Env) (fd : Int)
    (ts : Termios) (h : DevOp.tcsetattr fd ts ∈ (main K argv env).trace) :
    ∃ o cfg, processOptions Options.initial argv = .ok o ∧
      parseConfig K (rawSettings K) o.configStr = .ok (cfg, ts) := by
  unfold main at h
  split at h
  · next r hr => rw [processOptions_error_trace _ _ _ hr] at h; simp at h
  · next o ho =>
    split at h
    · simp at h
    · split at h
      · simp at h
      · next cfg ts1 hp =>
        refine ⟨o, cfg, ho, ?_⟩
        split at h
        · simp at h
        · simp only [] at h
          split at h
          · simp at h
          · split at h
            · simp at h
              rw [hp, h.2]
            · simp only [List.mem_append, List.mem_cons, List.mem_singleton, List.mem_nil_iff,
                or_false, false_or] at h
              rcases h with (h | h) | h
              · simp at h
                rw [hp, h.2]
              · exact absurd h (tcsetattr_not_mem_pingLoop _ _ _ _ _ _ _)
              · simp at h

/-! ## Lemmas on buffers and `strncpy` -/

theorem strlen_eq_cstring_length (s : List Char) : strlen s = (cstring s).length := by
  induction s with
  | nil => rfl
  | cons x xs ih =>
    by_cases hx : x = NUL
    · simp [strlen, cstring, List.takeWhile_cons, hx]
    · simp only [strlen, hx, if_false, ih]
      simp [cstring, List.takeWhile_cons, hx]

theorem NUL_not_mem_cstring (s : List Char) : NUL ∉ cstring s := by
  intro h
  have := List.mem_takeWhile_imp h
  simp at this

theorem cstring_append_of_not_mem (a b : List Char) (h : NUL ∉ a) :
    cstring (a ++ b) = a ++ cstring b := by
  induction a with
  | nil => rfl
  | cons x xs ih =>
    have hx : x ≠ NUL := fun e => h (by simp [e])
    have hxs : NUL ∉ xs := fun e => h (by simp [e])
    have := ih hxs
    simp only [cstring] at this ⊢
    simp [List.takeWhile_cons, hx, this]

theorem cstring_eq_nil_of_strlen (b : List Char) (h : strlen b = 0) : cstring b = [] := by
  rw [strlen_eq_cstring_length] at h
  exact List.length_eq_zero.1 h

theorem cstring_replicate_append (k : Nat) (b : List Char) (h : k = 0 → strlen b = 0) :
    cstring (List.replicate k NUL ++ b) = [] := by
  cases k with
  | zero => simpa using cstring_eq_nil_of_strlen b (h rfl)
  | succ k => simp [cstring, List.replicate_succ, List.takeWhile_cons]

/-- The buffer after `strncpy` of a string that fits: the string, NULs up to
`n`, and the old bytes from `n` on. -/
theorem strncpy_fits (dest src : List Char) (n : Nat) (h : strlen src ≤ n) :
    strncpy dest src n =
      cstring src ++ List.replicate (n - strlen src) NUL ++ dest.drop n := by
  rw [strlen_eq_cstring_length] at h ⊢
  unfold strncpy
  have e : (List.takeWhile (fun c => c != NUL) src).take n = cstring src := by
    unfold cstring at h ⊢
    exact List.take_of_length_le h
  simp only [e]

theorem drop_strncpy (dest src : List Char) (n : Nat) (h : strlen src ≤ n) :
    (strncpy dest src n).drop n = dest.drop n := by
  rw [strncpy_fits dest src n h]
  have hl : (cstring src ++ List.replicate (n - strlen src) NUL).length = n := by
    rw [List.length_append, List.length_replicate, ← strlen_eq_cstring_length]
    omega
  rw [List.drop_append_of_le_length (by omega)]
  rw [List.drop_of_length_le (by omega)]
  rfl

/-- The string a buffer holds after `strncpy` of a string that fits, when the
byte after the copied range is NUL. -/
theorem cstring_strncpy (dest src : List Char) (n : Nat) (h : strlen src ≤ n)
    (hd : strlen (dest.drop n) = 0) : cstring (strncpy dest src n) = cstring src := by
  rw [strncpy_fits dest src n h, List.append_assoc,
    cstring_append_of_not_mem _ _ (NUL_not_mem_cstring src),
    cstring_replicate_append _ _ (fun _ => hd), List.append_nil]

/-! ## Lemmas on option processing -/

/-- The pattern case of the option switch. -/
theorem optionCase_pattern (o : Options) (g : GetoptRound) (arg : List Char)
    (hg : g.isPattern) (ha : g.optarg = some arg) :
    optionCase o g =
      if strlen arg ≥ CONST_PATTERNSTR then
        .error { retVal := some (-1), message := some .patternTooLong, trace := [] }
      else
        .ok { o with patternStr := strncpy o.patternStr arg (CONST_PATTERNSTR - 1)
                     patternLength := strlen (strncpy o.patternStr arg (CONST_PATTERNSTR - 1)) } := by
  unfold optionCase
  rcases hg with hg | hg <;>
    simp [hg, ha, ARG_HELP, ARG_D, ARG_C, ARG_I, ARG_P]

/-- The cases of the option switch other than the pattern case leave the
pattern as it was. -/
theorem optionCase_other (o o1 : Options) (g : GetoptRound) (hg : ¬ g.isPattern)
    (h : optionCase o g = .ok o1) :
    o1.patternStr = o.patternStr ∧ o1.patternLength = o.patternLength := by
  unfold GetoptRound.isPattern at hg
  unfold optionCase at h
  repeat' split at h
  all_goals first
    | (cases h; exact ⟨rfl, rfl⟩)
    | (cases h)

theorem optionCase_last_byte (o o1 : Options) (g : GetoptRound)
    (h : optionCase o g = .ok o1) (hinv : strlen (o.patternStr.drop 80) = 0) :
    strlen (o1.patternStr.drop 80) = 0 := by
  by_cases hg : g.isPattern
  · cases ha : g.optarg with
    | none =>
      unfold optionCase at h
      rcases hg with hg | hg <;>
        simp [hg, ha, ARG_HELP, ARG_D, ARG_C, ARG_I, ARG_P] at h
    | some arg =>
      rw [optionCase_pattern o g arg hg ha] at h
      split at h
      · cases h
      · next hlen =>
        cases h
        simp only [CONST_PATTERNSTR] at hlen ⊢
        rw [drop_strncpy _ _ _ (by omega)]
        exact hinv
  · rw [(optionCase_other o o1 g hg h).1]
    exact hinv

theorem processOptions_last_byte (o o1 : Options) (argv : List GetoptRound)
    (h : processOptions o argv = .ok o1) (hinv : strlen (o.patternStr.drop 80) = 0) :
    strlen (o1.patternStr.drop 80) = 0 := by
  induction argv generalizing o with
  | nil => cases h; exact hinv
  | cons g gs ih =>
    simp only [processOptions] at h
    split at h
    · cases h
    · next o2 ho2 => exact ih o2 h (optionCase_last_byte o o2 g ho2 hinv)

theorem processOptions_append (o o1 : Options) (pre : List GetoptRound) (g : GetoptRound)
    (post : List GetoptRound) (h : processOptions o pre = .ok o1) :
    processOptions o (pre ++ g :: post) =
      match optionCase o1 g with
      | .error r => .error r
      | .ok o2 => processOptions o2 post := by
  induction pre generalizing o with
  | nil => cases h; rfl
  | cons x xs ih =>
    rw [List.cons_append, processOptions]
    simp only [processOptions] at h
    split at h
    · cases h
    · next o2 ho2 => exact ih o2 h

theorem processOptions_no_pattern (o o1 : Options) (argv : List GetoptRound)
    (hn : ∀ g ∈ argv, ¬ g.isPattern) (h : processOptions o argv = .ok o1) :
    o1.patternStr = o.patternStr ∧ o1.patternLength = o.patternLength := by
  induction argv generalizing o with
  | nil => cases h; exact ⟨rfl, rfl⟩
  | cons g gs ih =>
    simp only [processOptions] at h
    split at h
    · cases h
    · next o2 ho2 =>
      have h1 := optionCase_other o o2 g (hn g (by simp)) ho2
      have h2 := ih o2 (fun x hx => hn x (by simp [hx])) h
      exact ⟨h2.1.trans h1.1, h2.2.trans h1.2⟩

/-- A case of the option switch that returns, other than the help case and
a read of a missing argument, returns -1 before any device call. -/
theorem optionCase_error_plain (o : Options) (g : GetoptRound) (r : Run) (hg : g.plain)
    (h : optionCase o g = .error r) : r.retVal = some (-1) ∧ r.trace = [] := by
  obtain ⟨hh, ha⟩ := hg
  unfold GetoptRound.isHelp at hh
  unfold GetoptRound.takesArgument at ha
  unfold optionCase at h
  rw [if_neg hh] at h
  split at h
  · next hc =>
    have hne := ha (by rcases hc with hc | hc <;> simp [hc])
    split at h
    · next hn => exact absurd hn hne
    · split at h
      · cases h; exact ⟨rfl, rfl⟩
      · cases h
  · split at h
    · next hc =>
      have hne := ha (by rcases hc with hc | hc <;> simp [hc])
      split at h
      · next hn => exact absurd hn hne
      · split at h
        · cases h; exact ⟨rfl, rfl⟩
        · cases h
    · split at h
      · next hc =>
        have hne := ha (by rcases hc with hc | hc <;> simp [hc])
        split at h
        · next hn => exact absurd hn hne
        · split at h
          · cases h; exact ⟨rfl, rfl⟩
          · cases h
      · split at h
        · next hc =>
          have hne := ha (by rcases hc with hc | hc <;> simp [hc])
          split at h
          · next hn => exact absurd hn hne
          · split at h
            · cases h; exact ⟨rfl, rfl⟩
            · cases h
        · split at h
          · cases h
          · split at h
            · cases h
            · cases h; exact ⟨rfl, rfl⟩

/-- Option processing that meets an oversized pattern after plain rounds
ends with -1 and no device call, at that round or before. -/
theorem processOptions_oversized_pattern (o : Options) (pre post : List GetoptRound)
    (g : GetoptRound) (arg : List Char) (hpre : ∀ x ∈ pre, x.plain) (hg : g.isPattern)
    (ha : g.optarg = some arg) (hl : 81 ≤ strlen arg) :
    ∃ r, processOptions o (pre ++ g :: post) = .error r ∧
      r.retVal = some (-1) ∧ r.trace = [] := by
  induction pre generalizing o with
  | nil =>
    refine ⟨{ retVal := some (-1), message := some .patternTooLong, trace := [] }, ?_, rfl, rfl⟩
    rw [List.nil_append, processOptions, optionCase_pattern o g arg hg ha]
    simp only [CONST_PATTERNSTR, ge_iff_le, hl, if_true]
  | cons x xs ih =>
    rw [List.cons_append, processOptions]
    cases hx : optionCase o x with
    | error r =>
      exact ⟨r, rfl, optionCase_error_plain o x r (hpre x (by simp)) hx⟩
    | ok o1 =>
      exact ih o1 (fun y hy => hpre y (by simp [hy]))

/-! ## The claims on the attribute set and on the pattern option -/

/-- C8: the attribute set `main` hands to `tcsetattr` is the one the parser
wrote into the raw settings, which are built from the cleared structure and
from nothing else; its input, output and local flag words are zero, so every
flag in them is clear, and with the Linux constants `CLOCAL` is set and
`CREAD` is clear in `c_cflag`; whatever the device answers, the same command
line hands over the same attribute set. -/
theorem main_tcsetattr_raw (K : Host) (argv : List GetoptRound) (env : Env) (fd : Int)
    (ts : Termios) (h : DevOp.tcsetattr fd ts ∈ (main K argv env).trace) :
    (∃ o cfg, processOptions Options.initial argv = .ok o ∧
      parseConfig K (rawSettings K) o.configStr = .ok (cfg, ts)) ∧
    rawSettings K =
      { Termios.zero with
        c_cflag := clearBits (setBits (clearBits Termios.zero.c_cflag K.PARENB) K.CLOCAL)
          K.CREAD } ∧
    ts.c_iflag = 0 ∧ ts.c_oflag = 0 ∧ ts.c_lflag = 0 ∧
    (∀ m, ts.c_iflag &&& m = 0 ∧ ts.c_oflag &&& m = 0 ∧ ts.c_lflag &&& m = 0) ∧
    (K = linux →
      ts.c_cflag &&& linux.CLOCAL = linux.CLOCAL ∧ ts.c_cflag &&& linux.CREAD = 0) ∧
    (∀ env2 fd2 ts2, DevOp.tcsetattr fd2 ts2 ∈ (main K argv env2).trace → ts2 = ts) := by
  obtain ⟨o, cfg, ho, hp⟩ := main_tcsetattr K argv env fd ts h
  obtain ⟨h1, h2, h3⟩ := parseConfig_raw_flags K o.configStr cfg ts hp
  have hsame : ∀ env2 fd2 ts2,
      DevOp.tcsetattr fd2 ts2 ∈ (main K argv env2).trace → ts2 = ts := by
    intro env2 fd2 ts2 hmem
    obtain ⟨o2, cfg2, ho2, hp2⟩ := main_tcsetattr K argv env2 fd2 ts2 hmem
    rw [ho] at ho2
    cases ho2
    rw [hp] at hp2
    cases hp2
    rfl
  refine ⟨⟨o, cfg, ho, hp⟩, ?_, h1, h2, h3, ?_, ?_, hsame⟩
  · simp [rawSettings, Termios.zero, clearBits]
  · intro m
    rw [h1, h2, h3]
    simp
  · intro hK
    subst hK
    have := parseConfig_linux_word o.configStr cfg ts hp
    exact ⟨this.2.2.2.1, this.2.2.2.2.1⟩

theorem initial_last_byte : strlen (Options.initial.patternStr.drop 80) = 0 := by decide

theorem initial_pattern :
    cstring Options.initial.patternStr = defaultPattern ∧ Options.initial.patternLength = 45 := by
  decide

/-- C10: when option processing reaches a pattern option, the argument is
accepted exactly when it has at most 80 characters; an accepted argument is
the string the pattern buffer then holds and its length is the pattern
length; an argument of 81 or more characters makes `main` return -1 with
the pattern error and no device call.  After any options that are not the
help option and come with their arguments, a pattern of 81 or more
characters makes `main` return -1 with no device call.  When no round is a
pattern option the buffer holds the default pattern, of length 45. -/
theorem pattern_option_limit (K : Host) (env : Env) (pre post : List GetoptRound)
    (g : GetoptRound) (arg : List Char) (o : Options) :
    (processOptions Options.initial pre = .ok o → g.isPattern → g.optarg = some arg →
      ((∃ o1, optionCase o g = .ok o1) ↔ strlen arg ≤ 80) ∧
      (strlen arg ≤ 80 → ∃ o1, optionCase o g = .ok o1 ∧
        cstring o1.patternStr = cstring arg ∧ o1.patternLength = strlen arg) ∧
      (81 ≤ strlen arg → main K (pre ++ g :: post) env =
        { retVal := some (-1), message := some .patternTooLong, trace := [] })) ∧
    ((∀ x ∈ pre, x.plain) → g.isPattern → g.optarg = some arg → 81 ≤ strlen arg →
      (main K (pre ++ g :: post) env).retVal = some (-1) ∧
      (main K (pre ++ g :: post) env).trace = []) ∧
    ((∀ x ∈ pre, ¬ x.isPattern) → processOptions Options.initial pre = .ok o →
      cstring o.patternStr = defaultPattern ∧ o.patternLength = 45 ∧
      defaultPattern.length = 45) := by
  refine ⟨?_, ?_, ?_⟩
  · intro hpre hg ha
    have hcase := optionCase_pattern o g arg hg ha
    have hinv := processOptions_last_byte _ _ _ hpre initial_last_byte
    simp only [CONST_PATTERNSTR, ge_iff_le, Nat.add_one_sub_one] at hcase
    have hfit : strlen arg ≤ 80 → ∃ o1, optionCase o g = .ok o1 ∧
        cstring o1.patternStr = cstring arg ∧ o1.patternLength = strlen arg := by
      intro hl
      rw [hcase, if_neg (by omega)]
      refine ⟨_, rfl, cstring_strncpy _ _ _ hl hinv, ?_⟩
      simp only []
      rw [strlen_eq_cstring_length, cstring_strncpy _ _ _ hl hinv, ← strlen_eq_cstring_length]
    refine ⟨⟨?_, ?_⟩, hfit, ?_⟩
    · rintro ⟨o1, ho1⟩
      by_contra hl
      rw [hcase, if_pos (by omega)] at ho1
      cases ho1
    · intro hl
      obtain ⟨o1, ho1, -⟩ := hfit hl
      exact ⟨o1, ho1⟩
    · intro hl
      unfold main
      rw [processOptions_append _ _ _ _ _ hpre, hcase, if_pos hl]
  · intro hpl hg ha hl
    obtain ⟨r, hr, h1, h2⟩ :=
      processOptions_oversized_pattern Options.initial pre post g arg hpl hg ha hl
    unfold main
    rw [hr]
    exact ⟨h1, h2⟩
  · intro hn hpre
    obtain ⟨h1, h2⟩ := processOptions_no_pattern _ _ _ hn hpre
    rw [h1, h2]
    exact ⟨initial_pattern.1, initial_pattern.2, by decide⟩

/-! ## The parser on a buffer: the bytes after the first NUL do not matter -/

theorem strchr_append_NUL_none {c : Char} {s : List Char} (junk : List Char) (h : c ∉ s)
    (hc : c ≠ NUL) : strchr (s ++ NUL :: junk) c = none := by
  induction s with
  | nil =>
    have hc2 : ¬ NUL = c := fun e => hc e.symm
    simp [strchr, hc, hc2]
  | cons x xs ih =>
    have hx : x ≠ c := fun e => h (by simp [e])
    have hxs : c ∉ xs := fun e => h (by simp [e])
    simp only [List.cons_append, strchr, hx, if_false]
    split
    · rfl
    · exact ih hxs

theorem strlen_append_NUL {s : List Char} (junk : List Char) (h : NUL ∉ s) :
    strlen (s ++ NUL :: junk) = s.length := by
  induction s with
  | nil => simp [strlen]
  | cons x xs ih =>
    have hx : x ≠ NUL := fun e => h (by simp [e])
    have hxs : NUL ∉ xs := fun e => h (by simp [e])
    simp [strlen, hx, ih hxs]

theorem readDigits_append_NUL (s junk : List Char) (acc : Nat) :
    readDigits (s ++ NUL :: junk) acc = readDigits s acc := by
  induction s generalizing acc with
  | nil => simp [readDigits, isdigit, NUL]
  | cons x xs ih =>
    rw [List.cons_append]
    simp only [readDigits, ih]

theorem strtolValue_append_NUL (s junk : List Char) :
    strtolValue (s ++ NUL :: junk) = strtolValue s := by
  induction s with
  | nil => simp [strtolValue, isspace, NUL, readDigits, isdigit]
  | cons x xs ih =>
    rw [List.cons_append]
    cases hsp : isspace x with
    | true => rw [strtolValue_cons_space _ _ hsp, strtolValue_cons_space _ _ hsp, ih]
    | false =>
      rw [strtolValue_cons_nonspace _ _ hsp, strtolValue_cons_nonspace _ _ hsp,
        readDigits_append_NUL, ← List.cons_append, readDigits_append_NUL]

/-- The parser reads a buffer up to its first NUL: on a string followed by
a NUL and any bytes it does what it does on the string. -/
theorem parseConfig_buffer (K : Host) (ts : Termios) (s junk : List Char) (h0 : NUL ∉ s) :
    parseConfig K ts (s ++ NUL :: junk) = parseConfig K ts s := by
  have hv : strtol K.longBits (s ++ NUL :: junk) = strtol K.longBits s := by
    unfold strtol; rw [strtolValue_append_NUL]
  by_cases hu : '_' ∈ s
  · have hs := strchr_fromSeparator h0 hu
    obtain ⟨pre, rest, e, hq, hpre, hpre0⟩ := strchr_some hs underscore_ne_NUL
    have hb : strchr (s ++ NUL :: junk) '_' = some (fromSeparator s ++ NUL :: junk) := by
      rw [hq]
      have := strchr_append (rest ++ NUL :: junk) hpre hpre0
      rw [e, List.append_assoc, List.cons_append]
      exact this
    have hn : NUL ∉ fromSeparator s := not_mem_fromSeparator h0
    have hl1 : strlen (fromSeparator s ++ NUL :: junk) = (fromSeparator s).length :=
      strlen_append_NUL junk hn
    have hl2 : strlen (fromSeparator s) = (fromSeparator s).length := strlen_eq_length hn
    by_cases hlen : (fromSeparator s).length = 4
    · obtain ⟨u, a, b, c, hq4⟩ := length_eq_four hlen
      rw [hq4] at hs hb
      simp only [parseConfig, hs, hb, hv]
      rfl
    · simp only [parseConfig, hs, hb, hl1, hl2, hlen, ne_eq, not_false_eq_true, if_true]
  · rw [parseConfig_no_underscore K ts s hu]
    simp only [parseConfig, strchr_append_NUL_none junk hu underscore_ne_NUL]

/-! ## The claims at concrete inputs -/

/-- C2 at `9601_9X3`, `9600_9X3` and `9600_8X3`: the earliest failing check
names the error. -/
theorem parseConfig_first_failure_witness :
    parseConfig linux (rawSettings linux) "9601_9X3".toList = .error .InvalidBaudRate ∧
    parseConfig linux (rawSettings linux) "9600_9X3".toList = .error .InvalidCharacterSize ∧
    parseConfig linux (rawSettings linux) "9600_8X3".toList = .error .InvalidParity :=
  ⟨(parseConfig_first_failure linux (rawSettings linux) "9601_9X3".toList (by decide)).2.1
      (by decide) (by decide) (by decide) (by decide),
   (parseConfig_first_failure linux (rawSettings linux) "9600_9X3".toList (by decide)).2.2.1
      (by decide) (by decide) (by decide) (by decide) (by decide),
   (parseConfig_first_failure linux (rawSettings linux) "9600_8X3".toList (by decide)).2.2.2
      (by decide) (by decide) (by decide) (by decide) (by decide) (by decide)⟩

/-- C4 as stated fails: ` +50x_8N1` is accepted at rate 50 although the part
before its separator is not made of digits only; and past the 10 characters
of the length guard, on a 64-bit `long`, the parser accepts
`4294967346_8N1`, whose digits denote 4294967346, at rate 50. -/
theorem parseConfig_digits_counterexample :
    parseConfig linux (rawSettings linux) " +50x_8N1".toList =
      .ok ({ baudRate := 50, characterSize := 8, parityMode := .None, stopBits := 1 },
        { c_iflag := 0, c_oflag := 0, c_cflag := 0o4061, c_lflag := 0, c_ispeed := 0,
          c_ospeed := 0 }) ∧
    beforeSeparator " +50x_8N1".toList = " +50x".toList ∧
    ¬ (∀ c ∈ beforeSeparator " +50x_8N1".toList, isdigit c = true) ∧
    parseConfig linux (rawSettings linux) "4294967346_8N1".toList =
      .ok ({ baudRate := 50, characterSize := 8, parityMode := .None, stopBits := 1 },
        { c_iflag := 0, c_oflag := 0, c_cflag := 0o4061, c_lflag := 0, c_ispeed := 0,
          c_ospeed := 0 }) ∧
    (∀ c ∈ beforeSeparator "4294967346_8N1".toList, isdigit c = true) ∧
    decimalValue (beforeSeparator "4294967346_8N1".toList) = 4294967346 := by
  decide

/-- C4, amended, at ` +50x_8N1`. -/
theorem parseConfig_accepted_digits_witness :
    ∃ ws sign digits tail a b c,
      " +50x_8N1".toList = ws ++ sign ++ digits ++ tail ++ ['_', a, b, c] ∧
      (∀ x ∈ ws, isspace x = true) ∧ (sign = [] ∨ sign = ['+']) ∧ digits ≠ [] ∧
      (∀ x ∈ digits, isdigit x = true) ∧
      (∀ x, tail.head? = some x → isdigit x = false) ∧ '_' ∉ tail ∧
      50 = decimalValue digits ∧
      a ∈ ['5', '6', '7', '8'] ∧ b ∈ ['N', 'E', 'O'] ∧ c ∈ ['1', '2'] :=
  parseConfig_accepted_digits linux (rawSettings linux) " +50x_8N1".toList
    { baudRate := 50, characterSize := 8, parityMode := .None, stopBits := 1 }
    { c_iflag := 0, c_oflag := 0, c_cflag := 0o4061, c_lflag := 0, c_ispeed := 0,
      c_ospeed := 0 }
    (by decide) (by decide) (by decide)

/-- C5 at `9600` and at the empty string. -/
theorem parseConfig_missing_separator_witness :
    parseConfig linux (rawSettings linux) "9600".toList = .error .notSpecified ∧
    parseConfig linux (rawSettings linux) [] = .error .notSpecified :=
  ⟨parseConfig_missing_separator linux (rawSettings linux) "9600".toList (by decide),
   parseConfig_missing_separator linux (rawSettings linux) [] (by decide)⟩

/-- C6 at the descriptors of the claim: `9600_8N`, `9600_8N11`, `9600_` and
`xyz_8`. -/
theorem parseConfig_segment_length_witness :
    parseConfig linux (rawSettings linux) "9600_8N".toList = .error .improperlySpecified ∧
    parseConfig linux (rawSettings linux) "9600_8N11".toList = .error .improperlySpecified ∧
    parseConfig linux (rawSettings linux) "9600_".toList = .error .improperlySpecified ∧
    parseConfig linux (rawSettings linux) "xyz_8".toList = .error .improperlySpecified :=
  ⟨parseConfig_segment_length linux (rawSettings linux) "9600_8N".toList
      (by decide) (by decide) (by decide),
   parseConfig_segment_length linux (rawSettings linux) "9600_8N11".toList
      (by decide) (by decide) (by decide),
   parseConfig_segment_length linux (rawSettings linux) "9600_".toList
      (by decide) (by decide) (by decide),
   parseConfig_segment_length linux (rawSettings linux) "xyz_8".toList
      (by decide) (by decide) (by decide)⟩

/-- C7 at the accepted `9600_8N1`; the descriptors `9600__N1` and `96_0_8N1`
of the claim, with two underscores, are rejected. -/
theorem parseConfig_one_underscore_witness :
    "9600_8N1".toList.count '_' = 1 ∧
    parseConfig linux (rawSettings linux) "9600__N1".toList = .error .InvalidCharacterSize ∧
    parseConfig linux (rawSettings linux) "96_0_8N1".toList = .error .improperlySpecified :=
  ⟨parseConfig_one_underscore linux (rawSettings linux) "9600_8N1".toList
      { baudRate := 9600, characterSize := 8, parityMode := .None, stopBits := 1 }
      { c_iflag := 0, c_oflag := 0, c_cflag := 0o4075, c_lflag := 0, c_ispeed := 0,
        c_ospeed := 0 }
      (by decide) (by decide),
   by decide, by decide⟩

/-- C8 at the command line `-d /dev/ttyS0 -c 9600_8N1` on a device that
accepts every call. -/
theorem main_tcsetattr_raw_witness :
    DevOp.tcsetattr 3
      { c_iflag := 0, c_oflag := 0, c_cflag := 0o4075, c_lflag := 0, c_ispeed := 0,
        c_ospeed := 0 } ∈
      (main linux [shortOption 'd' "/dev/ttyS0", shortOption 'c' "9600_8N1"] quietEnv).trace ∧
    (0o4075 &&& linux.CLOCAL = linux.CLOCAL ∧ 0o4075 &&& linux.CREAD = 0) :=
  ⟨by decide,
   (main_tcsetattr_raw linux [shortOption 'd' "/dev/ttyS0", shortOption 'c' "9600_8N1"]
      quietEnv 3
      { c_iflag := 0, c_oflag := 0, c_cflag := 0o4075, c_lflag := 0, c_ispeed := 0,
        c_ospeed := 0 }
      (by decide)).2.2.2.2.2.2.1 rfl⟩

/-- C10 at a pattern of 80 characters, which is stored with length 80, at a
pattern of 81 characters, which ends `main` with the pattern error before
any device call, and at a command line without pattern option. -/
theorem pattern_option_limit_witness :
    (∃ o1, optionCase Options.initial
        (shortOption 'p' "xxxxxxxxxxxxxxxxxxxxxxxxxxxxxxxxxxxxxxxxxxxxxxxxxxxxxxxxxxxxxxxxxxxxxxxxxxxxxxxx") = .ok o1 ∧
      cstring o1.patternStr = List.replicate 80 'x' ∧ o1.patternLength = 80) ∧
    main linux [shortOption 'p' "xxxxxxxxxxxxxxxxxxxxxxxxxxxxxxxxxxxxxxxxxxxxxxxxxxxxxxxxxxxxxxxxxxxxxxxxxxxxxxxxx"]
      quietEnv = { retVal := some (-1), message := some .patternTooLong, trace := [] } ∧
    ((main linux [shortOption 'd' "/dev/ttyS0", shortOption 'c' "9600_8N1",
        shortOption 'p' "xxxxxxxxxxxxxxxxxxxxxxxxxxxxxxxxxxxxxxxxxxxxxxxxxxxxxxxxxxxxxxxxxxxxxxxxxxxxxxxxx"]
        quietEnv).retVal = some (-1) ∧
      (main linux [shortOption 'd' "/dev/ttyS0", shortOption 'c' "9600_8N1",
        shortOption 'p' "xxxxxxxxxxxxxxxxxxxxxxxxxxxxxxxxxxxxxxxxxxxxxxxxxxxxxxxxxxxxxxxxxxxxxxxxxxxxxxxxx"]
        quietEnv).trace = []) ∧
    (cstring Options.initial.patternStr = defaultPattern ∧
      Options.initial.patternLength = 45 ∧ defaultPattern.length = 45) :=
  ⟨((pattern_option_limit linux quietEnv [] []
      (shortOption 'p' "xxxxxxxxxxxxxxxxxxxxxxxxxxxxxxxxxxxxxxxxxxxxxxxxxxxxxxxxxxxxxxxxxxxxxxxxxxxxxxxx")
      (List.replicate 80 'x') Options.initial).1 rfl (Or.inl rfl) rfl).2.1 (by decide),
   ((pattern_option_limit linux quietEnv [] []
      (shortOption 'p' "xxxxxxxxxxxxxxxxxxxxxxxxxxxxxxxxxxxxxxxxxxxxxxxxxxxxxxxxxxxxxxxxxxxxxxxxxxxxxxxxx")
      (List.replicate 81 'x') Options.initial).1 rfl (Or.inl rfl) rfl).2.2 (by decide),
   (pattern_option_limit linux quietEnv
      [shortOption 'd' "/dev/ttyS0", shortOption 'c' "9600_8N1"] []
      (shortOption 'p' "xxxxxxxxxxxxxxxxxxxxxxxxxxxxxxxxxxxxxxxxxxxxxxxxxxxxxxxxxxxxxxxxxxxxxxxxxxxxxxxxx")
      (List.replicate 81 'x') Options.initial).2.1 (by decide) (Or.inl rfl) rfl (by decide),
   (pattern_option_limit linux quietEnv [] [] (shortOption 'h' "") [] Options.initial).2.2
      (by simp) rfl⟩

/-! ## The ways `main` ends -/

/-- The ways a case of the option switch returns: the help case with 0, a
read of a NULL `optarg` with no result, or an argument error with -1. -/
theorem optionCase_error_cases (o : Options) (g : GetoptRound) (r : Run)
    (h : optionCase o g = .error r) :
    (g.isHelp ∧ r = { retVal := some 0, message := some .usage, trace := [] }) ∨
    (¬ g.isHelp ∧ g.takesArgument ∧ g.optarg = none ∧
      r = { retVal := none, message := none, trace := [] }) ∨
    (¬ g.isHelp ∧ ∃ m, m.isArgumentError ∧
      r = { retVal := some (-1), message := some m, trace := [] }) := by
  unfold GetoptRound.isHelp GetoptRound.takesArgument
  unfold optionCase at h
  split at h
  · next hc => cases h; exact Or.inl ⟨hc, rfl⟩
  · next hh =>
    right
    split at h
    · next hc =>
      have ht : g.getoptRet ∈ [100, ARG_D, 99, ARG_C, 105, ARG_I, 112, ARG_P] := by
        rcases hc with hc | hc <;> simp [hc]
      split at h
      · next hn => cases h; exact Or.inl ⟨hh, ht, hn, rfl⟩
      · split at h
        · cases h; exact Or.inr ⟨hh, .deviceNameTooLong, trivial, rfl⟩
        · cases h
    · split at h
      · next hc =>
        have ht : g.getoptRet ∈ [100, ARG_D, 99, ARG_C, 105, ARG_I, 112, ARG_P] := by
          rcases hc with hc | hc <;> simp [hc]
        split at h
        · next hn => cases h; exact Or.inl ⟨hh, ht, hn, rfl⟩
        · split at h
          · cases h; exact Or.inr ⟨hh, .configTooLong, trivial, rfl⟩
          · cases h
      · split at h
        · next hc =>
          have ht : g.getoptRet ∈ [100, ARG_D, 99, ARG_C, 105, ARG_I, 112, ARG_P] := by
            rcases hc with hc | hc <;> simp [hc]
          split at h
          · next hn => cases h; exact Or.inl ⟨hh, ht, hn, rfl⟩
          · split at h
            · cases h; exact Or.inr ⟨hh, .intervalTooLarge, trivial, rfl⟩
            · cases h
        · split at h
          · next hc =>
            have ht : g.getoptRet ∈ [100, ARG_D, 99, ARG_C, 105, ARG_I, 112, ARG_P] := by
              rcases hc with hc | hc <;> simp [hc]
            split at h
            · next hn => cases h; exact Or.inl ⟨hh, ht, hn, rfl⟩
            · split at h
              · cases h; exact Or.inr ⟨hh, .patternTooLong, trivial, rfl⟩
              · cases h
          · split at h
            · cases h
            · split at h
              · cases h
              · cases h; exact Or.inr ⟨hh, .usage, trivial, rfl⟩

/-- Option processing that returns does so in the case of one round, after
the rounds before it were processed. -/
theorem processOptions_error_split (o : Options) (argv : List GetoptRound) (r : Run)
    (h : processOptions o argv = .error r) :
    ∃ pre g post o1, argv = pre ++ g :: post ∧ processOptions o pre = .ok o1 ∧
      optionCase o1 g = .error r := by
  induction argv generalizing o with
  | nil => cases h
  | cons x xs ih =>
    rw [processOptions] at h
    cases hx : optionCase o x with
    | error r1 =>
      rw [hx] at h
      cases h
      exact ⟨[], x, xs, o, rfl, rfl, hx⟩
    | ok o1 =>
      rw [hx] at h
      obtain ⟨pre, g, post, o2, e, hp, hc⟩ := ih o1 h
      refine ⟨x :: pre, g, post, o2, by rw [e]; rfl, ?_, hc⟩
      rw [processOptions, hx]
      exact hp

/-- The seven ways `main` ends: in option processing; on a missing required
option; on a rejected config string; on a device that is not writable; on a
failed `open`; on a failed `tcsetattr`; or after the transmit loop. -/
theorem main_cases (K : Host) (argv : List GetoptRound) (env : Env) :
    (∃ r, processOptions Options.initial argv = .error r ∧ main K argv env = r) ∨
    (∃ o, processOptions Options.initial argv = .ok o ∧
      ((o.requiredArgs ≠ 0 ∧
          main K argv env = { retVal := some (-1), message := some .usage, trace := [] }) ∨
       (o.requiredArgs = 0 ∧ ∃ e, parseConfig K (rawSettings K) o.configStr = .error e ∧
          main K argv env =
            { retVal := some (-1), message := some (.config e), trace := [] }) ∨
       (o.requiredArgs = 0 ∧ ∃ cfg ts, parseConfig K (rawSettings K) o.configStr = .ok (cfg, ts) ∧
          ((env.accessRet ≠ 0 ∧ main K argv env =
              { retVal := some (-1), message := some .noPermission,
                trace := [DevOp.access o.devNameStr] }) ∨
           (env.accessRet = 0 ∧ env.openRet = -1 ∧ main K argv env =
              { retVal := some (-1), message := some .openFailed,
                trace := [DevOp.access o.devNameStr, DevOp.open o.devNameStr] }) ∨
           (env.accessRet = 0 ∧ env.openRet ≠ -1 ∧ env.tcsetattrRet ≠ 0 ∧ main K argv env =
              { retVal := some (-1), message := some .tcsetattrFailed,
                trace := [DevOp.access o.devNameStr, DevOp.open o.devNameStr,
                          DevOp.tcsetattr env.openRet ts, DevOp.close env.openRet] }) ∨
           (env.accessRet = 0 ∧ env.openRet ≠ -1 ∧ env.tcsetattrRet = 0 ∧ main K argv env =
              { retVal := some 0, message := none,
                trace := [DevOp.access o.devNameStr, DevOp.open o.devNameStr,
                          DevOp.tcsetattr env.openRet ts]
                  ++ pingLoop env env.openRet o env.ticks 0
                  ++ [DevOp.close env.openRet] }))))) := by
  unfold main
  cases hp : processOptions Options.initial argv with
  | error r => exact Or.inl ⟨r, rfl, rfl⟩
  | ok o =>
    right
    refine ⟨o, rfl, ?_⟩
    simp only []
    by_cases hr : o.requiredArgs = 0
    · right
      rw [if_neg (not_not.2 hr)]
      cases hc : parseConfig K (rawSettings K) o.configStr with
      | error e => exact Or.inl ⟨hr, e, rfl, rfl⟩
      | ok v =>
        obtain ⟨cfg, ts⟩ := v
        right
        refine ⟨hr, cfg, ts, rfl, ?_⟩
        simp only []
        by_cases ha : env.accessRet = 0
        · right
          rw [if_neg (not_not.2 ha)]
          by_cases ho : env.openRet = -1
          · exact Or.inl ⟨ha, ho, by rw [if_pos ho]⟩
          · right
            rw [if_neg ho]
            by_cases ht : env.tcsetattrRet = 0
            · exact Or.inr ⟨ha, ho, ht, by rw [if_neg (not_not.2 ht)]⟩
            · exact Or.inl ⟨ha, ho, ht, by rw [if_pos ht]⟩
        · exact Or.inl ⟨ha, by rw [if_pos ha]⟩
    · exact Or.inl ⟨hr, by rw [if_pos hr]⟩

/-- C11: `main` returns 0 or -1 whenever it returns; it returns 0 only when
a help option was reached or the transmit loop was reached and left; every
run that ends with a message other than the usage text of the help option
returns -1, and so does every run with a missing required option, a
rejected config string, a device that is not writable, a failed `open` or a
failed `tcsetattr`. -/
theorem main_exit_code (K : Host) (argv : List GetoptRound) (env : Env) :
    (∀ v, (main K argv env).retVal = some v → v = 0 ∨ v = -1) ∧
    ((main K argv env).retVal = some 0 → helpReached argv ∨ loopLeft K argv env) ∧
    (∀ m, (main K argv env).message = some m →
      (main K argv env).retVal = some (-1) ∨
      ((main K argv env).retVal = some 0 ∧ m = .usage ∧ helpReached argv)) ∧
    (∀ r, processOptions Options.initial argv = .error r →
      (main K argv env).retVal = some (-1) ∨ helpReached argv ∨
      (main K argv env).retVal = none) ∧
    (∀ o, processOptions Options.initial argv = .ok o →
      (o.requiredArgs ≠ 0 ∨ (∃ e, parseConfig K (rawSettings K) o.configStr = .error e) ∨
        env.accessRet ≠ 0 ∨ env.openRet = -1 ∨ env.tcsetattrRet ≠ 0) →
      (main K argv env).retVal = some (-1)) := by
  have hopt : ∀ r, processOptions Options.initial argv = .error r →
      (r.retVal = some (-1) ∧ ∃ m, r.message = some m) ∨
      (r = { retVal := some 0, message := some .usage, trace := [] } ∧ helpReached argv) ∨
      (r.retVal = none ∧ r.message = none) := by
    intro r hr
    obtain ⟨pre, g, post, o1, e, hp, hc⟩ := processOptions_error_split _ _ _ hr
    rcases optionCase_error_cases o1 g r hc with ⟨hg, rfl⟩ | ⟨-, -, -, rfl⟩ | ⟨-, m, -, rfl⟩
    · exact Or.inr (Or.inl ⟨rfl, pre, g, post, o1, e, hp, hg⟩)
    · exact Or.inr (Or.inr ⟨rfl, rfl⟩)
    · exact Or.inl ⟨rfl, m, rfl⟩
  rcases main_cases K argv env with ⟨r, hr, hm⟩ | ⟨o, ho, hcase⟩
  · rw [hm]
    rcases hopt r hr with ⟨h1, m, h2⟩ | ⟨rfl, hh⟩ | ⟨h1, h2⟩
    · refine ⟨?_, ?_, ?_, ?_, ?_⟩
      · intro v hv; rw [h1] at hv; cases hv; exact Or.inr rfl
      · intro hv; rw [h1] at hv; cases hv
      · intro m1 _; exact Or.inl h1
      · intro _ _; exact Or.inl h1
      · intro o ho; rw [hr] at ho; cases ho
    · refine ⟨?_, ?_, ?_, ?_, ?_⟩
      · intro v hv; cases hv; exact Or.inl rfl
      · intro _; exact Or.inl hh
      · intro m1 hm1; cases hm1; exact Or.inr ⟨rfl, rfl, hh⟩
      · intro _ _; exact Or.inr (Or.inl hh)
      · intro o ho; rw [hr] at ho; cases ho
    · refine ⟨?_, ?_, ?_, ?_, ?_⟩
      · intro v hv; rw [h1] at hv; cases hv
      · intro hv; rw [h1] at hv; cases hv
      · intro m1 hm1; rw [h2] at hm1; cases hm1
      · intro _ _; exact Or.inr (Or.inr h1)
      · intro o ho; rw [hr] at ho; cases ho
  · have hneg : ∀ r, processOptions Options.initial argv = .error r → False := by
      intro r hr; rw [ho] at hr; cases hr
    rcases hcase with ⟨hreq, hm⟩ | ⟨hreq, e, hpe, hm⟩ | ⟨hreq, cfg, ts, hpo, hdev⟩
    · rw [hm]
      refine ⟨?_, ?_, ?_, ?_, ?_⟩
      · intro v hv; cases hv; exact Or.inr rfl
      · intro hv; cases hv
      · intro _ _; exact Or.inl rfl
      · intro r hr; exact (hneg r hr).elim
      · intro _ _ _; rfl
    · rw [hm]
      refine ⟨?_, ?_, ?_, ?_, ?_⟩
      · intro v hv; cases hv; exact Or.inr rfl
      · intro hv; cases hv
      · intro _ _; exact Or.inl rfl
      · intro r hr; exact (hneg r hr).elim
      · intro _ _ _; rfl
    · rcases hdev with ⟨ha, hm⟩ | ⟨ha, hop, hm⟩ | ⟨ha, hop, ht, hm⟩ | ⟨ha, hop, ht, hm⟩
      · rw [hm]
        refine ⟨?_, ?_, ?_, ?_, ?_⟩
        · intro v hv; cases hv; exact Or.inr rfl
        · intro hv; cases hv
        · intro _ _; exact Or.inl rfl
        · intro r hr; exact (hneg r hr).elim
        · intro _ _ _; rfl
      · rw [hm]
        refine ⟨?_, ?_, ?_, ?_, ?_⟩
        · intro v hv; cases hv; exact Or.inr rfl
        · intro hv; cases hv
        · intro _ _; exact Or.inl rfl
        · intro r hr; exact (hneg r hr).elim
        · intro _ _ _; rfl
      · rw [hm]
        refine ⟨?_, ?_, ?_, ?_, ?_⟩
        · intro v hv; cases hv; exact Or.inr rfl
        · intro hv; cases hv
        · intro _ _; exact Or.inl rfl
        · intro r hr; exact (hneg r hr).elim
        · intro _ _ _; rfl
      · refine ⟨?_, ?_, ?_, ?_, ?_⟩
        · intro v hv; rw [hm] at hv; cases hv; exact Or.inl rfl
        · intro _
          exact Or.inr ⟨o, cfg, ts, ho, hreq, hpo, ha, hop, ht, by rw [hm]⟩
        · intro m1 hm1; rw [hm] at hm1; cases hm1
        · intro r hr; exact (hneg r hr).elim
        · intro o1 ho1 hfail
          rw [ho] at ho1
          cases ho1
          rcases hfail with h | ⟨e, h⟩ | h | h | h
          · exact absurd hreq h
          · rw [hpo] at h; cases h
          · exact absurd ha h
          · exact absurd h hop
          · exact absurd ht h

/-! ## The buffers of option processing -/

/-- The buffer after `strncpy` of a string that fits into a buffer whose last
byte is NUL: the string and NULs, nothing of the old content. -/
theorem strncpy_buffer (dest src : List Char) (n : Nat) (hd : dest.drop n = [NUL])
    (h : strlen src ≤ n) : strncpy dest src n = bufferOf (n + 1) src := by
  rw [strncpy_fits dest src n h, hd]
  unfold bufferOf
  rw [List.append_assoc]
  congr 1
  have e : n + 1 - strlen src = (n - strlen src) + 1 := by omega
  rw [e, List.replicate_succ']

theorem cstring_bufferOf (size : Nat) (s : List Char) (h : strlen s < size) :
    cstring (bufferOf size s) = cstring s := by
  unfold bufferOf
  rw [cstring_append_of_not_mem _ _ (NUL_not_mem_cstring s)]
  have e : size - strlen s = (size - strlen s - 1) + 1 := by omega
  rw [e, List.replicate_succ]
  simp [cstring, List.takeWhile_cons]

theorem length_bufferOf (size : Nat) (s : List Char) (h : strlen s ≤ size) :
    (bufferOf size s).length = size := by
  unfold bufferOf
  rw [List.length_append, List.length_replicate, ← strlen_eq_cstring_length]
  omega

theorem strlen_bufferOf (size : Nat) (s : List Char) (h : strlen s < size) :
    strlen (bufferOf size s) = strlen s := by
  rw [strlen_eq_cstring_length, cstring_bufferOf size s h, ← strlen_eq_cstring_length]

theorem initial_terminated : Options.initial.terminated := by
  unfold Options.terminated
  decide

/-- The device case of the option switch. -/
theorem optionCase_device (o : Options) (g : GetoptRound) (arg : List Char)
    (hg : g.isDevice) (ha : g.optarg = some arg) :
    optionCase o g =
      if strlen arg ≥ CONST_DEVNAMESTR then
        .error { retVal := some (-1), message := some .deviceNameTooLong, trace := [] }
      else
        .ok { o with devNameStr := strncpy o.devNameStr arg (CONST_DEVNAMESTR - 1)
                     requiredArgs := clearBits o.requiredArgs ARG_D } := by
  unfold optionCase
  rcases hg with hg | hg <;>
    simp [hg, ha, ARG_HELP, ARG_D, ARG_C, ARG_I, ARG_P]

/-- The config case of the option switch. -/
theorem optionCase_config (o : Options) (g : GetoptRound) (arg : List Char)
    (hg : g.isConfig) (ha : g.optarg = some arg) :
    optionCase o g =
      if strlen arg ≥ CONST_CONFIGSTR then
        .error { retVal := some (-1), message := some .configTooLong, trace := [] }
      else
        .ok { o with configStr := strncpy o.configStr arg (CONST_CONFIGSTR - 1)
                     requiredArgs := clearBits o.requiredArgs ARG_C } := by
  unfold optionCase
  rcases hg with hg | hg <;>
    simp [hg, ha, ARG_HELP, ARG_D, ARG_C, ARG_I, ARG_P]

/-- The cases other than the device case leave the device name as it
was. -/
theorem optionCase_not_device (o o1 : Options) (g : GetoptRound) (hg : ¬ g.isDevice)
    (h : optionCase o g = .ok o1) : o1.devNameStr = o.devNameStr := by
  unfold GetoptRound.isDevice at hg
  unfold optionCase at h
  repeat' split at h
  all_goals first
    | (cases h; rfl)
    | (cases h)

/-- The cases other than the config case leave the config string as it
was. -/
theorem optionCase_not_config (o o1 : Options) (g : GetoptRound) (hg : ¬ g.isConfig)
    (h : optionCase o g = .ok o1) : o1.configStr = o.configStr := by
  unfold GetoptRound.isConfig at hg
  unfold optionCase at h
  repeat' split at h
  all_goals first
    | (cases h; rfl)
    | (cases h)

/-- The cases other than the device and the config case leave the mask of
required options as it was. -/
theorem optionCase_mask_other (o o1 : Options) (g : GetoptRound) (hd : ¬ g.isDevice)
    (hc : ¬ g.isConfig) (h : optionCase o g = .ok o1) : o1.requiredArgs = o.requiredArgs := by
  unfold GetoptRound.isDevice at hd
  unfold GetoptRound.isConfig at hc
  unfold optionCase at h
  repeat' split at h
  all_goals first
    | (cases h; rfl)
    | (cases h)

/-- An accepted round came with its argument when its case reads one, and
the argument fits its buffer. -/
theorem optionCase_ok_fits (o o1 : Options) (g : GetoptRound) (h : optionCase o g = .ok o1) :
    ¬ g.isHelp ∧
    (g.isDevice → ∃ arg, g.optarg = some arg ∧ strlen arg ≤ 29) ∧
    (g.isConfig → ∃ arg, g.optarg = some arg ∧ strlen arg ≤ 10) ∧
    (g.isPattern → ∃ arg, g.optarg = some arg ∧ strlen arg ≤ 80) := by
  refine ⟨?_, ?_, ?_, ?_⟩
  · intro hh
    unfold GetoptRound.isHelp at hh
    unfold optionCase at h
    rw [if_pos hh] at h
    cases h
  · intro hg
    cases ha : g.optarg with
    | none =>
      unfold optionCase at h
      rcases hg with hg | hg <;>
        simp [hg, ha, ARG_HELP, ARG_D, ARG_C, ARG_I, ARG_P] at h
    | some arg =>
      rw [optionCase_device o g arg hg ha] at h
      split at h
      · cases h
      · next hl => exact ⟨arg, rfl, by simp only [CONST_DEVNAMESTR] at hl; omega⟩
  · intro hg
    cases ha : g.optarg with
    | none =>
      unfold optionCase at h
      rcases hg with hg | hg <;>
        simp [hg, ha, ARG_HELP, ARG_D, ARG_C, ARG_I, ARG_P] at h
    | some arg =>
      rw [optionCase_config o g arg hg ha] at h
      split at h
      · cases h
      · next hl => exact ⟨arg, rfl, by simp only [CONST_CONFIGSTR] at hl; omega⟩
  · intro hg
    cases ha : g.optarg with
    | none =>
      unfold optionCase at h
      rcases hg with hg | hg <;>
        simp [hg, ha, ARG_HELP, ARG_D, ARG_C, ARG_I, ARG_P] at h
    | some arg =>
      rw [optionCase_pattern o g arg hg ha] at h
      split at h
      · cases h
      · next hl => exact ⟨arg, rfl, by simp only [CONST_PATTERNSTR] at hl; omega⟩

/-- Every case of the option switch keeps the last byte of each buffer
NUL. -/
theorem optionCase_terminated (o o1 : Options) (g : GetoptRound)
    (h : optionCase o g = .ok o1) (ht : o.terminated) : o1.terminated := by
  obtain ⟨t1, t2, t3⟩ := ht
  obtain ⟨-, fd, fc, fp⟩ := optionCase_ok_fits o o1 g h
  refine ⟨?_, ?_, ?_⟩
  · by_cases hg : g.isDevice
    · obtain ⟨arg, ha, hl⟩ := fd hg
      rw [optionCase_device o g arg hg ha, if_neg (by simp only [CONST_DEVNAMESTR]; omega)] at h
      cases h
      simp only [CONST_DEVNAMESTR]
      rw [drop_strncpy _ _ _ hl]
      exact t1
    · rw [optionCase_not_device o o1 g hg h]; exact t1
  · by_cases hg : g.isConfig
    · obtain ⟨arg, ha, hl⟩ := fc hg
      rw [optionCase_config o g arg hg ha, if_neg (by simp only [CONST_CONFIGSTR]; omega)] at h
      cases h
      simp only [CONST_CONFIGSTR]
      rw [drop_strncpy _ _ _ hl]
      exact t2
    · rw [optionCase_not_config o o1 g hg h]; exact t2
  · by_cases hg : g.isPattern
    · obtain ⟨arg, ha, hl⟩ := fp hg
      rw [optionCase_pattern o g arg hg ha, if_neg (by simp only [CONST_PATTERNSTR]; omega)] at h
      cases h
      simp only [CONST_PATTERNSTR]
      rw [drop_strncpy _ _ _ hl]
      exact t3
    · rw [(optionCase_other o o1 g hg h).1]; exact t3

theorem processOptions_terminated (o o1 : Options) (argv : List GetoptRound)
    (h : processOptions o argv = .ok o1) (ht : o.terminated) : o1.terminated := by
  induction argv generalizing o with
  | nil => cases h; exact ht
  | cons g gs ih =>
    rw [processOptions] at h
    cases hx : optionCase o g with
    | error r => rw [hx] at h; cases h
    | ok o2 =>
      rw [hx] at h
      exact ih o2 h (optionCase_terminated o o2 g hx ht)

/-! ## Option processing round by round -/

/-- Option processing that ends normally went through the rounds before a
given round, through its case, and through the rounds after it. -/
theorem processOptions_ok_split (o o3 : Options) (pre post : List GetoptRound)
    (g : GetoptRound) (h : processOptions o (pre ++ g :: post) = .ok o3) :
    ∃ o1 o2, processOptions o pre = .ok o1 ∧ optionCase o1 g = .ok o2 ∧
      processOptions o2 post = .ok o3 := by
  induction pre generalizing o with
  | nil =>
    rw [List.nil_append, processOptions] at h
    cases hx : optionCase o g with
    | error r => rw [hx] at h; cases h
    | ok o2 => rw [hx] at h; exact ⟨o, o2, rfl, hx, h⟩
  | cons x xs ih =>
    rw [List.cons_append, processOptions] at h
    cases hx : optionCase o x with
    | error r => rw [hx] at h; cases h
    | ok o1 =>
      rw [hx] at h
      obtain ⟨oa, ob, h1, h2, h3⟩ := ih o1 h
      refine ⟨oa, ob, ?_, h2, h3⟩
      rw [processOptions, hx]
      exact h1

/-- Every round of an option processing that ends normally was accepted. -/
theorem processOptions_ok_mem (o o1 : Options) (argv : List GetoptRound)
    (h : processOptions o argv = .ok o1) (g : GetoptRound) (hg : g ∈ argv) :
    ∃ oa ob, optionCase oa g = .ok ob := by
  obtain ⟨pre, post, e⟩ := List.append_of_mem hg
  rw [e] at h
  obtain ⟨oa, ob, -, h2, -⟩ := processOptions_ok_split o o1 pre post g h
  exact ⟨oa, ob, h2⟩

theorem processOptions_no_device (o o1 : Options) (argv : List GetoptRound)
    (hn : ∀ g ∈ argv, ¬ g.isDevice) (h : processOptions o argv = .ok o1) :
    o1.devNameStr = o.devNameStr := by
  induction argv generalizing o with
  | nil => cases h; rfl
  | cons g gs ih =>
    rw [processOptions] at h
    cases hx : optionCase o g with
    | error r => rw [hx] at h; cases h
    | ok o2 =>
      rw [hx] at h
      rw [ih o2 (fun x hx => hn x (by simp [hx])) h,
        optionCase_not_device o o2 g (hn g (by simp)) hx]

theorem processOptions_no_config (o o1 : Options) (argv : List GetoptRound)
    (hn : ∀ g ∈ argv, ¬ g.isConfig) (h : processOptions o argv = .ok o1) :
    o1.configStr = o.configStr := by
  induction argv generalizing o with
  | nil => cases h; rfl
  | cons g gs ih =>
    rw [processOptions] at h
    cases hx : optionCase o g with
    | error r => rw [hx] at h; cases h
    | ok o2 =>
      rw [hx] at h
      rw [ih o2 (fun x hx => hn x (by simp [hx])) h,
        optionCase_not_config o o2 g (hn g (by simp)) hx]

/-- The mask of required options after one accepted round. -/
theorem optionCase_mask (o o1 : Options) (g : GetoptRound) (d c : Bool)
    (h : optionCase o g = .ok o1) (hm : o.requiredArgs = requiredMask d c) :
    o1.requiredArgs = requiredMask (d || decide g.isDevice) (c || decide g.isConfig) := by
  obtain ⟨-, fd, fc, -⟩ := optionCase_ok_fits o o1 g h
  by_cases hd : g.isDevice
  · have hc : ¬ g.isConfig := by
      unfold GetoptRound.isDevice at hd
      unfold GetoptRound.isConfig
      rcases hd with hd | hd <;> simp [hd, ARG_D, ARG_C]
    obtain ⟨arg, ha, hl⟩ := fd hd
    rw [optionCase_device o g arg hd ha, if_neg (by simp only [CONST_DEVNAMESTR]; omega)] at h
    cases h
    simp only [hm, hd, hc, decide_True, decide_False, Bool.or_true, Bool.or_false]
    cases d <;> cases c <;> decide
  · by_cases hc : g.isConfig
    · obtain ⟨arg, ha, hl⟩ := fc hc
      rw [optionCase_config o g arg hc ha, if_neg (by simp only [CONST_CONFIGSTR]; omega)] at h
      cases h
      simp only [hm, hd, hc, decide_True, decide_False, Bool.or_true, Bool.or_false]
      cases d <;> cases c <;> decide
    · rw [optionCase_mask_other o o1 g hd hc h, hm]
      simp [hd, hc]

theorem processOptions_mask (o o1 : Options) (argv : List GetoptRound) (d c : Bool)
    (h : processOptions o argv = .ok o1) (hm : o.requiredArgs = requiredMask d c) :
    o1.requiredArgs =
      requiredMask (d || argv.any (fun g => decide g.isDevice))
        (c || argv.any (fun g => decide g.isConfig)) := by
  induction argv generalizing o d c with
  | nil => cases h; simpa using hm
  | cons g gs ih =>
    rw [processOptions] at h
    cases hx : optionCase o g with
    | error r => rw [hx] at h; cases h
    | ok o2 =>
      rw [hx] at h
      have := ih o2 _ _ h (optionCase_mask o o2 g d c hx hm)
      rw [this]
      simp only [List.any_cons, Bool.or_assoc]

/-- The mask of required options after option processing is zero exactly
when a device round and a config round were among the rounds. -/
theorem processOptions_mask_zero (o : Options) (argv : List GetoptRound)
    (h : processOptions Options.initial argv = .ok o) :
    o.requiredArgs = 0 ↔ (∃ g ∈ argv, g.isDevice) ∧ (∃ g ∈ argv, g.isConfig) := by
  have hm := processOptions_mask Options.initial o argv false false h (by decide)
  rw [hm]
  simp only [Bool.false_or]
  have e1 : (argv.any (fun g => decide g.isDevice) = true) ↔ ∃ g ∈ argv, g.isDevice := by
    simp [List.any_eq_true]
  have e2 : (argv.any (fun g => decide g.isConfig) = true) ↔ ∃ g ∈ argv, g.isConfig := by
    simp [List.any_eq_true]
  rw [← e1, ← e2]
  cases argv.any (fun g => decide g.isDevice) <;>
    cases argv.any (fun g => decide g.isConfig) <;> decide

/-- The required options where every option comes with its argument: on a
command line without help option whose options come with their arguments,
`main` returns -1 with an argument error, no config string parsed and no
device call, whenever no device option or no config option is given, a
device argument has 30 or more characters, or a config argument has 11 or
more; without help option such a command line never returns 0, never gets to
the parser and never makes a device call; and after option processing the
mask of required options is zero exactly when a device option and a config
option were seen. -/
theorem main_required_arguments (K : Host) (argv : List GetoptRound) (env : Env) :
    ((∀ g ∈ argv, g.plain) →
      ((∀ g ∈ argv, ¬ g.isDevice) ∨ (∀ g ∈ argv, ¬ g.isConfig) ∨
        (∃ g ∈ argv, ∃ arg, g.isDevice ∧ g.optarg = some arg ∧ 30 ≤ strlen arg) ∨
        (∃ g ∈ argv, ∃ arg, g.isConfig ∧ g.optarg = some arg ∧ 11 ≤ strlen arg)) →
      (main K argv env).retVal = some (-1) ∧ (main K argv env).trace = [] ∧
      ∃ m, (main K argv env).message = some m ∧ m.isArgumentError) ∧
    ((∀ g ∈ argv, ¬ g.isHelp) →
      ((∀ g ∈ argv, ¬ g.isDevice) ∨ (∀ g ∈ argv, ¬ g.isConfig) ∨
        (∃ g ∈ argv, ∃ arg, g.isDevice ∧ g.optarg = some arg ∧ 30 ≤ strlen arg) ∨
        (∃ g ∈ argv, ∃ arg, g.isConfig ∧ g.optarg = some arg ∧ 11 ≤ strlen arg)) →
      (main K argv env).retVal ≠ some 0 ∧ (main K argv env).trace = [] ∧
      ∀ e, (main K argv env).message ≠ some (.config e)) ∧
    (∀ o, processOptions Options.initial argv = .ok o →
      (o.requiredArgs = 0 ↔ (∃ g ∈ argv, g.isDevice) ∧ (∃ g ∈ argv, g.isConfig))) := by
  have hok : ∀ o, processOptions Options.initial argv = .ok o →
      ((∀ g ∈ argv, ¬ g.isDevice) ∨ (∀ g ∈ argv, ¬ g.isConfig) ∨
        (∃ g ∈ argv, ∃ arg, g.isDevice ∧ g.optarg = some arg ∧ 30 ≤ strlen arg) ∨
        (∃ g ∈ argv, ∃ arg, g.isConfig ∧ g.optarg = some arg ∧ 11 ≤ strlen arg)) →
      main K argv env = { retVal := some (-1), message := some .usage, trace := [] } := by
    intro o hp hbad
    have hfit : ∀ g ∈ argv, (g.isDevice → ∃ arg, g.optarg = some arg ∧ strlen arg ≤ 29) ∧
        (g.isConfig → ∃ arg, g.optarg = some arg ∧ strlen arg ≤ 10) := by
      intro g hg
      obtain ⟨oa, ob, hab⟩ := processOptions_ok_mem _ _ _ hp g hg
      have := optionCase_ok_fits oa ob g hab
      exact ⟨this.2.1, this.2.2.1⟩
    have hreq : o.requiredArgs ≠ 0 := by
      intro h0
      obtain ⟨⟨gd, hgd, hd⟩, ⟨gc, hgc, hc⟩⟩ := (processOptions_mask_zero o argv hp).1 h0
      rcases hbad with h | h | ⟨g, hg, arg, hdev, ha, hl⟩ | ⟨g, hg, arg, hcon, ha, hl⟩
      · exact h gd hgd hd
      · exact h gc hgc hc
      · obtain ⟨arg1, ha1, hl1⟩ := (hfit g hg).1 hdev
        rw [ha] at ha1
        cases ha1
        omega
      · obtain ⟨arg1, ha1, hl1⟩ := (hfit g hg).2 hcon
        rw [ha] at ha1
        cases ha1
        omega
    unfold main
    rw [hp]
    simp only []
    rw [if_pos hreq]
  refine ⟨?_, ?_, fun o ho => processOptions_mask_zero o argv ho⟩
  · intro hplain hbad
    cases hp : processOptions Options.initial argv with
    | error r =>
      have hm : main K argv env = r := by unfold main; rw [hp]
      rw [hm]
      obtain ⟨pre, g, post, o1, e, -, hc⟩ := processOptions_error_split _ _ _ hp
      have hg : g.plain := hplain g (by rw [e]; simp)
      rcases optionCase_error_cases o1 g r hc with ⟨hh, -⟩ | ⟨-, ht, hn, -⟩ | ⟨-, m, hm1, rfl⟩
      · exact absurd hh hg.1
      · exact absurd hn (hg.2 ht)
      · exact ⟨rfl, rfl, m, rfl, hm1⟩
    | ok o =>
      rw [hok o hp hbad]
      exact ⟨rfl, rfl, .usage, rfl, trivial⟩
  · intro hhelp hbad
    cases hp : processOptions Options.initial argv with
    | error r =>
      have hm : main K argv env = r := by unfold main; rw [hp]
      rw [hm]
      obtain ⟨pre, g, post, o1, e, -, hc⟩ := processOptions_error_split _ _ _ hp
      have hg : ¬ g.isHelp := hhelp g (by rw [e]; simp)
      rcases optionCase_error_cases o1 g r hc with ⟨hh, -⟩ | ⟨-, -, -, rfl⟩ | ⟨-, m, hm1, rfl⟩
      · exact absurd hh hg
      · exact ⟨by simp, rfl, by simp⟩
      · refine ⟨by simp, rfl, ?_⟩
        intro e1 he1
        simp only [Option.some.injEq] at he1
        rw [he1] at hm1
        exact hm1
    | ok o =>
      rw [hok o hp hbad]
      exact ⟨by simp, rfl, by simp⟩

/-- The buffer that holds the argument of the last device round. -/
theorem processOptions_last_device (pre post : List GetoptRound) (g : GetoptRound)
    (arg : List Char) (o : Options)
    (h : processOptions Options.initial (pre ++ g :: post) = .ok o) (hg : g.isDevice)
    (ha : g.optarg = some arg) (hpost : ∀ x ∈ post, ¬ x.isDevice) :
    strlen arg ≤ 29 ∧ o.devNameStr = bufferOf 30 arg := by
  obtain ⟨o1, o2, h1, h2, h3⟩ := processOptions_ok_split _ _ _ _ _ h
  have ht := processOptions_terminated _ _ _ h1 initial_terminated
  obtain ⟨arg1, ha1, hl⟩ := (optionCase_ok_fits o1 o2 g h2).2.1 hg
  rw [ha] at ha1
  cases ha1
  refine ⟨hl, ?_⟩
  rw [processOptions_no_device _ _ _ hpost h3]
  rw [optionCase_device o1 g arg hg ha, if_neg (by simp only [CONST_DEVNAMESTR]; omega)] at h2
  cases h2
  exact strncpy_buffer _ _ 29 ht.1 hl

/-- The buffer that holds the argument of the last config round. -/
theorem processOptions_last_config (pre post : List GetoptRound) (g : GetoptRound)
    (arg : List Char) (o : Options)
    (h : processOptions Options.initial (pre ++ g :: post) = .ok o) (hg : g.isConfig)
    (ha : g.optarg = some arg) (hpost : ∀ x ∈ post, ¬ x.isConfig) :
    strlen arg ≤ 10 ∧ o.configStr = bufferOf 11 arg := by
  obtain ⟨o1, o2, h1, h2, h3⟩ := processOptions_ok_split _ _ _ _ _ h
  have ht := processOptions_terminated _ _ _ h1 initial_terminated
  obtain ⟨arg1, ha1, hl⟩ := (optionCase_ok_fits o1 o2 g h2).2.2.1 hg
  rw [ha] at ha1
  cases ha1
  refine ⟨hl, ?_⟩
  rw [processOptions_no_config _ _ _ hpost h3]
  rw [optionCase_config o1 g arg hg ha, if_neg (by simp only [CONST_CONFIGSTR]; omega)] at h2
  cases h2
  exact strncpy_buffer _ _ 10 ht.2.1 hl

/-- The buffer that holds the argument of the last pattern round, and the
pattern length. -/
theorem processOptions_last_pattern (pre post : List GetoptRound) (g : GetoptRound)
    (arg : List Char) (o : Options)
    (h : processOptions Options.initial (pre ++ g :: post) = .ok o) (hg : g.isPattern)
    (ha : g.optarg = some arg) (hpost : ∀ x ∈ post, ¬ x.isPattern) :
    strlen arg ≤ 80 ∧ o.patternStr = bufferOf 81 arg ∧ o.patternLength = strlen arg := by
  obtain ⟨o1, o2, h1, h2, h3⟩ := processOptions_ok_split _ _ _ _ _ h
  have ht := processOptions_terminated _ _ _ h1 initial_terminated
  obtain ⟨arg1, ha1, hl⟩ := (optionCase_ok_fits o1 o2 g h2).2.2.2 hg
  rw [ha] at ha1
  cases ha1
  obtain ⟨hs, hlen⟩ := processOptions_no_pattern _ _ _ hpost h3
  rw [hs, hlen]
  rw [optionCase_pattern o1 g arg hg ha, if_neg (by simp only [CONST_PATTERNSTR]; omega)] at h2
  cases h2
  have hb : strncpy o1.patternStr arg (CONST_PATTERNSTR - 1) = bufferOf 81 arg :=
    strncpy_buffer _ _ 80 ht.2.2 hl
  refine ⟨hl, hb, ?_⟩
  simp only []
  rw [hb, strlen_bufferOf 81 arg (by omega)]

/-! ## The trace of the transmit loop -/

theorem pingLoop_succ (env : Env) (spFd : Int) (o : Options) (n i : Nat) :
    pingLoop env spFd o (n + 1) i =
      [DevOp.write spFd o.patternStr o.patternLength]
        ++ (if env.writeRet i < 0 then [DevOp.perror] else [])
        ++ [DevOp.usleep o.pingInterval]
        ++ pingLoop env spFd o n (i + 1) := rfl

theorem pingLoop_filter_isClose (env : Env) (spFd : Int) (o : Options) (n i : Nat) :
    (pingLoop env spFd o n i).filter DevOp.isClose = [] := by
  induction n generalizing i with
  | zero => rfl
  | succ n ih =>
    rw [pingLoop_succ]
    simp only [List.filter_append, ih]
    split <;> rfl

theorem pingLoop_filter_isWrite (env : Env) (spFd : Int) (o : Options) (n i : Nat) :
    (pingLoop env spFd o n i).filter DevOp.isWrite =
      List.replicate n (DevOp.write spFd o.patternStr o.patternLength) := by
  induction n generalizing i with
  | zero => rfl
  | succ n ih =>
    rw [pingLoop_succ]
    simp only [List.filter_append, ih, List.replicate_succ]
    split <;> rfl

/-- The loop without its warnings: `n` times a write of the pattern and a
sleep of the interval, whatever the writes return. -/
theorem pingLoop_filter_not_isPerror (env : Env) (spFd : Int) (o : Options) (n i : Nat) :
    (pingLoop env spFd o n i).filter (fun e => !e.isPerror) =
      (List.replicate n
        [DevOp.write spFd o.patternStr o.patternLength, DevOp.usleep o.pingInterval]).flatten := by
  induction n generalizing i with
  | zero => rfl
  | succ n ih =>
    rw [pingLoop_succ]
    simp only [List.filter_append, ih, List.replicate_succ, List.flatten_cons]
    split <;> rfl

/-- The warnings of the loop: one for each tick whose write returned a
negative value. -/
theorem pingLoop_filter_isPerror (env : Env) (spFd : Int) (o : Options) (n i : Nat) :
    ((pingLoop env spFd o n i).filter DevOp.isPerror).length =
      ((List.range n).filter (fun k => decide (env.writeRet (i + k) < 0))).length := by
  induction n generalizing i with
  | zero => rfl
  | succ n ih =>
    rw [pingLoop_succ, List.range_succ_eq_map]
    simp only [List.filter_append, List.length_append, ih, List.filter_cons, List.filter_map,
      List.length_map, Nat.add_zero]
    have e : (List.filter ((fun k => decide (env.writeRet (i + k) < 0)) ∘ Nat.succ)
        (List.range n)) = List.filter (fun k => decide (env.writeRet (i + 1 + k) < 0))
        (List.range n) := by
      congr 1
      funext k
      simp only [Function.comp, Nat.succ_eq_add_one]
      rw [Nat.add_assoc, Nat.add_comm 1 k]
    rw [e]
    by_cases hw : env.writeRet i < 0
    · simp [hw, DevOp.isPerror]
      omega
    · simp [hw, DevOp.isPerror]

/-- C14: the transmit loop of `n` ticks makes exactly `n` write attempts,
each of the same handle, pattern and pattern length, and `n` sleeps of the
same interval; a failed write adds a warning and nothing else, the next
tick follows all the same; with other write results `main` returns the same
value and makes the same calls, warnings apart. -/
theorem pingLoop_write_failures (K : Host) (argv : List GetoptRound) (env : Env)
    (w : Nat → Int) (spFd : Int) (o : Options) (n i : Nat) :
    (pingLoop env spFd o n i).filter DevOp.isWrite =
      List.replicate n (DevOp.write spFd o.patternStr o.patternLength) ∧
    (pingLoop env spFd o n i).filter (fun e => !e.isPerror) =
      (List.replicate n
        [DevOp.write spFd o.patternStr o.patternLength, DevOp.usleep o.pingInterval]).flatten ∧
    (env.writeRet i < 0 → pingLoop env spFd o (n + 1) i =
      [DevOp.write spFd o.patternStr o.patternLength, DevOp.perror,
        DevOp.usleep o.pingInterval] ++ pingLoop env spFd o n (i + 1)) ∧
    (¬ env.writeRet i < 0 → pingLoop env spFd o (n + 1) i =
      [DevOp.write spFd o.patternStr o.patternLength, DevOp.usleep o.pingInterval]
        ++ pingLoop env spFd o n (i + 1)) ∧
    ((pingLoop env spFd o n i).filter DevOp.isPerror).length =
      ((List.range n).filter (fun k => decide (env.writeRet (i + k) < 0))).length ∧
    (main K argv { env with writeRet := w }).retVal = (main K argv env).retVal ∧
    (main K argv { env with writeRet := w }).message = (main K argv env).message ∧
    (main K argv { env with writeRet := w }).trace.filter (fun e => !e.isPerror) =
      (main K argv env).trace.filter (fun e => !e.isPerror) := by
  refine ⟨pingLoop_filter_isWrite env spFd o n i, pingLoop_filter_not_isPerror env spFd o n i,
    ?_, ?_, pingLoop_filter_isPerror env spFd o n i, ?_⟩
  · intro hw
    rw [pingLoop_succ, if_pos hw]
    rfl
  · intro hw
    rw [pingLoop_succ, if_neg hw]
    rfl
  · unfold main
    cases processOptions Options.initial argv with
    | error r => exact ⟨rfl, rfl, rfl⟩
    | ok o1 =>
      simp only []
      by_cases hr : o1.requiredArgs = 0
      · rw [if_neg (not_not.2 hr), if_neg (not_not.2 hr)]
        cases parseConfig K (rawSettings K) o1.configStr with
        | error e => exact ⟨rfl, rfl, rfl⟩
        | ok v =>
          obtain ⟨cfg, ts⟩ := v
          simp only []
          by_cases ha : env.accessRet = 0
          · rw [if_neg (not_not.2 ha), if_neg (not_not.2 ha)]
            by_cases ho : env.openRet = -1
            · rw [if_pos ho, if_pos ho]
              exact ⟨rfl, rfl, rfl⟩
            · rw [if_neg ho, if_neg ho]
              by_cases ht : env.tcsetattrRet = 0
              · rw [if_neg (not_not.2 ht), if_neg (not_not.2 ht)]
                refine ⟨rfl, rfl, ?_⟩
                simp only [List.filter_append, pingLoop_filter_not_isPerror]
              · rw [if_pos ht, if_pos ht]
                exact ⟨rfl, rfl, rfl⟩
          · rw [if_pos ha, if_pos ha]
            exact ⟨rfl, rfl, rfl⟩
      · rw [if_pos hr, if_pos hr]
        exact ⟨rfl, rfl, rfl⟩

/-- C13: in every run of `main`, when `open` was called and succeeded the
handle it returned is closed exactly once, by the last call of the run, and
when `tcsetattr` failed no write was attempted; when `open` failed or was
not called, `close` is not called. -/
theorem main_close_once (K : Host) (argv : List GetoptRound) (env : Env) :
    ((∃ path, DevOp.open path ∈ (main K argv env).trace) → env.openRet ≠ -1 →
      (main K argv env).trace.filter DevOp.isClose = [DevOp.close env.openRet] ∧
      (main K argv env).trace.getLast? = some (DevOp.close env.openRet) ∧
      (env.tcsetattrRet ≠ 0 → (main K argv env).trace.filter DevOp.isWrite = [])) ∧
    (((∀ path, DevOp.open path ∉ (main K argv env).trace) ∨ env.openRet = -1) →
      (main K argv env).trace.filter DevOp.isClose = []) := by
  rcases main_cases K argv env with ⟨r, hr, hm⟩ | ⟨o, ho, hcase⟩
  · have ht := processOptions_error_trace _ _ _ hr
    rw [hm, ht]
    exact ⟨fun ⟨p, hp⟩ => by simp at hp, fun _ => rfl⟩
  · rcases hcase with ⟨-, hm⟩ | ⟨-, e, -, hm⟩ | ⟨-, cfg, ts, -, hdev⟩
    · rw [hm]
      exact ⟨fun ⟨p, hp⟩ => by simp at hp, fun _ => rfl⟩
    · rw [hm]
      exact ⟨fun ⟨p, hp⟩ => by simp at hp, fun _ => rfl⟩
    · rcases hdev with ⟨ha, hm⟩ | ⟨ha, hop, hm⟩ | ⟨ha, hop, ht, hm⟩ | ⟨ha, hop, ht, hm⟩
      · rw [hm]
        exact ⟨fun ⟨p, hp⟩ => by simp at hp, fun _ => rfl⟩
      · rw [hm]
        exact ⟨fun _ hne => absurd hop hne, fun _ => rfl⟩
      · rw [hm]
        refine ⟨fun _ _ => ⟨rfl, rfl, fun _ => rfl⟩, ?_⟩
        rintro (h | h)
        · exact absurd (by simp) (h o.devNameStr)
        · exact absurd h hop
      · rw [hm]
        refine ⟨fun _ _ => ⟨?_, ?_, fun h => absurd ht h⟩, ?_⟩
        · simp only [List.filter_append, pingLoop_filter_isClose]
          rfl
        · exact List.getLast?_concat _
        · rintro (h | h)
          · exact absurd (by simp) (h o.devNameStr)
          · exact absurd h hop

/-! ## Buffers and the strings they hold -/

theorem cstring_of_not_mem {s : List Char} (h : NUL ∉ s) : cstring s = s := by
  unfold cstring
  rw [List.takeWhile_eq_self_iff]
  intro x hx
  have : x ≠ NUL := fun e => h (e ▸ hx)
  simpa using this

/-- A buffer is the string it holds, or that string followed by a NUL and
further bytes. -/
theorem eq_cstring_append (s : List Char) :
    s = cstring s ∨ ∃ junk, s = cstring s ++ NUL :: junk := by
  induction s with
  | nil => exact Or.inl rfl
  | cons x xs ih =>
    by_cases hx : x = NUL
    · right
      refine ⟨xs, ?_⟩
      simp [cstring, List.takeWhile_cons, hx]
    · have e : cstring (x :: xs) = x :: cstring xs := by
        simp [cstring, List.takeWhile_cons, hx]
      rcases ih with h | ⟨junk, h⟩
      · left
        rw [e, ← h]
      · right
        refine ⟨junk, ?_⟩
        rw [e, List.cons_append, ← h]

/-- The parser reads the string a buffer holds. -/
theorem parseConfig_cstring (K : Host) (ts : Termios) (s : List Char) :
    parseConfig K ts s = parseConfig K ts (cstring s) := by
  rcases eq_cstring_append s with h | ⟨junk, h⟩
  · rw [← h]
  · conv_lhs => rw [h]
    exact parseConfig_buffer K ts (cstring s) junk (NUL_not_mem_cstring s)

theorem strtolValue_cstring (s : List Char) : strtolValue s = strtolValue (cstring s) := by
  rcases eq_cstring_append s with h | ⟨junk, h⟩
  · rw [← h]
  · conv_lhs => rw [h]
    exact strtolValue_append_NUL (cstring s) junk

theorem strlen_le_of_drop (s : List Char) (n : Nat) (h : s.drop n = [NUL]) : strlen s ≤ n := by
  induction n generalizing s with
  | zero =>
    rw [List.drop_zero] at h
    rw [h]
    decide
  | succ n ih =>
    cases s with
    | nil => simp at h
    | cons x xs =>
      rw [List.drop_succ_cons] at h
      have := ih xs h
      simp only [strlen]
      split
      · omega
      · omega

/-- The exact number `strtol` reads from an accepted string of at most 10
characters is the accepted rate. -/
theorem strtolValue_of_accepted (K : Host) (ts : Termios) (s : List Char)
    (cfg : LineConfiguration) (ts1 : Termios) (hlen : strlen s ≤ 10)
    (h : parseConfig K ts s = .ok (cfg, ts1)) :
    strtolValue s = (cfg.baudRate : Int) ∧ cfg.baudRate ∈ supportedBauds K := by
  have hc : parseConfig K ts (cstring s) = .ok (cfg, ts1) := by
    rw [← parseConfig_cstring]; exact h
  have h0 := NUL_not_mem_cstring s
  have h10 : (cstring s).length ≤ 10 := by rw [← strlen_eq_cstring_length]; exact hlen
  obtain ⟨pre, a, b, c, hs, hpre, -, -, -, hbaud, hsup⟩ :=
    parseConfig_ok_shape K ts (cstring s) cfg ts1 h0 hc
  obtain ⟨-, hfrom⟩ := beforeSeparator_append pre [a, b, c] hpre
  rw [← hs] at hfrom
  obtain ⟨-, -, h1, h2⟩ := toUInt32_strtol_short K (cstring s) h10 (by rw [hfrom]; rfl)
  have hr := supportedBauds_range K _ hsup
  rw [hbaud] at hr
  have hnn : 0 ≤ baudCandidate (cstring s) := by
    by_contra hneg
    have := h2 (by omega)
    omega
  refine ⟨?_, hsup⟩
  rw [strtolValue_cstring, hbaud, h1 hnn]
  unfold baudCandidate
  rw [strtolValue_beforeSeparator]

/-- C16: for every config string of at most 10 characters that the parser
accepts, the exact number `strtol` reads is the accepted rate, a member of
the supported set; in `main` the config buffer never holds more than 10
characters, so this is so for every config string `main` accepts. -/
theorem accepted_baud_exact (K : Host) (ts : Termios) (s : List Char)
    (cfg : LineConfiguration) (ts1 : Termios) (argv : List GetoptRound) (o : Options) :
    (strlen s ≤ 10 → parseConfig K ts s = .ok (cfg, ts1) →
      strtolValue s = (cfg.baudRate : Int) ∧ cfg.baudRate ∈ supportedBauds K ∧
      strtolValue s ∈ (supportedBauds K).map Int.ofNat) ∧
    (processOptions Options.initial argv = .ok o →
      parseConfig K (rawSettings K) o.configStr = .ok (cfg, ts1) →
      strlen o.configStr ≤ 10 ∧ strtolValue o.configStr = (cfg.baudRate : Int) ∧
      cfg.baudRate ∈ supportedBauds K ∧
      strtolValue o.configStr ∈ (supportedBauds K).map Int.ofNat) := by
  constructor
  · intro hlen h
    obtain ⟨h1, h2⟩ := strtolValue_of_accepted K ts s cfg ts1 hlen h
    refine ⟨h1, h2, ?_⟩
    rw [h1]
    exact List.mem_map_of_mem _ h2
  · intro ho h
    have hlen : strlen o.configStr ≤ 10 :=
      strlen_le_of_drop _ _ (processOptions_terminated _ _ _ ho initial_terminated).2.1
    obtain ⟨h1, h2⟩ := strtolValue_of_accepted K _ _ cfg ts1 hlen h
    refine ⟨hlen, h1, h2, ?_⟩
    rw [h1]
    exact List.mem_map_of_mem _ h2

/-- The parser on a buffer that holds a string and nothing else reads the
string. -/
theorem parseConfig_bufferOf (K : Host) (ts : Termios) (size : Nat) (s : List Char)
    (h : strlen s < size) : parseConfig K ts (bufferOf size s) = parseConfig K ts (cstring s) := by
  rw [parseConfig_cstring K ts (bufferOf size s), cstring_bufferOf size s h]

/-- C17: a run of `main` that ends with an argument error or with one of the
six messages of the parser made no device call; in particular a rejected
config string ends the run with its message and an empty trace whatever the
device would answer, and so does the rejected argument of the last config
option of the command line. -/
theorem main_no_device_call (K : Host) (argv : List GetoptRound) (env : Env) :
    (∀ m, (main K argv env).message = some m → (m.isArgumentError ∨ ∃ e, m = .config e) →
      (main K argv env).trace = []) ∧
    (∀ r, processOptions Options.initial argv = .error r → (main K argv env).trace = []) ∧
    (∀ o, processOptions Options.initial argv = .ok o → o.requiredArgs ≠ 0 →
      main K argv env = { retVal := some (-1), message := some .usage, trace := [] }) ∧
    (∀ o e, processOptions Options.initial argv = .ok o → o.requiredArgs = 0 →
      parseConfig K (rawSettings K) o.configStr = .error e →
      main K argv env = { retVal := some (-1), message := some (.config e), trace := [] }) ∧
    (∀ pre g post arg o e, argv = pre ++ g :: post → g.isConfig → g.optarg = some arg →
      (∀ x ∈ post, ¬ x.isConfig) → processOptions Options.initial argv = .ok o →
      o.requiredArgs = 0 → parseConfig K (rawSettings K) (cstring arg) = .error e →
      main K argv env = { retVal := some (-1), message := some (.config e), trace := [] }) := by
  have hreq : ∀ o, processOptions Options.initial argv = .ok o → o.requiredArgs ≠ 0 →
      main K argv env = { retVal := some (-1), message := some .usage, trace := [] } := by
    intro o ho hr
    unfold main
    rw [ho]
    simp only []
    rw [if_pos hr]
  have hparse : ∀ o e, processOptions Options.initial argv = .ok o → o.requiredArgs = 0 →
      parseConfig K (rawSettings K) o.configStr = .error e →
      main K argv env = { retVal := some (-1), message := some (.config e), trace := [] } := by
    intro o e ho hr hp
    unfold main
    rw [ho]
    simp only []
    rw [if_neg (not_not.2 hr), hp]
  refine ⟨?_, ?_, hreq, hparse, ?_⟩
  · intro m hm hkind
    rcases main_cases K argv env with ⟨r, hr, he⟩ | ⟨o, ho, hcase⟩
    · rw [he]; exact processOptions_error_trace _ _ _ hr
    · rcases hcase with ⟨-, he⟩ | ⟨-, e, -, he⟩ | ⟨-, cfg, ts, -, hdev⟩
      · rw [he]
      · rw [he]
      · exfalso
        rcases hdev with ⟨-, he⟩ | ⟨-, -, he⟩ | ⟨-, -, -, he⟩ | ⟨-, -, -, he⟩ <;>
          rw [he] at hm <;> cases hm <;>
          rcases hkind with hk | ⟨e, hk⟩ <;> first | exact hk | cases hk
  · intro r hr
    have he : main K argv env = r := by unfold main; rw [hr]
    rw [he]
    exact processOptions_error_trace _ _ _ hr
  · intro pre g post arg o e hargv hg ha hpost ho hr hp
    apply hparse o e ho hr
    rw [hargv] at ho
    obtain ⟨hl, hb⟩ := processOptions_last_config pre post g arg o ho hg ha hpost
    rw [hb, parseConfig_bufferOf K _ 11 arg (by omega)]
    exact hp

/-! ## Canonical descriptors in the config buffer -/

/-- The parser on a canonical descriptor: accepted with the configuration
the descriptor was made of. -/
theorem parseConfig_canonical (K : Host) (ts : Termios) (b s : Nat) (p : ParityMode) (t : Nat)
    (hb : b ∈ supportedBauds K) (hs : s ∈ [5, 6, 7, 8]) (ht : t ∈ [1, 2]) :
    ∃ ts1, parseConfig K ts (descriptor b s p t) =
      .ok ({ baudRate := b, characterSize := s, parityMode := p, stopBits := t }, ts1) := by
  have hb1 := (mem_supportedBauds K b).1 hb
  have hb2 : (b = 50 ∨ b = 75 ∨ b = 110 ∨ b = 134 ∨ b = 150 ∨ b = 200 ∨ b = 300 ∨ b = 600 ∨
      b = 1200 ∨ b = 2400 ∨ b = 4800 ∨ b = 9600 ∨ b = 19200 ∨ b = 38400 ∨ b = 57600 ∨
      b = 115200 ∨ b = 230400) ∨ b = 128000 ∨ b = 256000 := by
    rcases hb1 with h | h | h
    · exact Or.inl h
    · exact Or.inr (Or.inl h.1)
    · exact Or.inr (Or.inr h.1)
  obtain ⟨speed, hspeed⟩ := Option.isSome_iff_exists.1 (baudSwitch_isSome_of_mem K b hb)
  unfold descriptor
  obtain ⟨e1, e2, e3⟩ := digits_of_supported b
    (Nat.toDigits 10 s ++ p.letter :: Nat.toDigits 10 t) hb2
  have e4 : toUInt32 (strtol K.longBits
      (Nat.toDigits 10 b ++ '_' :: (Nat.toDigits 10 s ++ p.letter :: Nat.toDigits 10 t))) = b := by
    rw [strtol_eq_value K _ (by rw [e2]; omega) (by rw [e2]; omega), e2, toUInt32_natCast b e3]
  simp only [parseConfig, e1, e4, hspeed]
  simp only [List.mem_cons, List.mem_nil_iff, or_false] at hs ht
  rcases hs with h | h | h | h <;> subst h <;> rcases ht with h | h <;> subst h <;>
    cases p <;> exact ⟨_, rfl⟩

/-- A canonical descriptor has at most 10 characters, none of them NUL. -/
theorem descriptor_short (K : Host) (b s : Nat) (p : ParityMode) (t : Nat)
    (hb : b ∈ supportedBauds K) (hs : s ∈ [5, 6, 7, 8]) (ht : t ∈ [1, 2]) :
    (descriptor b s p t).length ≤ 10 ∧ NUL ∉ descriptor b s p t := by
  have hb1 := (mem_supportedBauds K b).1 hb
  have hd : (Nat.toDigits 10 b).length ≤ 6 ∧ NUL ∉ Nat.toDigits 10 b := by
    rcases hb1 with (h | h | h | h | h | h | h | h | h | h | h | h | h | h | h | h | h) |
      ⟨h, -⟩ | ⟨h, -⟩ <;> subst h <;> decide
  have hr : (Nat.toDigits 10 s ++ p.letter :: Nat.toDigits 10 t).length = 3 ∧
      NUL ∉ Nat.toDigits 10 s ++ p.letter :: Nat.toDigits 10 t := by
    simp only [List.mem_cons, List.mem_nil_iff, or_false] at hs ht
    rcases hs with h | h | h | h <;> subst h <;> rcases ht with h | h <;> subst h <;>
      cases p <;> decide
  unfold descriptor
  constructor
  · rw [List.length_append, List.length_cons, hr.1]
    omega
  · intro hm
    rcases List.mem_append.1 hm with h | h
    · exact hd.2 h
    · rcases List.mem_cons.1 h with h | h
      · exact absurd h (by decide)
      · exact hr.2 h

/-- C18: every canonical descriptor of a supported rate, a size, a parity
and a stop count has at most 10 characters, so the config option accepts it
at any point of option processing; the config buffer then holds the
descriptor followed by NULs and nothing else, and the parser, run on the
buffer, accepts it with the configuration it was made of. -/
theorem descriptor_passes_guard (K : Host) (b s : Nat) (p : ParityMode) (t : Nat)
    (pre : List GetoptRound) (g : GetoptRound) (o : Options)
    (hb : b ∈ supportedBauds K) (hs : s ∈ [5, 6, 7, 8]) (ht : t ∈ [1, 2]) :
    (descriptor b s p t).length ≤ 10 ∧ strlen (descriptor b s p t) < CONST_CONFIGSTR ∧
    (processOptions Options.initial pre = .ok o → g.isConfig →
      g.optarg = some (descriptor b s p t) →
      ∃ o1, optionCase o g = .ok o1 ∧
        o1.configStr = descriptor b s p t ++
          List.replicate (11 - (descriptor b s p t).length) NUL ∧
        o1.configStr.length = 11 ∧ cstring o1.configStr = descriptor b s p t ∧
        ∃ ts1, parseConfig K (rawSettings K) o1.configStr =
          .ok ({ baudRate := b, characterSize := s, parityMode := p, stopBits := t },
            ts1)) := by
  obtain ⟨hlen, h0⟩ := descriptor_short K b s p t hb hs ht
  have hsl : strlen (descriptor b s p t) = (descriptor b s p t).length := strlen_eq_length h0
  refine ⟨hlen, by rw [hsl]; simp only [CONST_CONFIGSTR]; omega, ?_⟩
  intro hpre hg ha
  have hterm := processOptions_terminated _ _ _ hpre initial_terminated
  have hcase := optionCase_config o g _ hg ha
  rw [if_neg (by rw [hsl]; simp only [CONST_CONFIGSTR]; omega)] at hcase
  have hbuf : strncpy o.configStr (descriptor b s p t) (CONST_CONFIGSTR - 1) =
      bufferOf 11 (descriptor b s p t) :=
    strncpy_buffer _ _ 10 hterm.2.1 (by rw [hsl]; exact hlen)
  refine ⟨_, hcase, ?_, ?_, ?_, ?_⟩
  · simp only []
    rw [hbuf]
    unfold bufferOf
    rw [cstring_of_not_mem h0, hsl]
  · simp only []
    rw [hbuf]
    exact length_bufferOf 11 _ (by rw [hsl]; omega)
  · simp only []
    rw [hbuf, cstring_bufferOf 11 _ (by rw [hsl]; omega), cstring_of_not_mem h0]
  · simp only []
    rw [hbuf, parseConfig_bufferOf K _ 11 _ (by rw [hsl]; omega), cstring_of_not_mem h0]
    exact parseConfig_canonical K (rawSettings K) b s p t hb hs ht

/-- C19: after option processing each of the three buffers is the argument
of the last round of its option followed by NULs up to the size of the
buffer, with nothing of an earlier value or of the default pattern left;
the string it holds is that argument, and the pattern length is the length
of the last pattern argument. -/
theorem buffers_hold_last_argument (pre post : List GetoptRound) (g : GetoptRound)
    (arg : List Char) (o : Options)
    (h : processOptions Options.initial (pre ++ g :: post) = .ok o)
    (ha : g.optarg = some arg) :
    (g.isDevice → (∀ x ∈ post, ¬ x.isDevice) →
      strlen arg ≤ 29 ∧ o.devNameStr = bufferOf 30 arg ∧ o.devNameStr.length = 30 ∧
      cstring o.devNameStr = cstring arg) ∧
    (g.isConfig → (∀ x ∈ post, ¬ x.isConfig) →
      strlen arg ≤ 10 ∧ o.configStr = bufferOf 11 arg ∧ o.configStr.length = 11 ∧
      cstring o.configStr = cstring arg) ∧
    (g.isPattern → (∀ x ∈ post, ¬ x.isPattern) →
      strlen arg ≤ 80 ∧ o.patternStr = bufferOf 81 arg ∧ o.patternStr.length = 81 ∧
      cstring o.patternStr = cstring arg ∧ o.patternLength = strlen arg ∧
      o.patternStr.take o.patternLength = cstring arg) := by
  refine ⟨?_, ?_, ?_⟩
  · intro hg hpost
    obtain ⟨hl, hb⟩ := processOptions_last_device pre post g arg o h hg ha hpost
    refine ⟨hl, hb, ?_, ?_⟩
    · rw [hb]; exact length_bufferOf 30 arg (by omega)
    · rw [hb]; exact cstring_bufferOf 30 arg (by omega)
  · intro hg hpost
    obtain ⟨hl, hb⟩ := processOptions_last_config pre post g arg o h hg ha hpost
    refine ⟨hl, hb, ?_, ?_⟩
    · rw [hb]; exact length_bufferOf 11 arg (by omega)
    · rw [hb]; exact cstring_bufferOf 11 arg (by omega)
  · intro hg hpost
    obtain ⟨hl, hb, hp⟩ := processOptions_last_pattern pre post g arg o h hg ha hpost
    refine ⟨hl, hb, ?_, ?_, hp, ?_⟩
    · rw [hb]; exact length_bufferOf 81 arg (by omega)
    · rw [hb]; exact cstring_bufferOf 81 arg (by omega)
    · rw [hb, hp]
      unfold bufferOf
      rw [strlen_eq_cstring_length, List.take_left']
      rfl

/-! ## The interval option -/

/-- The interval case of the option switch: the only test is the one against
the maximum. -/
theorem optionCase_interval (o : Options) (g : GetoptRound) (arg : List Char)
    (hg : g.isInterval) (ha : g.optarg = some arg) :
    optionCase o g =
      if g.intervalTooLarge then
        .error { retVal := some (-1), message := some .intervalTooLarge, trace := [] }
      else
        .ok { o with pingInterval := g.intervalMicros } := by
  unfold optionCase
  rcases hg with hg | hg <;>
    simp [hg, ha, ARG_HELP, ARG_D, ARG_C, ARG_I, ARG_P]

/-! ## The claims on `main` at concrete inputs -/

/-- C11 at the command lines `-h`, which returns 0 after the usage text, and
`-d /dev/ttyS0 -c 9600_8N1` on a device that is not writable, which returns
-1. -/
theorem main_exit_code_witness :
    (helpReached [shortOption 'h' ""] ∨ loopLeft linux [shortOption 'h' ""] quietEnv) ∧
    ((main linux [shortOption 'd' "/dev/ttyS0", shortOption 'c' "9600_8N1"]
        deniedEnv).retVal = some (-1) ∨
      ((main linux [shortOption 'd' "/dev/ttyS0", shortOption 'c' "9600_8N1"]
          deniedEnv).retVal = some 0 ∧
        Message.noPermission = Message.usage ∧
        helpReached [shortOption 'd' "/dev/ttyS0", shortOption 'c' "9600_8N1"])) ∧
    (main linux [shortOption 'd' "/dev/ttyS0", shortOption 'c' "9600_8N1"]
      deniedEnv).retVal = some (-1) :=
  ⟨(main_exit_code linux [shortOption 'h' ""] quietEnv).2.1 (by decide),
   (main_exit_code linux [shortOption 'd' "/dev/ttyS0", shortOption 'c' "9600_8N1"]
      deniedEnv).2.2.1 Message.noPermission (by decide),
   by decide⟩

/-- The required options at the command line `-c 9600_8N1`, which has no
device option, and at the empty command line, whose mask is not zero. -/
theorem main_required_arguments_witness :
    ((main linux [shortOption 'c' "9600_8N1"] quietEnv).retVal = some (-1) ∧
      (main linux [shortOption 'c' "9600_8N1"] quietEnv).trace = [] ∧
      ∃ m, (main linux [shortOption 'c' "9600_8N1"] quietEnv).message = some m ∧
        m.isArgumentError) ∧
    (Options.initial.requiredArgs = 0 ↔
      (∃ g ∈ ([] : List GetoptRound), g.isDevice) ∧
      (∃ g ∈ ([] : List GetoptRound), g.isConfig)) :=
  ⟨(main_required_arguments linux [shortOption 'c' "9600_8N1"] quietEnv).1
      (by decide) (Or.inl (by decide)),
   (main_required_arguments linux [] quietEnv).2.2 Options.initial rfl⟩

/-- C13 at the command line `-d /dev/ttyS0 -c 9600_8N1`: on a device that
accepts every call the handle 3 is closed once, at the end; on one that
rejects `tcsetattr` it is closed once and nothing is written. -/
theorem main_close_once_witness :
    ((main linux [shortOption 'd' "/dev/ttyS0", shortOption 'c' "9600_8N1"]
        quietEnv).trace.filter DevOp.isClose = [DevOp.close 3] ∧
      (main linux [shortOption 'd' "/dev/ttyS0", shortOption 'c' "9600_8N1"]
        quietEnv).trace.getLast? = some (DevOp.close 3) ∧
      (quietEnv.tcsetattrRet ≠ 0 →
        (main linux [shortOption 'd' "/dev/ttyS0", shortOption 'c' "9600_8N1"]
          quietEnv).trace.filter DevOp.isWrite = [])) ∧
    (main linux [shortOption 'd' "/dev/ttyS0", shortOption 'c' "9600_8N1"]
      rejectingEnv).trace.filter DevOp.isWrite = [] ∧
    (main linux [shortOption 'd' "/dev/ttyS0", shortOption 'c' "9600_8N1"]
      closedEnv).trace.filter DevOp.isClose = [] :=
  ⟨(main_close_once linux [shortOption 'd' "/dev/ttyS0", shortOption 'c' "9600_8N1"]
      quietEnv).1 ⟨bufferOf 30 "/dev/ttyS0".toList, by decide⟩ (by decide),
   ((main_close_once linux [shortOption 'd' "/dev/ttyS0", shortOption 'c' "9600_8N1"]
      rejectingEnv).1 ⟨bufferOf 30 "/dev/ttyS0".toList, by decide⟩ (by decide)).2.2
      (by decide),
   (main_close_once linux [shortOption 'd' "/dev/ttyS0", shortOption 'c' "9600_8N1"]
      closedEnv).2 (Or.inr rfl)⟩

/-- C14 at a loop whose second write fails: the tick warns and the next tick
follows. -/
theorem pingLoop_write_failures_witness :
    pingLoop lossyEnv 3 Options.initial 2 1 =
      [DevOp.write 3 Options.initial.patternStr 45, DevOp.perror, DevOp.usleep 100000]
        ++ pingLoop lossyEnv 3 Options.initial 1 2 ∧
    pingLoop lossyEnv 3 Options.initial 2 0 =
      [DevOp.write 3 Options.initial.patternStr 45, DevOp.usleep 100000]
        ++ pingLoop lossyEnv 3 Options.initial 1 1 :=
  ⟨(pingLoop_write_failures linux [] lossyEnv (fun _ => 0) 3 Options.initial 1 1).2.2.1
      (by decide),
   (pingLoop_write_failures linux [] lossyEnv (fun _ => 0) 3 Options.initial 1 0).2.2.2.1
      (by decide)⟩

/-- C16 at `9600_8N1`, where the number read is the accepted rate; beyond
the length guard, on a 64-bit `long`, `4294967346_8N1` is read as 4294967346
and accepted at rate 50. -/
theorem accepted_baud_exact_witness :
    (strtolValue "9600_8N1".toList = ((9600 : Nat) : Int) ∧ 9600 ∈ supportedBauds linux ∧
      strtolValue "9600_8N1".toList ∈ (supportedBauds linux).map Int.ofNat) ∧
    (strtolValue "4294967346_8N1".toList = 4294967346 ∧
      parseConfig linux (rawSettings linux) "4294967346_8N1".toList =
        .ok ({ baudRate := 50, characterSize := 8, parityMode := .None, stopBits := 1 },
          { c_iflag := 0, c_oflag := 0, c_cflag := 0o4061, c_lflag := 0, c_ispeed := 0,
            c_ospeed := 0 })) :=
  ⟨(accepted_baud_exact linux (rawSettings linux) "9600_8N1".toList
      { baudRate := 9600, characterSize := 8, parityMode := .None, stopBits := 1 }
      { c_iflag := 0, c_oflag := 0, c_cflag := 0o4075, c_lflag := 0, c_ispeed := 0,
        c_ospeed := 0 } [] Options.initial).1 (by decide) (by decide),
   by decide⟩

/-- C17 at the command line `-d /dev/ttyS0 -c 9601_8N1` on a device that
would accept every call: the run ends with the invalid baud rate message
and no device call. -/
theorem main_no_device_call_witness :
    (main linux [shortOption 'd' "/dev/ttyS0", shortOption 'c' "9601_8N1"] quietEnv).message =
      some (.config .InvalidBaudRate) ∧
    (main linux [shortOption 'd' "/dev/ttyS0", shortOption 'c' "9601_8N1"] quietEnv).trace =
      [] :=
  ⟨by decide,
   (main_no_device_call linux [shortOption 'd' "/dev/ttyS0", shortOption 'c' "9601_8N1"]
      quietEnv).1 (.config .InvalidBaudRate) (by decide) (Or.inr ⟨_, rfl⟩)⟩

/-- C18 at the longest descriptors, those of 115200 and 230400 baud. -/
theorem descriptor_passes_guard_witness :
    (∃ o1, optionCase Options.initial (shortOption 'c' "115200_8N1") = .ok o1 ∧
      o1.configStr = descriptor 115200 8 .None 1 ++
        List.replicate (11 - (descriptor 115200 8 .None 1).length) NUL ∧
      o1.configStr.length = 11 ∧ cstring o1.configStr = descriptor 115200 8 .None 1 ∧
      ∃ ts1, parseConfig linux (rawSettings linux) o1.configStr =
        .ok ({ baudRate := 115200, characterSize := 8, parityMode := .None, stopBits := 1 },
          ts1)) ∧
    (descriptor 230400 7 .Odd 2).length ≤ 10 :=
  ⟨(descriptor_passes_guard linux 115200 8 .None 1 [] (shortOption 'c' "115200_8N1")
      Options.initial (by decide) (by decide) (by decide)).2.2 rfl (Or.inl rfl) rfl,
   (descriptor_passes_guard linux 230400 7 .Odd 2 [] (shortOption 'c' "230400_7O2")
      Options.initial (by decide) (by decide) (by decide)).1⟩

set_option maxRecDepth 8192 in
/-- C19 at three command lines: a pattern followed by the shorter pattern
`ab`, a device name followed by the empty one, and a config string followed
by one of the maximal length 10. -/
theorem buffers_hold_last_argument_witness :
    (strlen "ab".toList ≤ 80 ∧
      optionsAfterPatterns.patternStr = bufferOf 81 "ab".toList ∧
      optionsAfterPatterns.patternStr.length = 81 ∧
      cstring optionsAfterPatterns.patternStr = cstring "ab".toList ∧
      optionsAfterPatterns.patternLength = strlen "ab".toList ∧
      optionsAfterPatterns.patternStr.take optionsAfterPatterns.patternLength =
        cstring "ab".toList) ∧
    (strlen "".toList ≤ 29 ∧ optionsAfterDevices.devNameStr = bufferOf 30 "".toList ∧
      optionsAfterDevices.devNameStr.length = 30 ∧
      cstring optionsAfterDevices.devNameStr = cstring "".toList) ∧
    (strlen "115200_8N1".toList ≤ 10 ∧
      optionsAfterConfigs.configStr = bufferOf 11 "115200_8N1".toList ∧
      optionsAfterConfigs.configStr.length = 11 ∧
      cstring optionsAfterConfigs.configStr = cstring "115200_8N1".toList) :=
  ⟨(buffers_hold_last_argument [shortOption 'p' "a longer first pattern"] []
      (shortOption 'p' "ab") "ab".toList optionsAfterPatterns
      (by decide) rfl).2.2 (Or.inl rfl) (by simp),
   (buffers_hold_last_argument [shortOption 'd' "/dev/ttyS0"] []
      (shortOption 'd' "") "".toList optionsAfterDevices
      (by decide) rfl).1 (Or.inl rfl) (by simp),
   (buffers_hold_last_argument [shortOption 'c' "50_5N1"] []
      (shortOption 'c' "115200_8N1") "115200_8N1".toList optionsAfterConfigs
      (by decide) rfl).2.1 (Or.inl rfl) (by simp)⟩

/-! ## The baud switch against the table of the specification -/

/-- The baud switch takes, for every rate, the constant the table of the
specification gives that rate, and its `default` case for every other
number. -/
theorem baudSwitch_eq_baudConstant (K : Host) (n : Nat) : baudSwitch K n = baudConstant K n := by
  by_cases hm : (n = 50 ∨ n = 75 ∨ n = 110 ∨ n = 134 ∨ n = 150 ∨ n = 200 ∨ n = 300 ∨ n = 600 ∨
      n = 1200 ∨ n = 2400 ∨ n = 4800 ∨ n = 9600 ∨ n = 19200 ∨ n = 38400 ∨ n = 57600 ∨
      n = 115200 ∨ n = 128000 ∨ n = 230400 ∨ n = 256000)
  · rcases hm with h | h | h | h | h | h | h | h | h | h | h | h | h | h | h | h | h | h | h <;>
      subst h <;> rfl
  · simp only [not_or] at hm
    obtain ⟨h1, h2, h3, h4, h5, h6, h7, h8, h9, h10, h11, h12, h13, h14, h15, h16, h17, h18,
      h19⟩ := hm
    have hl : baudSwitch K n = none := by
      unfold baudSwitch
      rw [if_neg h1, if_neg h2, if_neg h3, if_neg h4, if_neg h5, if_neg h6, if_neg h7,
        if_neg h8, if_neg h9, if_neg h10, if_neg h11, if_neg h12, if_neg h13, if_neg h14,
        if_neg h15, if_neg h16, if_neg h17, if_neg h18, if_neg h19]
    have hr : (baudTable K).lookup n = none := by
      rw [List.lookup_eq_none_iff]
      intro e he
      simp only [baudTable, List.mem_cons, List.mem_nil_iff, or_false] at he
      rcases he with h | h | h | h | h | h | h | h | h | h | h | h | h | h | h | h | h | h |
        h <;> subst h <;> simp only [bne_iff_ne, ne_eq] <;> assumption
    rw [hl, baudConstant, hr]
    rfl

/-- The constants of the seventeen rates of Linux, one by one. -/
theorem baudConstant_linux :
    (baudTable linux).map (fun e => (e.1, baudSwitch linux e.1)) =
      [(50, some 0o1), (75, some 0o2), (110, some 0o3), (134, some 0o4), (150, some 0o5),
       (200, some 0o6), (300, some 0o7), (600, some 0o10), (1200, some 0o11),
       (2400, some 0o13), (4800, some 0o14), (9600, some 0o15), (19200, some 0o16),
       (38400, some 0o17), (57600, some 0o10001), (115200, some 0o10002), (128000, none),
       (230400, some 0o10003), (256000, none)] := by
  decide

/-! ## The framing on Linux -/

/-- On a host with the `CBAUD` mask the parser leaves the two speed members
as it found them. -/
theorem parseConfig_speed_members (K : Host) (ts : Termios) (s : List Char)
    (cfg : LineConfiguration) (ts1 : Termios) (hK : K.CBAUD.isSome = true)
    (h : parseConfig K ts s = .ok (cfg, ts1)) :
    ts1.c_ispeed = ts.c_ispeed ∧ ts1.c_ospeed = ts.c_ospeed := by
  obtain ⟨q, speed, bits, charSize, parity, cflag1, stop, cflag2, -, -, -, -, -, -, -, hts⟩ :=
    parseConfig_ok K ts s cfg ts1 h
  subst hts
  unfold setSpeed
  cases hc : K.CBAUD with
  | none => rw [hc] at hK; cases hK
  | some cbaud => exact ⟨rfl, rfl⟩

/-- The character each switch matched, read back from the label of the case
taken. -/
theorem charSizeSwitch_char {K : Host} {c : Char} {bits charSize : Nat}
    (h : charSizeSwitch K c = some (bits, charSize)) : Nat.toDigits 10 bits = [c] := by
  unfold charSizeSwitch at h
  split_ifs at h with h1 h2 h3 h4 <;> simp only [Option.some.injEq, Prod.mk.injEq] at h <;>
    obtain ⟨rfl, -⟩ := h <;> subst c <;> rfl

theorem paritySwitch_char {K : Host} {c : Char} {cflag cflag1 : Nat} {parity : ParityMode}
    (h : paritySwitch K c cflag = some (parity, cflag1)) : parity.letter = c := by
  unfold paritySwitch at h
  split_ifs at h with h1 h2 h3 <;> simp only [Option.some.injEq, Prod.mk.injEq] at h <;>
    obtain ⟨rfl, -⟩ := h <;> subst c <;> rfl

theorem stopBitsSwitch_char {K : Host} {c : Char} {cflag cflag2 stop : Nat}
    (h : stopBitsSwitch K c cflag = some (stop, cflag2)) : Nat.toDigits 10 stop = [c] := by
  unfold stopBitsSwitch at h
  split_ifs at h with h1 h2 <;> simp only [Option.some.injEq, Prod.mk.injEq] at h <;>
    obtain ⟨rfl, -⟩ := h <;> subst c <;> rfl

theorem fromSeparator_append {pre : List Char} (rest : List Char) (h : '_' ∉ pre) :
    fromSeparator (pre ++ '_' :: rest) = '_' :: rest := by
  induction pre with
  | nil => simp [fromSeparator]
  | cons x xs ih =>
    have hx : x ≠ '_' := fun e => h (by simp [e])
    have hxs : '_' ∉ xs := fun e => h (by simp [e])
    have := ih hxs
    simp only [fromSeparator] at this ⊢
    simp [List.dropWhile_cons, hx, this]

/-- The string an accepted buffer holds ends with the separator and the
three characters of the labels the switches took: the size digit, the parity
letter and the stop digit. -/
theorem parseConfig_ok_letters (K : Host) (ts : Termios) (s : List Char)
    (cfg : LineConfiguration) (ts1 : Termios) (h : parseConfig K ts s = .ok (cfg, ts1)) :
    fromSeparator (cstring s) =
      '_' :: (Nat.toDigits 10 cfg.characterSize ++
        cfg.parityMode.letter :: Nat.toDigits 10 cfg.stopBits) := by
  rw [parseConfig_cstring] at h
  have h0 := NUL_not_mem_cstring s
  generalize cstring s = w at h h0
  obtain ⟨q, speed, bits, charSize, parity, cflag1, stop, cflag2, hq, hlen, -, hcs, hpar,
    hstop, hcfg, -⟩ := parseConfig_ok K ts w cfg ts1 h
  obtain ⟨pre, rest, hs, hq2, hpre, -⟩ := strchr_some hq underscore_ne_NUL
  have hq0 : NUL ∉ q := by
    intro hm
    apply h0
    rw [hs, ← hq2]
    exact List.mem_append_right _ hm
  rw [strlen_eq_length hq0] at hlen
  obtain ⟨u, a, b, c, hq4⟩ := length_eq_four hlen
  rw [hq4] at hq2 hcs hpar hstop
  simp only [List.cons.injEq] at hq2
  obtain ⟨hu, hrest⟩ := hq2
  simp only [List.tail_cons, deref, List.headD_cons] at hcs hpar hstop
  rw [hs, fromSeparator_append rest hpre, hcfg, ← hrest]
  simp only []
  rw [charSizeSwitch_char hcs, paritySwitch_char hpar, stopBitsSwitch_char hstop]
  rfl

/-- The rate a Linux speed constant stands for is the rate whose case the
baud switch took. -/
theorem rateOfConstant_linux {n speed : Nat} (h : baudSwitch linux n = some speed) :
    rateOfConstant linux speed = some n := by
  have hm : n ∈ supportedBauds linux := by
    by_contra hn
    rw [(baudSwitch_eq_none_iff linux n).2 hn] at h
    cases h
  rw [mem_supportedBauds] at hm
  rcases hm with (hm | hm | hm | hm | hm | hm | hm | hm | hm | hm | hm | hm | hm | hm | hm | hm |
    hm) | ⟨hm, hs⟩ | ⟨hm, hs⟩
  all_goals first
    | (subst hm; simp only [baudSwitch, linux] at h; simp at h; subst h; decide)
    | (exact absurd hs (by decide))

/-- The attribute set of an accepted parse on Linux, started from the raw
settings, in full: every member is zero except `c_cflag`, which is `CLOCAL`
with the constant the table gives the rate, the size constant, the parity
bits and the stop bit; and the framing a driver reads off it is the
configuration of the labels. -/
theorem parseConfig_linux_settings (s : List Char) (cfg : LineConfiguration) (ts1 : Termios)
    (h : parseConfig linux (rawSettings linux) s = .ok (cfg, ts1)) :
    ∃ speed, baudConstant linux cfg.baudRate = some speed ∧
      baudSwitch linux cfg.baudRate = some speed ∧
      ts1 = framedSettings linux speed cfg ∧
      decodeFraming linux ts1 = some cfg := by
  obtain ⟨h1, h2, h3, -, -, ⟨speed, hspeed, hcar⟩, hsize, hstop, hN, hE, hO, hs1, hs2⟩ :=
    parseConfig_linux_word s cfg ts1 h
  obtain ⟨h4, h5⟩ := parseConfig_speed_members linux (rawSettings linux) s cfg ts1 rfl h
  obtain ⟨c1, c2, -, -, c5⟩ := hcar
  refine ⟨speed, by rw [← baudSwitch_eq_baudConstant]; exact hspeed, hspeed, ?_, ?_⟩
  · cases ts1
    simp only at h1 h2 h3 h4 h5 c5
    subst h1 h2 h3 h4 h5 c5
    rfl
  · have hr := rateOfConstant_linux hspeed
    have hz : sizeOfConstant linux (ts1.c_cflag &&& linux.CSIZE) = some cfg.characterSize := by
      rw [c2]
      simp only [List.mem_cons, List.mem_nil_iff, or_false] at hsize
      rcases hsize with e | e | e | e <;> rw [e] <;> decide
    have hp : (if ts1.c_cflag &&& linux.PARENB = 0 then ParityMode.None
        else if ts1.c_cflag &&& linux.PARODD = 0 then ParityMode.Even
        else ParityMode.Odd) = cfg.parityMode := by
      cases hpm : cfg.parityMode with
      | None => rw [hN hpm]; rfl
      | Even => rw [(hE hpm).1, (hE hpm).2]; rfl
      | Odd => rw [(hO hpm).1, (hO hpm).2]; rfl
    have ht : (if ts1.c_cflag &&& linux.CSTOPB = 0 then 1 else 2) = cfg.stopBits := by
      simp only [List.mem_cons, List.mem_nil_iff, or_false] at hstop
      rcases hstop with e | e
      · rw [hs1 e, e]; rfl
      · rw [hs2 e, e]; rfl
    have hcb : speedField linux ts1 = speed := c1
    unfold decodeFraming
    simp only [hcb, hr, hz, hp, ht]

/-! ## The claims on canonical descriptors and on the framing -/

/-- What the parser leaves alone, on every host: the input, output and
local flag words are those it was given; the speed members hold the constant
the table gives the parsed rate where the host has no `CBAUD` mask, and are
left alone where it has one. -/
theorem parseConfig_frame (K : Host) (ts : Termios) (s : List Char)
    (cfg : LineConfiguration) (ts1 : Termios) (h : parseConfig K ts s = .ok (cfg, ts1)) :
    ∃ speed, baudConstant K cfg.baudRate = some speed ∧
      ts1.c_iflag = ts.c_iflag ∧ ts1.c_oflag = ts.c_oflag ∧ ts1.c_lflag = ts.c_lflag ∧
      (K.CBAUD = none → ts1.c_ispeed = speed ∧ ts1.c_ospeed = speed) ∧
      (K.CBAUD ≠ none → ts1.c_ispeed = ts.c_ispeed ∧ ts1.c_ospeed = ts.c_ospeed) := by
  obtain ⟨q, speed, bits, charSize, parity, cflag1, stop, cflag2, -, -, hspeed, -, -, -, hcfg,
    hts⟩ := parseConfig_ok K ts s cfg ts1 h
  subst hts hcfg
  refine ⟨speed, by rw [← baudSwitch_eq_baudConstant]; exact hspeed, ?_⟩
  unfold setSpeed
  cases hc : K.CBAUD with
  | none => simp
  | some cbaud => simp

/-- C1: every canonical descriptor of a supported rate, a size in 5..8, a
parity and a stop count in 1..2 is accepted, and the configuration read off
the switches has exactly that rate, size, parity and stop count; on every
host the parser leaves the input, output and local flag words alone and,
where the speed is set through `cfsetispeed` and `cfsetospeed`, both speeds
are the constant the table of the specification gives the rate `b`.  With
the Linux constants the attribute set the parser returns from the raw
settings is, member by member, zero except for `c_cflag`, which is `CLOCAL`
with the constant of the rate `b`, the constant of the size `s`, the bits of
the parity `p` and the bit of the stop count `t`, and the framing a driver
reads off that attribute set is `(b, s, p, t)`. -/
theorem parseConfig_descriptor (K : Host) (ts : Termios) (b s : Nat) (p : ParityMode) (t : Nat)
    (hb : b ∈ supportedBauds K) (hs : s ∈ [5, 6, 7, 8]) (ht : t ∈ [1, 2]) :
    (∃ ts1 speed, parseConfig K ts (descriptor b s p t) =
        .ok ({ baudRate := b, characterSize := s, parityMode := p, stopBits := t }, ts1) ∧
      baudConstant K b = some speed ∧
      ts1.c_iflag = ts.c_iflag ∧ ts1.c_oflag = ts.c_oflag ∧ ts1.c_lflag = ts.c_lflag ∧
      (K.CBAUD = none → ts1.c_ispeed = speed ∧ ts1.c_ospeed = speed) ∧
      (K.CBAUD ≠ none → ts1.c_ispeed = ts.c_ispeed ∧ ts1.c_ospeed = ts.c_ospeed)) ∧
    (K = linux → ∃ speed, baudConstant linux b = some speed ∧
      parseConfig linux (rawSettings linux) (descriptor b s p t) =
        .ok ({ baudRate := b, characterSize := s, parityMode := p, stopBits := t },
          framedSettings linux speed
            { baudRate := b, characterSize := s, parityMode := p, stopBits := t }) ∧
      decodeFraming linux (framedSettings linux speed
          { baudRate := b, characterSize := s, parityMode := p, stopBits := t }) =
        some { baudRate := b, characterSize := s, parityMode := p, stopBits := t }) := by
  constructor
  · obtain ⟨ts1, h1⟩ := parseConfig_canonical K ts b s p t hb hs ht
    obtain ⟨speed, hf⟩ := parseConfig_frame K ts _ _ ts1 h1
    exact ⟨ts1, speed, h1, hf⟩
  · intro hK
    subst hK
    obtain ⟨ts1, h1⟩ := parseConfig_canonical linux (rawSettings linux) b s p t hb hs ht
    obtain ⟨speed, hc, -, hts, hdec⟩ := parseConfig_linux_settings _ _ _ h1
    subst hts
    exact ⟨speed, hc, h1, hdec⟩

/-- C9: with the Linux constants, the `c_cflag` of every accepted descriptor
carries exactly the parsed framing: the baud field is the constant the table
of the specification gives the parsed rate, which is the one the baud switch
took; the size field is the constant of the parsed size, `PARENB` and
`PARODD` follow the parity, `CSTOPB` follows the stop count, and the whole
word is `CLOCAL` with these four fields, every other member of the attribute
set being zero; the framing a driver reads off the attribute set is the
parsed one, and the parsed size, parity and stop count are those the three
characters after the separator spell. -/
theorem parseConfig_linux_framing (s : List Char) (cfg : LineConfiguration) (ts1 : Termios)
    (h : parseConfig linux (rawSettings linux) s = .ok (cfg, ts1)) :
    (∃ speed, baudConstant linux cfg.baudRate = some speed ∧
      baudSwitch linux cfg.baudRate = some speed ∧
      CarriesFraming linux 0o10017 speed cfg ts1.c_cflag ∧
      ts1 = framedSettings linux speed cfg) ∧
    cfg.characterSize ∈ [5, 6, 7, 8] ∧ cfg.stopBits ∈ [1, 2] ∧
    (cfg.parityMode = .None → ts1.c_cflag &&& linux.PARENB = 0) ∧
    (cfg.parityMode = .Even →
      ts1.c_cflag &&& linux.PARENB = linux.PARENB ∧ ts1.c_cflag &&& linux.PARODD = 0) ∧
    (cfg.parityMode = .Odd →
      ts1.c_cflag &&& linux.PARENB = linux.PARENB ∧
      ts1.c_cflag &&& linux.PARODD = linux.PARODD) ∧
    (cfg.stopBits = 1 → ts1.c_cflag &&& linux.CSTOPB = 0) ∧
    (cfg.stopBits = 2 → ts1.c_cflag &&& linux.CSTOPB = linux.CSTOPB) ∧
    decodeFraming linux ts1 = some cfg ∧
    fromSeparator (cstring s) =
      '_' :: (Nat.toDigits 10 cfg.characterSize ++
        cfg.parityMode.letter :: Nat.toDigits 10 cfg.stopBits) := by
  obtain ⟨-, -, -, -, -, ⟨speed, hspeed, hcar⟩, hsize, hstop, hN, hE, hO, hs1, hs2⟩ :=
    parseConfig_linux_word s cfg ts1 h
  obtain ⟨speed2, hc, hsw, hts, hdec⟩ := parseConfig_linux_settings s cfg ts1 h
  have e : speed2 = speed := by
    rw [hspeed] at hsw
    exact (Option.some.inj hsw).symm
  subst e
  exact ⟨⟨speed2, hc, hspeed, hcar, hts⟩, hsize, hstop, hN, hE, hO, hs1, hs2, hdec,
    parseConfig_ok_letters linux (rawSettings linux) s cfg ts1 h⟩

/-- C1 at the two descriptors of the specification, `115200_8N1` and
`9600_7E2`, with the attribute sets in full: `c_cflag` is `CLOCAL`, `B115200`
and `CS8` for the first, `CLOCAL`, `B9600`, `CS7`, `PARENB` and `CSTOPB` for
the second. -/
theorem parseConfig_descriptor_witness :
    (descriptor 115200 8 .None 1 = "115200_8N1".toList ∧
      ∃ speed, baudConstant linux 115200 = some speed ∧
        parseConfig linux (rawSettings linux) (descriptor 115200 8 .None 1) =
          .ok ({ baudRate := 115200, characterSize := 8, parityMode := .None, stopBits := 1 },
            framedSettings linux speed
              { baudRate := 115200, characterSize := 8, parityMode := .None, stopBits := 1 }) ∧
        decodeFraming linux (framedSettings linux speed
            { baudRate := 115200, characterSize := 8, parityMode := .None, stopBits := 1 }) =
          some { baudRate := 115200, characterSize := 8, parityMode := .None, stopBits := 1 }) ∧
    (descriptor 9600 7 .Even 2 = "9600_7E2".toList ∧
      ∃ speed, baudConstant linux 9600 = some speed ∧
        parseConfig linux (rawSettings linux) (descriptor 9600 7 .Even 2) =
          .ok ({ baudRate := 9600, characterSize := 7, parityMode := .Even, stopBits := 2 },
            framedSettings linux speed
              { baudRate := 9600, characterSize := 7, parityMode := .Even, stopBits := 2 }) ∧
        decodeFraming linux (framedSettings linux speed
            { baudRate := 9600, characterSize := 7, parityMode := .Even, stopBits := 2 }) =
          some { baudRate := 9600, characterSize := 7, parityMode := .Even, stopBits := 2 }) ∧
    parseConfig linux (rawSettings linux) "115200_8N1".toList =
      .ok ({ baudRate := 115200, characterSize := 8, parityMode := .None, stopBits := 1 },
        { c_iflag := 0, c_oflag := 0, c_cflag := 0o14062, c_lflag := 0, c_ispeed := 0,
          c_ospeed := 0 }) ∧
    parseConfig linux (rawSettings linux) "9600_7E2".toList =
      .ok ({ baudRate := 9600, characterSize := 7, parityMode := .Even, stopBits := 2 },
        { c_iflag := 0, c_oflag := 0, c_cflag := 0o4555, c_lflag := 0, c_ispeed := 0,
          c_ospeed := 0 }) ∧
    0o14062 = linux.CLOCAL ||| linux.B115200 ||| linux.CS8 ∧
    0o4555 = linux.CLOCAL ||| linux.B9600 ||| linux.CS7 ||| linux.PARENB ||| linux.CSTOPB :=
  ⟨⟨by decide, (parseConfig_descriptor linux (rawSettings linux) 115200 8 .None 1
      (by decide) (by decide) (by decide)).2 rfl⟩,
   ⟨by decide, (parseConfig_descriptor linux (rawSettings linux) 9600 7 .Even 2
      (by decide) (by decide) (by decide)).2 rfl⟩,
   by decide, by decide, by decide, by decide⟩

/-- C9 at `9600_7E2`: the speed field holds `B9600`, the constant of the
table for 9600 baud; the word is `CLOCAL`, `B9600`, `CS7` and `PARENB` with
`CSTOPB`, and the provisional `CS8` is gone. -/
theorem parseConfig_linux_framing_witness :
    (∃ speed, baudConstant linux 9600 = some speed ∧ baudSwitch linux 9600 = some speed ∧
      CarriesFraming linux 0o10017 speed
        { baudRate := 9600, characterSize := 7, parityMode := .Even, stopBits := 2 } 0o4555 ∧
      ({ c_iflag := 0, c_oflag := 0, c_cflag := 0o4555, c_lflag := 0, c_ispeed := 0,
         c_ospeed := 0 } : Termios) =
        framedSettings linux speed
          { baudRate := 9600, characterSize := 7, parityMode := .Even, stopBits := 2 }) ∧
    baudConstant linux 9600 = some linux.B9600 ∧ 0o4555 &&& 0o10017 = linux.B9600 ∧
    0o4555 &&& linux.CSIZE = linux.CS7 ∧
    decodeFraming linux
      { c_iflag := 0, c_oflag := 0, c_cflag := 0o4555, c_lflag := 0, c_ispeed := 0,
        c_ospeed := 0 } =
      some { baudRate := 9600, characterSize := 7, parityMode := .Even, stopBits := 2 } :=
  ⟨(parseConfig_linux_framing "9600_7E2".toList
      { baudRate := 9600, characterSize := 7, parityMode := .Even, stopBits := 2 }
      { c_iflag := 0, c_oflag := 0, c_cflag := 0o4555, c_lflag := 0, c_ispeed := 0,
        c_ospeed := 0 }
      (by decide)).1,
   by decide, by decide, by decide, by decide⟩

/-! ## Baud candidates that are not supported rates -/

/-- The parse section alone, on any attribute set: a string with an
underscore and a 4-character part from it on whose baud candidate is not a
supported rate is rejected with the invalid baud rate message when `long`
has 32 bits, and on every host when the candidate lies between -4294711296
and 4294967296, so that the `uint32_t` it is stored in cannot wrap onto a
supported rate. -/
theorem parseConfig_candidate_rejected (K : Host) (ts : Termios) (s : List Char)
    (h0 : NUL ∉ s) (hu : '_' ∈ s) (hlen : (fromSeparator s).length = 4)
    (hb : baudCandidate s ∉ (supportedBauds K).map Int.ofNat)
    (hr : K.longBits = 32 ∨ (-4294711296 < baudCandidate s ∧ baudCandidate s < 4294967296)) :
    parseConfig K ts s = .error .InvalidBaudRate := by
  have hn : toUInt32 (strtol K.longBits s) ∉ supportedBauds K := by
    intro hm
    have hrange := supportedBauds_range K _ hm
    apply hb
    have hL := two_pow_31_le K
    have hv : strtolValue s = baudCandidate s := by
      unfold baudCandidate
      rw [strtolValue_beforeSeparator]
    have key : (toUInt32 (strtol K.longBits s) : Int) = baudCandidate s := by
      revert hrange
      unfold strtol LONG_MIN LONG_MAX toUInt32
      rw [hv]
      rcases hr with h32 | ⟨h1, h2⟩
      · rw [h32]
        simp only [Nat.add_one_sub_one, Nat.reduceSub]
        intro hrange
        rcases le_total ((2 : Int) ^ 31 - 1) (baudCandidate s) with h | h
        · rw [min_eq_left h] at hrange ⊢
          rw [max_eq_right (by norm_num)] at hrange ⊢
          omega
        · rw [min_eq_right h] at hrange ⊢
          rcases le_total (-(2 : Int) ^ 31) (baudCandidate s) with h' | h'
          · rw [max_eq_right h'] at hrange ⊢
            omega
          · rw [max_eq_left h'] at hrange ⊢
            omega
      · intro hrange
        generalize (2 : Int) ^ (K.longBits - 1) = L at hL hrange ⊢
        rcases le_total (L - 1) (baudCandidate s) with h | h
        · rw [min_eq_left h] at hrange ⊢
          rw [max_eq_right (by omega)] at hrange ⊢
          omega
        · rw [min_eq_right h] at hrange ⊢
          rcases le_total (-L) (baudCandidate s) with h' | h'
          · rw [max_eq_right h'] at hrange ⊢
            omega
          · rw [max_eq_left h'] at hrange ⊢
            omega
    rw [← key]
    exact List.mem_map_of_mem _ hm
  obtain ⟨u, a, b, c, hq⟩ := length_eq_four hlen
  apply errorOf_eq_some
  rw [errorOf_parseConfig_four K ts s u a b c h0 hu hq, if_pos hn]

/-- C3: every config string `main` hands to the parser that contains an
underscore, has a 4-character part from the first underscore on and a baud
candidate that is not a supported rate is rejected with the invalid baud
rate message, and `main` then returns -1 with that message before any device
call; the buffer holds at most 10 characters, the length guard of the config
option having stopped every longer argument.  The parse section taken alone
rejects such a string on any attribute set when `long` has 32 bits, and on
every host when the candidate lies between -4294711296 and 4294967296; the
candidates 0, the negative ones and those of a part without a number are of
that kind. -/
theorem parseConfig_unsupported_baud (K : Host) (argv : List GetoptRound) (env : Env)
    (o : Options) (hp : processOptions Options.initial argv = .ok o) :
    ('_' ∈ cstring o.configStr → (fromSeparator (cstring o.configStr)).length = 4 →
      baudCandidate (cstring o.configStr) ∉ (supportedBauds K).map Int.ofNat →
      parseConfig K (rawSettings K) o.configStr = .error .InvalidBaudRate ∧
      (o.requiredArgs = 0 →
        main K argv env =
          { retVal := some (-1), message := some (.config .InvalidBaudRate), trace := [] })) ∧
    (cstring o.configStr).length ≤ 10 ∧
    (∀ (ts : Termios) (s : List Char), NUL ∉ s → '_' ∈ s → (fromSeparator s).length = 4 →
      baudCandidate s ∉ (supportedBauds K).map Int.ofNat →
      (K.longBits = 32 ∨ (-4294711296 < baudCandidate s ∧ baudCandidate s < 4294967296)) →
      parseConfig K ts s = .error .InvalidBaudRate) := by
  have ht := processOptions_terminated _ _ _ hp initial_terminated
  have h10 : (cstring o.configStr).length ≤ 10 := by
    rw [← strlen_eq_cstring_length]
    exact strlen_le_of_drop _ _ ht.2.1
  refine ⟨?_, h10, fun ts s h0 hu hlen hb hr =>
    parseConfig_candidate_rejected K ts s h0 hu hlen hb hr⟩
  intro hu hlen hb
  obtain ⟨b1, b2, -, -⟩ := toUInt32_strtol_short K (cstring o.configStr) h10 hlen
  have hparse : parseConfig K (rawSettings K) o.configStr = .error .InvalidBaudRate := by
    rw [parseConfig_cstring]
    exact parseConfig_candidate_rejected K _ _ (NUL_not_mem_cstring _) hu hlen hb
      (Or.inr ⟨by omega, by omega⟩)
  refine ⟨hparse, ?_⟩
  intro hreq
  unfold main
  rw [hp]
  simp only []
  rw [if_neg (not_not.2 hreq), hparse]

/-- C3 at the descriptors of the claim, each given with `-c` after
`-d /dev/ttyS0`: `0_8N1`, `-9600_8N1`, `abc_8N1`, `_8N1` and `9601_8N1` end
`main` with the invalid baud rate message; and the parse section on
`0_8N1`. -/
theorem parseConfig_unsupported_baud_witness :
    main linux [shortOption 'd' "/dev/ttyS0", shortOption 'c' "0_8N1"] quietEnv =
      { retVal := some (-1), message := some (.config .InvalidBaudRate), trace := [] } ∧
    main linux [shortOption 'd' "/dev/ttyS0", shortOption 'c' "-9600_8N1"] quietEnv =
      { retVal := some (-1), message := some (.config .InvalidBaudRate), trace := [] } ∧
    main linux [shortOption 'd' "/dev/ttyS0", shortOption 'c' "abc_8N1"] quietEnv =
      { retVal := some (-1), message := some (.config .InvalidBaudRate), trace := [] } ∧
    main linux [shortOption 'd' "/dev/ttyS0", shortOption 'c' "_8N1"] quietEnv =
      { retVal := some (-1), message := some (.config .InvalidBaudRate), trace := [] } ∧
    main linux [shortOption 'd' "/dev/ttyS0", shortOption 'c' "9601_8N1"] quietEnv =
      { retVal := some (-1), message := some (.config .InvalidBaudRate), trace := [] } ∧
    parseConfig linux (rawSettings linux) "0_8N1".toList = .error .InvalidBaudRate :=
  ⟨((parseConfig_unsupported_baud linux
      [shortOption 'd' "/dev/ttyS0", shortOption 'c' "0_8N1"] quietEnv
      (optionsWith "/dev/ttyS0" "0_8N1") (by decide)).1
      (by decide) (by decide) (by decide)).2 rfl,
   ((parseConfig_unsupported_baud linux
      [shortOption 'd' "/dev/ttyS0", shortOption 'c' "-9600_8N1"] quietEnv
      (optionsWith "/dev/ttyS0" "-9600_8N1") (by decide)).1
      (by decide) (by decide) (by decide)).2 rfl,
   ((parseConfig_unsupported_baud linux
      [shortOption 'd' "/dev/ttyS0", shortOption 'c' "abc_8N1"] quietEnv
      (optionsWith "/dev/ttyS0" "abc_8N1") (by decide)).1
      (by decide) (by decide) (by decide)).2 rfl,
   ((parseConfig_unsupported_baud linux
      [shortOption 'd' "/dev/ttyS0", shortOption 'c' "_8N1"] quietEnv
      (optionsWith "/dev/ttyS0" "_8N1") (by decide)).1
      (by decide) (by decide) (by decide)).2 rfl,
   ((parseConfig_unsupported_baud linux
      [shortOption 'd' "/dev/ttyS0", shortOption 'c' "9601_8N1"] quietEnv
      (optionsWith "/dev/ttyS0" "9601_8N1") (by decide)).1
      (by decide) (by decide) (by decide)).2 rfl,
   (parseConfig_unsupported_baud linux [] quietEnv Options.initial rfl).2.2
      (rawSettings linux) "0_8N1".toList (by decide) (by decide) (by decide) (by decide)
      (Or.inr (by decide))⟩

/-! ## Long options without their argument -/

/-- C12 fails on every command line in which `--interval` or `--pattern` is
written without `=value` after options that were accepted: `getopt_long`
returns the value of the long option with a NULL `optarg` (both are declared
with an optional argument), the case hands the NULL to `atof` or `strlen`,
and the run has no return value, on any host and whatever the device would
answer; the claim promises -1 when, as for `--pattern` alone, no help option
is given and the device option is absent. -/
theorem main_missing_optarg (K : Host) (env : Env) (pre post : List GetoptRound)
    (g : GetoptRound) (o : Options) (hpre : processOptions Options.initial pre = .ok o)
    (hg : g = bareLongOption ARG_I ∨ g = bareLongOption ARG_P) :
    main K (pre ++ g :: post) env = { retVal := none, message := none, trace := [] } ∧
    (main K (pre ++ g :: post) env).retVal ≠ some (-1) := by
  have hc : optionCase o g = .error { retVal := none, message := none, trace := [] } := by
    rcases hg with rfl | rfl <;> rfl
  have hm : main K (pre ++ g :: post) env =
      { retVal := none, message := none, trace := [] } := by
    unfold main
    rw [processOptions_append _ _ pre g post hpre, hc]
  rw [hm]
  exact ⟨rfl, by simp⟩

/-- C12 at the command lines `--pattern`, which has no help, device or
config option, and `-c 9600_8N1 --interval`, which has no help or device
option: neither run returns -1. -/
theorem main_missing_optarg_witness :
    (∀ g ∈ [bareLongOption ARG_P], ¬ g.isHelp ∧ ¬ g.isDevice ∧ ¬ g.isConfig) ∧
    (main linux [bareLongOption ARG_P] quietEnv =
        { retVal := none, message := none, trace := [] } ∧
      (main linux [bareLongOption ARG_P] quietEnv).retVal ≠ some (-1)) ∧
    (∀ g ∈ [shortOption 'c' "9600_8N1", bareLongOption ARG_I], ¬ g.isHelp ∧ ¬ g.isDevice) ∧
    (main linux [shortOption 'c' "9600_8N1", bareLongOption ARG_I] quietEnv =
        { retVal := none, message := none, trace := [] } ∧
      (main linux [shortOption 'c' "9600_8N1", bareLongOption ARG_I] quietEnv).retVal ≠
        some (-1)) :=
  ⟨by decide,
   main_missing_optarg linux quietEnv [] [] (bareLongOption ARG_P) Options.initial rfl
     (Or.inr rfl),
   by decide,
   main_missing_optarg linux quietEnv [shortOption 'c' "9600_8N1"] []
     (bareLongOption ARG_I)
     { Options.initial with configStr := bufferOf 11 "9600_8N1".toList, requiredArgs := 1 }
     (by decide) (Or.inl rfl)⟩

/-! ## Rounding to a `double` -/

theorem bitLength_zero (fuel count : Nat) : bitLength fuel 0 count = count := by
  cases fuel <;> simp [bitLength]

/-- The number of binary digits of a positive number brackets it between two
powers of two. -/
theorem bitLength_spec (fuel n count : Nat) (hf : n ≤ fuel) (hn : 0 < n) :
    ∃ len, bitLength fuel n count = count + (len + 1) ∧ 2 ^ len ≤ n ∧ n < 2 ^ (len + 1) := by
  induction fuel generalizing n count with
  | zero => omega
  | succ fuel ih =>
    have hn0 : n ≠ 0 := by omega
    simp only [bitLength, hn0, if_false]
    by_cases h2 : n / 2 = 0
    · refine ⟨0, ?_, ?_, ?_⟩
      · rw [h2, bitLength_zero]
      · simp; omega
      · simp; omega
    · obtain ⟨len, e, h1, h3⟩ := ih (n / 2) (count + 1) (by omega) (by omega)
      refine ⟨len + 1, ?_, ?_, ?_⟩
      · rw [e]; omega
      · rw [pow_succ]; omega
      · rw [pow_succ] at h3 ⊢; omega

/-- For a fraction that is at least 1 the exponent found is not negative and
its power of two is at most the fraction. -/
theorem floorLog2_of_le (n d : Nat) (hd : 0 < d) (h : d ≤ n) :
    ∃ e : Nat, floorLog2 n d = (e : Int) ∧ d * 2 ^ e ≤ n := by
  obtain ⟨a, ea, a1, a2⟩ := bitLength_spec n n 0 le_rfl (by omega)
  obtain ⟨b, eb, b1, b2⟩ := bitLength_spec d d 0 le_rfl hd
  have hba : b ≤ a := by
    by_contra hc
    have : 2 ^ (a + 1) ≤ 2 ^ b := Nat.pow_le_pow_right (by norm_num) (by omega)
    omega
  obtain ⟨k, rfl⟩ := Nat.exists_eq_add_of_le hba
  unfold floorLog2
  rw [ea, eb]
  have hk : ((0 + (b + k + 1) : Nat) : Int) - ((0 + (b + 1) : Nat) : Int) = (k : Int) := by
    push_cast; ring
  simp only [hk, Int.toNat_ofNat, Int.natCast_nonneg, if_true]
  by_cases hc : d * 2 ^ k ≤ n
  · exact ⟨k, by rw [if_pos hc], hc⟩
  · rw [if_neg hc]
    have hk0 : k ≠ 0 := by
      rintro rfl
      simp at hc
      omega
    obtain ⟨j, rfl⟩ := Nat.exists_eq_succ_of_ne_zero hk0
    refine ⟨j, by push_cast; ring, ?_⟩
    have e1 : 2 ^ (b + (j + 1)) = 2 ^ (b + 1) * 2 ^ j := by
      rw [← pow_add]; congr 1; omega
    have h3 : d * 2 ^ j ≤ 2 ^ (b + 1) * 2 ^ j := Nat.mul_le_mul_right _ (by omega)
    exact le_trans h3 (le_trans (le_of_eq e1.symm) a1)

theorem le_roundHalfEven (n d : Nat) : n / d ≤ roundHalfEven n d := by
  unfold roundHalfEven
  simp only []
  split_ifs <;> omega

/-- A fraction that is at least 1 is not rounded below 1: the result is an
infinity or a finite value whose numerator is at least its denominator. -/
theorem roundDouble_of_le (negative : Bool) (n d : Nat) (hd : 0 < d) (h : d ≤ n) :
    roundDouble negative n d = .infinity negative ∨
    ∃ p q, roundDouble negative n d = .finite negative p q ∧ 0 < q ∧ q ≤ p := by
  obtain ⟨e, he, hle⟩ := floorLog2_of_le n d hd h
  have hn : n ≠ 0 := by omega
  unfold roundDouble
  simp only [hn, if_false, he]
  have hs : ¬ ((e : Int) < -1022) := by omega
  simp only [hs, if_false]
  by_cases hsh : (0 : Int) ≤ (e : Int) - 52
  · simp only [hsh, if_true]
    split_ifs with hinf
    · exact Or.inl rfl
    · right
      refine ⟨_, 1, rfl, by norm_num, ?_⟩
      obtain ⟨j, hj⟩ : ∃ j : Nat, (e : Int) - 52 = j := ⟨((e : Int) - 52).toNat, by omega⟩
      rw [hj, Int.toNat_ofNat]
      have hje : j ≤ e := by omega
      have h2 : d * 2 ^ j ≤ n := by
        have : d * 2 ^ j ≤ d * 2 ^ e :=
          Nat.mul_le_mul_left _ (Nat.pow_le_pow_right (by norm_num) hje)
        omega
      have hpos : 0 < d * 2 ^ j := Nat.mul_pos hd (Nat.pow_pos (by norm_num))
      have h3 : 1 ≤ n / (d * 2 ^ j) := (Nat.one_le_div_iff hpos).2 h2
      have h4 := le_roundHalfEven n (d * 2 ^ j)
      have h5 : 1 ≤ 2 ^ j := Nat.one_le_two_pow
      calc 1 = 1 * 1 := rfl
        _ ≤ roundHalfEven n (d * 2 ^ j) * 2 ^ j := Nat.mul_le_mul (by omega) h5
  · simp only [hsh, if_false]
    right
    obtain ⟨k, hk⟩ : ∃ k : Nat, -((e : Int) - 52) = k := ⟨(-((e : Int) - 52)).toNat, by omega⟩
    rw [hk, Int.toNat_ofNat]
    have hq : 2 ^ k ≤ roundHalfEven (n * 2 ^ k) d := by
      have h1 : 2 ^ k ≤ n * 2 ^ k / d := by
        rw [Nat.le_div_iff_mul_le hd]
        rw [Nat.mul_comm]
        exact Nat.mul_le_mul_right _ h
      exact le_trans h1 (le_roundHalfEven _ _)
    have hpow : 0 < 2 ^ k := Nat.pow_pos (by norm_num)
    have hg1 : Nat.gcd (roundHalfEven (n * 2 ^ k) d) (2 ^ k) ∣ 2 ^ k := Nat.gcd_dvd_right _ _
    have hg0 : 0 < Nat.gcd (roundHalfEven (n * 2 ^ k) d) (2 ^ k) :=
      Nat.gcd_pos_of_pos_right _ hpow
    refine ⟨_, _, rfl, ?_, ?_⟩
    · exact Nat.div_pos (Nat.le_of_dvd hpow hg1) hg0
    · exact Nat.div_le_div_right hq

/-! ## The interval option at its bounds and below zero -/

theorem maxInterval_eq : maxInterval = .finite false 2361183240885067 549755813888 := by
  decide

theorem ofNat_million : Double.ofNat 1000000 = .finite false 1000000 1 := by decide

/-- Where C defines the conversion to `uint32_t`, the low 32 bits of the
result of `cvttsd2si` are the value C defines. -/
theorem cvttsd2si_defined (x : Double) (v : Nat) (h : x.toUInt32 = some v) :
    toUInt32 (cvttsd2si x) = v ∧ v ≤ UINT32_MAX := by
  cases x with
  | nan => cases h
  | infinity s => cases h
  | finite s n d =>
    simp only [Double.toUInt32] at h
    simp only [cvttsd2si, signedNum, toUInt32, UINT32_MAX] at h ⊢
    generalize n / d = t at h ⊢
    split_ifs at h ⊢ <;> simp only [Option.some.injEq] at h <;> omega

/-- C15 fails for every interval argument that `atof` reads as a number at
or below -0.000001, as minus infinity or as a NaN: the argument is not above
`maxInterval`, so the case does not reject it; its product with 1000000.0 has
no `uint32_t` value, so the conversion of line 169 is undefined in C; and the
round is accepted with whatever the conversion leaves in `pingInterval`. -/
theorem optionCase_negative_interval (optarg : List Char)
    (h : (∃ n d, atof optarg = .finite true n d ∧ 0 < d ∧ d ≤ n * 1000000) ∨
      atof optarg = .infinity true ∨ atof optarg = .nan) :
    (intervalOption optarg).intervalTooLarge = false ∧
    Double.toUInt32 (Double.mul (atof optarg) (Double.ofNat 1000000)) = none ∧
    (∀ o : Options, optionCase o (intervalOption optarg) =
      .ok { o with pingInterval := (intervalOption optarg).intervalMicros }) := by
  have hflag : (intervalOption optarg).intervalTooLarge = false := by
    show Double.gt (atof optarg) maxInterval = false
    rw [maxInterval_eq]
    rcases h with ⟨n, d, e, -, -⟩ | e | e <;> rw [e]
    · simp only [Double.gt, signedNum, decide_eq_false_iff_not]
      push_cast
      omega
    · rfl
    · rfl
  refine ⟨hflag, ?_, ?_⟩
  · rw [ofNat_million]
    rcases h with ⟨n, d, e, hd, hn⟩ | e | e <;> rw [e]
    · show Double.toUInt32 (roundDouble (true != false) (n * 1000000) (d * 1)) = none
      rcases roundDouble_of_le (true != false) (n * 1000000) (d * 1) (by omega) (by omega)
        with hr | ⟨p, q, hr, hq, hpq⟩
      · rw [hr]; rfl
      · rw [hr]
        have h1 : p / q ≠ 0 := by
          have := (Nat.one_le_div_iff hq).2 hpq
          omega
        simp [Double.toUInt32, h1]
    · rfl
    · rfl
  · intro o
    rw [optionCase_interval o _ optarg (Or.inl rfl) rfl, hflag]
    rfl

set_option maxRecDepth 4096 in
/-- C15 at the interval `-1`: `atof` gives -1.0, which is not above
`maxInterval`, so the round is accepted; the product -1000000.0 has no
`uint32_t` value, and x86-64 stores 4293967296, which `main` then sleeps
after every write.  The argument `nan` is accepted in the same way.  The two
boundary values of the claim behave as it says, 4294.967295 being stored as
4294967295 and 4294.967296 rejected, and the argument `abc` is read as 0. -/
theorem optionCase_negative_interval_witness :
    ((intervalOption "-1".toList).intervalTooLarge = false ∧
      Double.toUInt32 (Double.mul (atof "-1".toList) (Double.ofNat 1000000)) = none ∧
      (∀ o : Options, optionCase o (intervalOption "-1".toList) =
        .ok { o with pingInterval := (intervalOption "-1".toList).intervalMicros })) ∧
    ((intervalOption "nan".toList).intervalTooLarge = false ∧
      Double.toUInt32 (Double.mul (atof "nan".toList) (Double.ofNat 1000000)) = none ∧
      (∀ o : Options, optionCase o (intervalOption "nan".toList) =
        .ok { o with pingInterval := (intervalOption "nan".toList).intervalMicros })) ∧
    atof "-1".toList = .finite true 1 1 ∧
    maxInterval = .finite false 2361183240885067 549755813888 ∧
    Double.gt (atof "-1".toList) maxInterval = false ∧
    Double.mul (atof "-1".toList) (Double.ofNat 1000000) = .finite true 1000000 1 ∧
    intervalOption "-1".toList =
      { getoptRet := 105, optarg := some "-1".toList, intervalTooLarge := false,
        intervalMicros := 4293967296 } ∧
    main linux [shortOption 'd' "/dev/ttyS0", shortOption 'c' "9600_8N1",
        intervalOption "-1".toList] quietEnv =
      { retVal := some 0, message := none,
        trace := [DevOp.access (bufferOf 30 "/dev/ttyS0".toList),
          DevOp.open (bufferOf 30 "/dev/ttyS0".toList),
          DevOp.tcsetattr 3 { c_iflag := 0, c_oflag := 0, c_cflag := 0o4075, c_lflag := 0,
                              c_ispeed := 0, c_ospeed := 0 },
          DevOp.write 3 Options.initial.patternStr 45, DevOp.usleep 4293967296,
          DevOp.write 3 Options.initial.patternStr 45, DevOp.usleep 4293967296,
          DevOp.close 3] } ∧
    intervalOption "4294.967295".toList =
      { getoptRet := 105, optarg := some "4294.967295".toList, intervalTooLarge := false,
        intervalMicros := 4294967295 } ∧
    Double.toUInt32 (Double.mul (atof "4294.967295".toList) (Double.ofNat 1000000)) =
      some 4294967295 ∧
    (intervalOption "4294.967296".toList).intervalTooLarge = true ∧
    main linux [shortOption 'd' "/dev/ttyS0", shortOption 'c' "9600_8N1",
        intervalOption "4294.967296".toList] quietEnv =
      { retVal := some (-1), message := some .intervalTooLarge, trace := [] } ∧
    intervalOption "abc".toList =
      { getoptRet := 105, optarg := some "abc".toList, intervalTooLarge := false,
        intervalMicros := 0 } :=
  ⟨optionCase_negative_interval "-1".toList (Or.inl ⟨1, 1, by decide, by decide, by decide⟩),
   optionCase_negative_interval "nan".toList (Or.inr (Or.inr (by decide))),
   by decide, by decide, by decide, by decide, by decide, by decide, by decide, by decide,
   by decide, by decide, by decide⟩

end Serialping
